import Mathlib

/-!
# go_go_exif: value formatting and coordinate derivation

A shallow embedding of `main.go` (`parseGPS`, `formatValue`, `formatUintSlice`, the text
loop of `main` and `handleJson`) together with the properties established about it.

Go's `float64` is modelled exactly: a value is NaN, a signed infinity, or a signed
`m * 2^e` in canonical IEEE-754 binary64 form, and every arithmetic operation is the
exact rational result rounded to nearest, ties to even.

The standard-library functions the program calls (`strconv.FormatFloat`,
`strconv.FormatUint`, `strconv.Itoa`, `fmt.Sprintf` with `%f` and `%v`, `reflect.TypeOf`)
are modelled by their documented behaviour, and so is `strconv.ParseFloat`, which the
statement about parsing a formatted quotient back refers to. A run-time panic is `none`; the standard output
is the list of lines written; a Go map is an association list with distinct keys. Decoding
the image, flag parsing and the final `json.MarshalIndent` are outside the model:
`handleJson` is followed up to the map it serializes.
-/

set_option autoImplicit false
set_option exponentiation.threshold 4096

namespace GoExif

/-! ## IEEE-754 binary64 -/

/-- A `float64`: NaN, a signed infinity, or the finite value `(-1)^neg * m * 2^e`.
Canonical finite values have `m < 2^53`, `-1074 ≤ e ≤ 971`, and `2^52 ≤ m` unless
`e = -1074` (subnormals and zero). -/
inductive F64 where
  | nan : F64
  | inf (neg : Bool) : F64
  | fin (neg : Bool) (m : Nat) (e : Int) : F64
  deriving DecidableEq, Repr

namespace F64

/-- Smallest exponent of the unit in the last place. -/
def eMin : Int := -1074

/-- Largest exponent of the unit in the last place. -/
def eMax : Int := 971

/-- Signed zero. -/
def zero (neg : Bool) : F64 := fin neg 0 eMin

/-- The pair `(N, D)` with `N / D = num / (den * 2^e)`. -/
def scale (num den : Nat) (e : Int) : Nat × Nat :=
  if 0 ≤ e then (num, den * 2 ^ e.toNat) else (num * 2 ^ (-e).toNat, den)

/-- Quotient `N / D` rounded to the nearest integer, ties to even. -/
def rne (N D : Nat) : Nat :=
  let q := N / D
  let r := N % D
  if D < 2 * r ∨ (2 * r = D ∧ q % 2 = 1) then q + 1 else q

/-- Number of binary digits of `n`, with `fuel` bounding the number of halvings. -/
def bitLenAux : Nat → Nat → Nat
  | 0, _ => 0
  | fuel + 1, n => if n = 0 then 0 else bitLenAux fuel (n / 2) + 1

/-- Number of binary digits of `n` (`0` for `0`). -/
def bitLen (n : Nat) : Nat := bitLenAux n n

/-- Exponent of the unit in the last place for the positive rational `num / den`:
the `e ≥ eMin` with `num / den < 2^53 * 2^e`, and `2^52 * 2^e ≤ num / den` when `e > eMin`. -/
def ulpExp (num den : Nat) : Int :=
  let e0 : Int := max ((bitLen num : Int) - (bitLen den : Int) - 53) eMin
  let s := scale num den e0
  if 2 ^ 53 ≤ s.1 / s.2 then e0 + 1 else e0

/-- The rational `(-1)^neg * num / den` (`den > 0`) rounded to the nearest `float64`,
ties to even; overflow gives an infinity. -/
def round (neg : Bool) (num den : Nat) : F64 :=
  if num = 0 then zero neg else
  let e := ulpExp num den
  let s := scale num den e
  let m := rne s.1 s.2
  if m = 2 ^ 53 then
    (if eMax < e + 1 then inf neg else fin neg (2 ^ 52) (e + 1))
  else
    (if eMax < e then inf neg else fin neg m e)

/-- Conversion `float64(n)` of an unsigned integer. -/
def ofNat (n : Nat) : F64 := round false n 1

/-- Conversion `float64(i)` of a signed integer. -/
def ofInt (i : Int) : F64 := round (decide (i < 0)) i.natAbs 1

/-- Unary minus. -/
def neg : F64 → F64
  | nan => nan
  | inf s => inf (!s)
  | fin s m e => fin (!s) m e

/-- Division `a / b`. -/
def div : F64 → F64 → F64
  | nan, _ => nan
  | _, nan => nan
  | inf _, inf _ => nan
  | inf s, fin t _ _ => inf (xor s t)
  | fin s _ _, inf t => zero (xor s t)
  | fin s m e, fin t n f =>
    if n = 0 then (if m = 0 then nan else inf (xor s t))
    else
      let d := e - f
      if 0 ≤ d then round (xor s t) (m * 2 ^ d.toNat) n
      else round (xor s t) m (n * 2 ^ (-d).toNat)

/-- Addition `a + b`. -/
def add : F64 → F64 → F64
  | nan, _ => nan
  | _, nan => nan
  | inf s, inf t => if s = t then inf s else nan
  | inf s, fin _ _ _ => inf s
  | fin _ _ _, inf t => inf t
  | fin s m e, fin t n f =>
    let g := min e f
    let a : Int := (if s then -1 else 1) * (m * 2 ^ (e - g).toNat : Nat)
    let b : Int := (if t then -1 else 1) * (n * 2 ^ (f - g).toNat : Nat)
    let c := a + b
    if c = 0 then zero (s && t)
    else
      if 0 ≤ g then round (decide (c < 0)) (c.natAbs * 2 ^ g.toNat) 1
      else round (decide (c < 0)) c.natAbs (2 ^ (-g).toNat)

end F64

/-! ## Go standard library: number rendering -/

/-- Decimal digits of `n`, left-padded with `0` to at least `width` characters. -/
def padDigits (width n : Nat) : String :=
  let ds := Nat.toDigits 10 n
  String.mk (List.replicate (width - ds.length) '0' ++ ds)

/-- Go `strconv.FormatUint(n, 10)`. -/
def formatUint (n : Nat) : String := String.mk (Nat.toDigits 10 n)

/-- Go `strconv.Itoa(i)`. -/
def itoa (i : Int) : String :=
  if i < 0 then "-" ++ formatUint i.natAbs else formatUint i.natAbs

/-- The decimal `k * 10^p` written positionally, without exponent (Go's `%f` layout of a
digit string): no fractional part when `p ≥ 0`, exactly `-p` fractional digits otherwise. -/
def renderDecimal (k : Nat) (p : Int) : String :=
  if 0 ≤ p then formatUint (k * 10 ^ p.toNat)
  else formatUint (k / 10 ^ (-p).toNat) ++ "." ++ padDigits (-p).toNat (k % 10 ^ (-p).toNat)

/-- Search for the shortest decimal inside the rounding interval `[L/D, H/D]` of `X/D`
(bounds included iff `incl`), trying the decimal exponents `p, p-1, ...` in turn: at each
exponent the two multiples of `10^p` around `X/D` are tried, and the nearer one (ties to
the even one) is taken when both lie in the interval. -/
def shortestAux (X L H D : Nat) (incl : Bool) : Nat → Int → Nat × Int
  | 0, p => (X / D, p)
  | fuel + 1, p =>
    let c := if 0 ≤ p then 1 else 10 ^ (-p).toNat
    let Dp := if 0 ≤ p then D * 10 ^ p.toNat else D
    let k := (X * c) / Dp
    let r := (X * c) % Dp
    let okdown := if incl then decide (L * c ≤ k * Dp) else decide (L * c < k * Dp)
    let okup := if incl then decide ((k + 1) * Dp ≤ H * c) else decide ((k + 1) * Dp < H * c)
    if okdown && okup then
      (if Dp < 2 * r ∨ (2 * r = Dp ∧ k % 2 = 1) then (k + 1, p) else (k, p))
    else if okdown then (k, p)
    else if okup then (k + 1, p)
    else shortestAux X L H D incl fuel (p - 1)

/-- Shortest decimal `(k, p)`, meaning `k * 10^p`, that rounds back to the positive
`float64` `m * 2^e`: the interval is bounded by the midpoints to the neighbouring floats,
which belong to it when `m` is even. -/
def shortestDecimal (m : Nat) (e : Int) : Nat × Int :=
  let t := e - 2
  let lo := if m = 2 ^ 52 ∧ e ≠ F64.eMin then 4 * m - 1 else 4 * m - 2
  let c := if 0 ≤ t then 2 ^ t.toNat else 1
  let D := if 0 ≤ t then 1 else 2 ^ (-t).toNat
  let H := (4 * m + 2) * c
  let p0 : Nat := (Nat.toDigits 10 (H / D)).length
  let pmin : Int := min t 0
  shortestAux (4 * m * c) (lo * c) H D (m % 2 = 0) (p0 + pmin.natAbs + 2) p0

/-- Go `strconv.FormatFloat(x, 'f', -1, 64)`: the shortest decimal that parses back to `x`,
written without exponent. -/
def formatFloat : F64 → String
  | .nan => "NaN"
  | .inf s => if s then "-Inf" else "+Inf"
  | .fin s m e =>
    (if s then "-" else "") ++
      (if m = 0 then "0" else
        let d := shortestDecimal m e
        renderDecimal d.1 d.2)

/-- The sign bit of a `float64` (`false` for NaN). -/
def F64.signBit : F64 → Bool
  | .nan => false
  | .inf s => s
  | .fin s _ _ => s

/-- The exact value of a finite `float64` (`0` for NaN and the infinities). -/
def F64.toRat : F64 → ℚ
  | .nan => 0
  | .inf _ => 0
  | .fin s m e => (if s then -1 else 1) * (m : ℚ) * (2 : ℚ) ^ e

/-- Go `fmt.Sprintf("%f", x)`: `x` rounded (ties to even) to six fractional digits. -/
def sprintF : F64 → String
  | .nan => "NaN"
  | .inf s => if s then "-Inf" else "+Inf"
  | .fin s m e =>
    (if s then "-" else "") ++
      (if 0 ≤ e then renderDecimal (m * 2 ^ e.toNat * 10 ^ 6) (-6)
       else renderDecimal (F64.rne (m * 10 ^ 6) (2 ^ (-e).toNat)) (-6))

/-! ## Decoded values (`entry.Value`, an `interface{}`) -/

/-- The type `exifcommon.Rational`: two `uint32` fields. -/
structure Rational where
  Numerator : Nat
  Denominator : Nat
  deriving DecidableEq, Repr

/-- The type `exifcommon.SignedRational`: two `int32` fields. -/
structure SignedRational where
  Numerator : Int
  Denominator : Int
  deriving DecidableEq, Repr

/-- The dynamic types `formatValue` distinguishes. A value of any other dynamic type is
`other`, carrying the name of its type and its `%v` rendering. -/
inductive Value where
  | rationals (v : List Rational) : Value
  | signedRationals (v : List SignedRational) : Value
  | uint8s (v : List Nat) : Value
  | uint16s (v : List Nat) : Value
  | uint32s (v : List Nat) : Value
  | uint64s (v : List Nat) : Value
  | ints (v : List Int) : Value
  | str (s : String) : Value
  | other (typeName shown : String) : Value
  deriving DecidableEq, Repr

/-- The fields of `exif.ExifTag` the program reads. -/
structure ExifTag where
  TagName : String
  Value : Value
  deriving DecidableEq, Repr

/-- Every element is below `2^w`. -/
def allBelow (w : Nat) (v : List Nat) : Bool := v.all (fun n => decide (n < 2 ^ w))

/-- Every integer is in the two's-complement range of width `w`. -/
def intInRange (w : Nat) (i : Int) : Bool := decide (-(2 ^ (w - 1) : Int) ≤ i ∧ i < 2 ^ (w - 1))

/-- The numbers of a value fit the machine types of its variant (`int` is 64 bits wide). -/
def Value.inRange : Value → Bool
  | .rationals v => v.all (fun r => decide (r.Numerator < 2 ^ 32 ∧ r.Denominator < 2 ^ 32))
  | .signedRationals v => v.all (fun r => intInRange 32 r.Numerator && intInRange 32 r.Denominator)
  | .uint8s v => allBelow 8 v
  | .uint16s v => allBelow 16 v
  | .uint32s v => allBelow 32 v
  | .uint64s v => allBelow 64 v
  | .ints v => v.all (intInRange 64)
  | .str _ => true
  | .other _ _ => true

/-- Go `fmt.Sprintf("%v", xs)` of a slice whose elements render as `f x`. -/
def sprintSlice {α : Type} (f : α → String) (xs : List α) : String :=
  "[" ++ " ".intercalate (xs.map f) ++ "]"

/-- Go `fmt.Sprintf("%v", value)`. -/
def sprintV : Value → String
  | .rationals v =>
    sprintSlice (fun r => "\x7b" ++ formatUint r.Numerator ++ " " ++ formatUint r.Denominator ++ "\x7d") v
  | .signedRationals v =>
    sprintSlice (fun r => "\x7b" ++ itoa r.Numerator ++ " " ++ itoa r.Denominator ++ "\x7d") v
  | .uint8s v => sprintSlice formatUint v
  | .uint16s v => sprintSlice formatUint v
  | .uint32s v => sprintSlice formatUint v
  | .uint64s v => sprintSlice formatUint v
  | .ints v => sprintSlice itoa v
  | .str s => s
  | .other _ shown => shown

/-- Go `reflect.TypeOf(value)` as printed by `%s`. -/
def typeName : Value → String
  | .rationals _ => "[]exifcommon.Rational"
  | .signedRationals _ => "[]exifcommon.SignedRational"
  | .uint8s _ => "[]uint8"
  | .uint16s _ => "[]uint16"
  | .uint32s _ => "[]uint32"
  | .uint64s _ => "[]uint64"
  | .ints _ => "[]int"
  | .str _ => "string"
  | .other t _ => t

/-- The type assertion `value.([]exifcommon.Rational)`; `none` is the run-time panic. -/
def Value.asRationals : Value → Option (List Rational)
  | .rationals v => some v
  | _ => none

/-- The type assertion `value.(string)`; `none` is the run-time panic. -/
def Value.asString : Value → Option String
  | .str s => some s
  | _ => none

deriving instance DecidableEq for Except

/-! ## The program (`main.go`)

A run-time panic (index out of range, failed type assertion) is `none`. -/

/-- `parseGPS` (main.go:144-149). -/
def parseGPS (rationals : List Rational) : Option F64 := do
  let r0 ← rationals[0]?
  let degrees := F64.div (F64.ofNat r0.Numerator) (F64.ofNat r0.Denominator)
  let r1 ← rationals[1]?
  let minutes := F64.div (F64.div (F64.ofNat r1.Numerator) (F64.ofNat r1.Denominator)) (F64.ofNat 60)
  let r2 ← rationals[2]?
  let seconds := F64.div (F64.div (F64.ofNat r2.Numerator) (F64.ofNat r2.Denominator)) (F64.ofNat 3600)
  pure (F64.add (F64.add degrees minutes) seconds)

/-- Spec §4.2 `dmsToDecimal`: "decimal = degrees + minutes/60 + seconds/3600, where each of
degrees/minutes/seconds = numerator/denominator of the corresponding rational", computed in
floating point. -/
def dmsToDecimal (d m s : Rational) : F64 :=
  let degrees := F64.div (F64.ofNat d.Numerator) (F64.ofNat d.Denominator)
  let minutes := F64.div (F64.ofNat m.Numerator) (F64.ofNat m.Denominator)
  let seconds := F64.div (F64.ofNat s.Numerator) (F64.ofNat s.Denominator)
  F64.add (F64.add degrees (F64.div minutes (F64.ofNat 60))) (F64.div seconds (F64.ofNat 3600))

/-- `formatUintSlice` (main.go:185-192), for each of the four element widths. -/
def formatUintSlice (slice : List Nat) : Option (Except String String) :=
  if slice.length = 1 then do
    let a ← slice[0]?
    pure (.ok (formatUint a))
  else if slice.length = 2 then do
    let a ← slice[0]?
    let b ← slice[1]?
    pure (.ok (formatFloat (F64.div (F64.ofNat a) (F64.ofNat b))))
  else
    pure (.ok (sprintSlice formatUint slice))

/-- `formatValue` (main.go:151-183): `.ok s` is `(s, nil)`, `.error msg` is
`("", errors.New(msg))`. -/
def formatValue (value : Value) : Option (Except String String) :=
  match value with
  | .rationals v =>
    if v.length = 3 then do
      let x ← parseGPS v
      pure (.ok (formatFloat x))
    else if v.length = 1 then do
      let r ← v[0]?
      pure (.ok (formatFloat (F64.div (F64.ofNat r.Numerator) (F64.ofNat r.Denominator))))
    else
      pure (.error "Failed to convert")
  | .signedRationals v =>
    if v.length = 1 then do
      let r ← v[0]?
      pure (.ok (formatFloat (F64.div (F64.ofInt r.Numerator) (F64.ofInt r.Denominator))))
    else
      pure (.error "Failed to convert")
  | .uint8s v => formatUintSlice v
  | .uint16s v => formatUintSlice v
  | .uint32s v => formatUintSlice v
  | .uint64s v => formatUintSlice v
  | .ints v =>
    if v.length = 1 then do
      let i ← v[0]?
      pure (.ok (itoa i))
    else
      pure (.error "Failed to convert")
  | .str _ => pure (.ok (sprintV value))
  | .other _ _ => pure (.ok (sprintV value))

/-- A Go `map[string]string`: the keys are pairwise distinct and listed in the order of
their first insertion. -/
abbrev GoMap := List (String × String)

/-- The assignment `m[k] = v`. -/
def mapSet : GoMap → String → String → GoMap
  | [], k, v => [(k, v)]
  | (k', v') :: t, k, v => if k' = k then (k, v) :: t else (k', v') :: mapSet t k v

/-- The lookup `m[k]`, `none` when the key is absent. -/
def mapGet : GoMap → String → Option String
  | [], _ => none
  | (k', v') :: t, k => if k' = k then some v' else mapGet t k

/-- The local variables of `handleJson` (main.go:98-100). -/
structure JsonState where
  exifMap : GoMap
  hasGPSData : Bool
  gpsLatitude : F64
  gpsLongitude : F64
  deriving DecidableEq, Repr

/-- The values of the locals of `handleJson` before its loop: an empty map, `false`, and the
zero value `+0` of the two coordinates. -/
def JsonState.init : JsonState :=
  { exifMap := [], hasGPSData := false, gpsLatitude := F64.zero false,
    gpsLongitude := F64.zero false }

/-- One iteration of the loop of `handleJson` (main.go:102-128). The right operand of `&&`
is evaluated only when the left one holds. -/
def handleJsonStep (wantGoogleMap : Bool) (st : JsonState) (entry : ExifTag) :
    Option JsonState := do
  let r ← formatValue entry.Value
  let st1 : JsonState :=
    match r with
    | .error _ => { st with exifMap := mapSet st.exifMap entry.TagName (sprintV entry.Value) }
    | .ok val => { st with exifMap := mapSet st.exifMap entry.TagName val }
  if wantGoogleMap then
    if entry.TagName = "GPSLatitude" then do
      let rs ← entry.Value.asRationals
      let x ← parseGPS rs
      pure { st1 with gpsLatitude := x, hasGPSData := true }
    else if entry.TagName = "GPSLongitude" then do
      let rs ← entry.Value.asRationals
      let x ← parseGPS rs
      pure { st1 with gpsLongitude := x, hasGPSData := true }
    else do
      let isS ← (if entry.TagName = "GPSLatitudeRef" then do
        let s ← entry.Value.asString
        pure (decide (s = "S")) else pure false)
      if isS then
        pure { st1 with gpsLatitude := F64.neg st1.gpsLatitude }
      else do
        let isW ← (if entry.TagName = "GPSLongitudeRef" then do
          let s ← entry.Value.asString
          pure (decide (s = "W")) else pure false)
        if isW then
          pure { st1 with gpsLongitude := F64.neg st1.gpsLongitude }
        else
          pure st1
  else
    pure st1

/-- The loop of `handleJson` (main.go:102-128), started in state `st`. -/
def handleJsonLoop (wantGoogleMap : Bool) (st : JsonState) : List ExifTag → Option JsonState
  | [] => some st
  | entry :: rest => do
    let st1 ← handleJsonStep wantGoogleMap st entry
    handleJsonLoop wantGoogleMap st1 rest

/-- Go `fmt.Sprintf("https://www.google.com/maps?q=%f,%f", lat, lon)`. -/
def googleMapsLink (lat lon : F64) : String :=
  "https://www.google.com/maps?q=" ++ sprintF lat ++ "," ++ sprintF lon

/-- The map `handleJson` hands to `json.MarshalIndent` (main.go:97-132). -/
def handleJson (exifData : List ExifTag) (wantGoogleMap : Bool) : Option GoMap := do
  let st ← handleJsonLoop wantGoogleMap JsonState.init exifData
  if st.hasGPSData then
    pure (mapSet st.exifMap "GoogleMapsLink" (googleMapsLink st.gpsLatitude st.gpsLongitude))
  else
    pure st.exifMap

/-- The locals of `main` in text mode (main.go:51-52) and the lines written so far to the
standard output, one per `Printf` call. -/
structure TextState where
  out : List String
  hasGPSData : Bool
  gpsLatitude : F64
  gpsLongitude : F64
  deriving DecidableEq, Repr

/-- The values of the locals of `main` before its loop, nothing printed yet. -/
def TextState.init : TextState :=
  { out := [], hasGPSData := false, gpsLatitude := F64.zero false,
    gpsLongitude := F64.zero false }

/-- One iteration of the text loop of `main` (main.go:58-84). -/
def mainStep (wantGoogleMap : Bool) (st : TextState) (entry : ExifTag) :
    Option TextState := do
  let r ← formatValue entry.Value
  let st1 : TextState :=
    match r with
    | .error _ =>
      { st with out := st.out ++ [entry.TagName ++ ": " ++ sprintV entry.Value,
                                   "Failed to format, type: " ++ typeName entry.Value] }
    | .ok val => { st with out := st.out ++ [entry.TagName ++ ": " ++ val] }
  if wantGoogleMap then
    if entry.TagName = "GPSLatitude" then do
      let rs ← entry.Value.asRationals
      let x ← parseGPS rs
      pure { st1 with gpsLatitude := x, hasGPSData := true }
    else if entry.TagName = "GPSLongitude" then do
      let rs ← entry.Value.asRationals
      let x ← parseGPS rs
      pure { st1 with gpsLongitude := x, hasGPSData := true }
    else do
      let isS ← (if entry.TagName = "GPSLatitudeRef" then do
        let s ← entry.Value.asString
        pure (decide (s = "S")) else pure false)
      if isS then
        pure { st1 with gpsLatitude := F64.neg st1.gpsLatitude }
      else do
        let isW ← (if entry.TagName = "GPSLongitudeRef" then do
          let s ← entry.Value.asString
          pure (decide (s = "W")) else pure false)
        if isW then
          pure { st1 with gpsLongitude := F64.neg st1.gpsLongitude }
        else
          pure st1
  else
    pure st1

/-- The text loop of `main` (main.go:58-84), started in state `st`. -/
def mainLoop (wantGoogleMap : Bool) (st : TextState) : List ExifTag → Option TextState
  | [] => some st
  | entry :: rest => do
    let st1 ← mainStep wantGoogleMap st entry
    mainLoop wantGoogleMap st1 rest

/-- The lines `main` prints in text mode (main.go:51-90) for the decoded entries `index`. -/
def mainText (index : List ExifTag) (wantGoogleMap : Bool) : Option (List String) := do
  let st ← mainLoop wantGoogleMap TextState.init index
  if st.hasGPSData then
    pure (st.out ++ ["Google Maps Link: " ++ googleMapsLink st.gpsLatitude st.gpsLongitude])
  else
    pure st.out

/-! ## Auxiliary definitions for the statements -/

/-- The end-to-end latitude triple `40° 26' 46''`. -/
def latitudeExample : List Rational := [⟨40, 1⟩, ⟨26, 1⟩, ⟨46, 1⟩]

/-- The end-to-end longitude triple `79° 58' 56''`. -/
def longitudeExample : List Rational := [⟨79, 1⟩, ⟨58, 1⟩, ⟨56, 1⟩]

/-- The four GPS entries of the end-to-end scenario, in the order latitude, latitude
reference, longitude, longitude reference. -/
def gpsScenario : List ExifTag :=
  [⟨"GPSLatitude", .rationals latitudeExample⟩, ⟨"GPSLatitudeRef", .str "S"⟩,
   ⟨"GPSLongitude", .rationals longitudeExample⟩, ⟨"GPSLongitudeRef", .str "W"⟩]

/-- The coordinate accumulator shared by the two loops. -/
structure Gps where
  hasGPSData : Bool
  gpsLatitude : F64
  gpsLongitude : F64
  deriving DecidableEq, Repr

/-- The accumulator part of a `handleJson` state. -/
def JsonState.gps (st : JsonState) : Gps := ⟨st.hasGPSData, st.gpsLatitude, st.gpsLongitude⟩

/-- The accumulator part of a text-mode state. -/
def TextState.gps (st : TextState) : Gps := ⟨st.hasGPSData, st.gpsLatitude, st.gpsLongitude⟩

/-- What one iteration of either loop does to the coordinate accumulator. -/
def gpsStep (wantGoogleMap : Bool) (g : Gps) (entry : ExifTag) : Option Gps :=
  if wantGoogleMap then
    if entry.TagName = "GPSLatitude" then
      (entry.Value.asRationals.bind parseGPS).map (fun x => { g with gpsLatitude := x, hasGPSData := true })
    else if entry.TagName = "GPSLongitude" then
      (entry.Value.asRationals.bind parseGPS).map (fun x => { g with gpsLongitude := x, hasGPSData := true })
    else if entry.TagName = "GPSLatitudeRef" then
      entry.Value.asString.map (fun s => if s = "S" then { g with gpsLatitude := F64.neg g.gpsLatitude } else g)
    else if entry.TagName = "GPSLongitudeRef" then
      entry.Value.asString.map (fun s => if s = "W" then { g with gpsLongitude := F64.neg g.gpsLongitude } else g)
    else some g
  else some g

/-- The display string stored or printed for a value: the formatted string, or the `%v`
rendering when formatting fails. -/
def display (v : Value) (r : Except String String) : String :=
  match r with
  | .error _ => sprintV v
  | .ok val => val

/-- What a whole loop does to the coordinate accumulator. -/
def gpsLoop (wantGoogleMap : Bool) (g : Gps) : List ExifTag → Option Gps
  | [] => some g
  | entry :: rest => (gpsStep wantGoogleMap g entry).bind (fun g1 => gpsLoop wantGoogleMap g1 rest)

/-- The entry names a coordinate: `GPSLatitude` or `GPSLongitude`. -/
def isCoordinateTag (entry : ExifTag) : Bool :=
  decide (entry.TagName = "GPSLatitude") || decide (entry.TagName = "GPSLongitude")

/-- A lone latitude entry, without any longitude. -/
def latitudeOnly : List ExifTag := [⟨"GPSLatitude", .rationals latitudeExample⟩]

/-- The list starts with a character other than the minus sign. -/
def StartsUnsigned (l : List Char) : Prop := ∃ c rest, l = c :: rest ∧ c ≠ '-'

/-- The display string of a value: the string `formatValue` returns, or the `%v` rendering
when it returns the error. -/
def displayOf (v : Value) : String :=
  match formatValue v with
  | some r => display v r
  | none => sprintV v

/-- The lines the text loop prints for one entry: one line on success, the raw line and the
diagnostic line on failure. -/
def linesOf (entry : ExifTag) : List String :=
  match formatValue entry.Value with
  | some (.ok val) => [entry.TagName ++ ": " ++ val]
  | _ => [entry.TagName ++ ": " ++ sprintV entry.Value,
          "Failed to format, type: " ++ typeName entry.Value]

/-- The map after storing the display string of every entry, in input order. -/
def storeAll (m : GoMap) (entries : List ExifTag) : GoMap :=
  entries.foldl (fun acc e => mapSet acc e.TagName (displayOf e.Value)) m

/-- The entry is well typed for the coordinate code: a coordinate tag carries a
`RationalSeq` of at least three elements, a reference tag carries a string, any other tag
carries anything. -/
def wellTypedGps (entry : ExifTag) : Bool :=
  if entry.TagName = "GPSLatitude" ∨ entry.TagName = "GPSLongitude" then
    (match entry.Value with
     | .rationals v => decide (3 ≤ v.length)
     | _ => false)
  else if entry.TagName = "GPSLatitudeRef" ∨ entry.TagName = "GPSLongitudeRef" then
    (match entry.Value with
     | .str _ => true
     | _ => false)
  else true

/-- The variant of a value, without its contents. -/
inductive Variant where
  | rationals | signedRationals | uint8s | uint16s | uint32s | uint64s | ints | str | other
  deriving DecidableEq, Repr

/-- The variant of a value. -/
def Value.variant : Value → Variant
  | .rationals _ => .rationals
  | .signedRationals _ => .signedRationals
  | .uint8s _ => .uint8s
  | .uint16s _ => .uint16s
  | .uint32s _ => .uint32s
  | .uint64s _ => .uint64s
  | .ints _ => .ints
  | .str _ => .str
  | .other _ _ => .other

/-- The number of elements of a sequence value (`0` for a string or another value). -/
def Value.len : Value → Nat
  | .rationals v => v.length
  | .signedRationals v => v.length
  | .uint8s v => v.length
  | .uint16s v => v.length
  | .uint32s v => v.length
  | .uint64s v => v.length
  | .ints v => v.length
  | .str _ => 0
  | .other _ _ => 0

/-- The outcome is a string, not the error. -/
def isOk (r : Except String String) : Bool :=
  match r with
  | .ok _ => true
  | .error _ => false

/-- The keys of a map, in the order of their first insertion. -/
def mapKeys (m : GoMap) : List String := m.map Prod.fst

/-- The entry is a reference entry of the given tag name carrying the string `ref`. -/
def isRef (name ref : String) (entry : ExifTag) : Bool :=
  decide (entry.TagName = name) && decide (entry.Value = .str ref)

/-- The number of reference entries of the given tag name carrying the string `ref`. -/
def countRef (name ref : String) (entries : List ExifTag) : Nat :=
  (entries.filter (isRef name ref)).length

/-- The value `x` negated `n` times. -/
def negTimes (n : Nat) (x : F64) : F64 := Nat.iterate F64.neg n x

/-- A coordinate entry of two rationals followed by an ordinary entry. -/
def shortLatitude : List ExifTag :=
  [⟨"GPSLatitude", .rationals [⟨40, 1⟩, ⟨26, 1⟩]⟩, ⟨"Make", .str "Canon"⟩]

/-- The lines written by the text loop of `main` (main.go:58-84) until it ends or panics,
and whether it ended: in each iteration the lines of the entry are written (main.go:61-67)
before the coordinate code runs (main.go:69-83). -/
def mainEmitted (wantGoogleMap : Bool) (st : TextState) : List ExifTag → List String × Bool
  | [] => (st.out, true)
  | entry :: rest =>
    match mainStep wantGoogleMap st entry with
    | some st1 => mainEmitted wantGoogleMap st1 rest
    | none =>
      match formatValue entry.Value with
      | some (.ok val) => (st.out ++ [entry.TagName ++ ": " ++ val], false)
      | some (.error _) =>
        (st.out ++ [entry.TagName ++ ": " ++ sprintV entry.Value,
                    "Failed to format, type: " ++ typeName entry.Value], false)
      | none => (st.out, false)

/-- The accumulator before either loop: no coordinate seen, both coordinates `+0`. -/
def Gps.init : Gps := ⟨false, F64.zero false, F64.zero false⟩

/-- The report map for a final accumulator: the stored display strings, plus the link when
the flag is set. -/
def reportMap (entries : List ExifTag) (g : Gps) : GoMap :=
  if g.hasGPSData then
    mapSet (storeAll [] entries) "GoogleMapsLink" (googleMapsLink g.gpsLatitude g.gpsLongitude)
  else storeAll [] entries

/-- The report lines for a final accumulator: the lines of the entries, plus the link line
when the flag is set. -/
def reportLines (entries : List ExifTag) (g : Gps) : List String :=
  if g.hasGPSData then
    entries.flatMap linesOf ++
      ["Google Maps Link: " ++ googleMapsLink g.gpsLatitude g.gpsLongitude]
  else entries.flatMap linesOf

/-- The end-to-end scenario with each reference entry moved before its coordinate entry. -/
def refFirstScenario : List ExifTag :=
  [⟨"GPSLatitudeRef", .str "S"⟩, ⟨"GPSLatitude", .rationals latitudeExample⟩,
   ⟨"GPSLongitudeRef", .str "W"⟩, ⟨"GPSLongitude", .rationals longitudeExample⟩]

/-- Two entries named `GoogleMapsLink` followed by a latitude entry. -/
def linkNameClash : List ExifTag :=
  [⟨"GoogleMapsLink", .str "a"⟩, ⟨"GoogleMapsLink", .str "b"⟩,
   ⟨"GPSLatitude", .rationals latitudeExample⟩]

/-- The power `2^e` as a rational. -/
def pow2 (e : Int) : ℚ := (2 : ℚ) ^ e

/-- The rational `num / den`. -/
def ratOf (num den : Nat) : ℚ := (num : ℚ) / (den : ℚ)

/-- A finite value is canonical: the significand is below `2^53`, the exponent is in range,
and the significand is at least `2^52` unless the exponent is the smallest one. -/
def F64.Canonical : F64 → Prop
  | .nan => True
  | .inf _ => True
  | .fin _ m e => m < 2 ^ 53 ∧ F64.eMin ≤ e ∧ e ≤ F64.eMax ∧ (e = F64.eMin ∨ 2 ^ 52 ≤ m)

/-- The unit in the last place of a finite `float64` (`0` for NaN and the infinities). -/
def F64.ulp : F64 → ℚ
  | .nan => 0
  | .inf _ => 0
  | .fin _ _ e => pow2 e

/-- The lower end of the rounding interval of the positive float `m * 2^e`: the midpoint
to the next smaller float. -/
def F64.lowerBound (m : Nat) (e : Int) : ℚ :=
  if m = 2 ^ 52 ∧ e ≠ F64.eMin then (4 * (m : ℚ) - 1) * pow2 (e - 2)
  else (4 * (m : ℚ) - 2) * pow2 (e - 2)

/-- The upper end of the rounding interval of the positive float `m * 2^e`: the midpoint
to the next larger float. -/
def F64.upperBound (m : Nat) (e : Int) : ℚ := (4 * (m : ℚ) + 2) * pow2 (e - 2)

/-- The rational `r` lies in the rounding interval of `m * 2^e`, whose ends belong to it
exactly when `m` is even. -/
def F64.InInterval (m : Nat) (e : Int) (r : ℚ) : Prop :=
  if m % 2 = 0 then F64.lowerBound m e ≤ r ∧ r ≤ F64.upperBound m e
  else F64.lowerBound m e < r ∧ r < F64.upperBound m e

/-- The value `k * 10^p` of a decimal. -/
def decVal (k : Nat) (p : Int) : ℚ := (k : ℚ) * (10 : ℚ) ^ p

/-- The decimal `d.1 * 10^d.2` lies in the interval from `L / D` to `H / D`, whose ends
belong to it exactly when `incl` is set. -/
def GoodDec (L H D : Nat) (incl : Bool) (d : Nat × Int) : Prop :=
  (if incl then (L : ℚ) / D ≤ decVal d.1 d.2 else (L : ℚ) / D < decVal d.1 d.2) ∧
  (if incl then decVal d.1 d.2 ≤ (H : ℚ) / D else decVal d.1 d.2 < (H : ℚ) / D)

/-- The value of a decimal digit character, `none` for any other character. -/
def digitValue (c : Char) : Option Nat :=
  if '0' ≤ c ∧ c ≤ '9' then some (c.toNat - 48) else none

/-- The number written by a list of decimal digits, continuing from `acc`; `none` when a
character is not a digit. -/
def parseDigits : List Char → Nat → Option Nat
  | [], acc => some acc
  | c :: cs, acc => (digitValue c).bind (fun d => parseDigits cs (10 * acc + d))

/-- A decimal in positional notation, digits with at most one point and at least one
digit: the pair `(K, n)` stands for `K / 10^n`. -/
def parseDecimal (cs : List Char) : Option (Nat × Nat) :=
  let ip := cs.takeWhile (fun c => c != '.')
  match cs.dropWhile (fun c => c != '.') with
  | [] => if ip = [] then none else (parseDigits ip 0).map (fun k => (k, 0))
  | _ :: fp =>
    if ip ++ fp = [] then none else (parseDigits (ip ++ fp) 0).map (fun k => (k, fp.length))

/-- The magnitude part of `parseFloat`, with the sign already read. -/
def parseMagnitude (neg : Bool) (cs : List Char) : Option F64 :=
  match parseDecimal cs with
  | some d => some (F64.round neg d.1 (10 ^ d.2))
  | none => if cs = ['I', 'n', 'f'] then some (.inf neg) else none

/-- Go `strconv.ParseFloat(s, 64)` on the strings `NaN`, `Inf` and decimals in positional
notation, with an optional sign: the nearest `float64`, ties to even. A string in another
notation (exponent, hexadecimal, underscores) is outside this model and gives `none`. -/
def parseFloat (s : String) : Option F64 :=
  if s = "NaN" then some .nan
  else if s.data.head? = some '-' then parseMagnitude true s.data.tail
  else if s.data.head? = some '+' then parseMagnitude false s.data.tail
  else parseMagnitude false s.data

/-- A longitude entry followed by a latitude reference `S`, without any latitude entry. -/
def referenceOnly : List ExifTag :=
  [⟨"GPSLongitude", .rationals longitudeExample⟩, ⟨"GPSLatitudeRef", .str "S"⟩]

/-- The final value of one coordinate after a completed run over `entries`: the `parseGPS`
value of the last entry named `coord`, or the initial `+0` when there is none, negated once
for each later entry named `refName` carrying the string `ref`. -/
def FinalCoordinate (coord refName ref : String) (entries : List ExifTag) (final : F64) :
    Prop :=
  (∃ pre post l x, entries = pre ++ ⟨coord, .rationals l⟩ :: post ∧
      (∀ e ∈ post, e.TagName ≠ coord) ∧ parseGPS l = some x ∧
      final = negTimes (countRef refName ref post) x) ∨
  ((∀ e ∈ entries, e.TagName ≠ coord) ∧
      final = negTimes (countRef refName ref entries) (F64.zero false))

/-! ## Properties

### The two loops and the coordinate accumulator -/

theorem handleJsonStep_eq (w : Bool) (st : JsonState) (e : ExifTag) :
    handleJsonStep w st e = (formatValue e.Value).bind (fun r =>
      (gpsStep w st.gps e).map (fun g =>
        { exifMap := mapSet st.exifMap e.TagName (display e.Value r),
          hasGPSData := g.hasGPSData, gpsLatitude := g.gpsLatitude,
          gpsLongitude := g.gpsLongitude })) := by
  unfold handleJsonStep gpsStep
  cases hf : formatValue e.Value with
  | none => rfl
  | some r =>
    cases w
    · cases r <;> simp [display, JsonState.gps]
    · by_cases h1 : e.TagName = "GPSLatitude"
      · cases hv : e.Value.asRationals with
        | none => simp [h1, hv]
        | some rs =>
          cases hp : parseGPS rs <;> cases r <;> simp [h1, hv, hp, display, JsonState.gps]
      · by_cases h2 : e.TagName = "GPSLongitude"
        · cases hv : e.Value.asRationals with
          | none => simp [h1, h2, hv]
          | some rs =>
            cases hp : parseGPS rs <;> cases r <;> simp [h1, h2, hv, hp, display, JsonState.gps]
        · by_cases h3 : e.TagName = "GPSLatitudeRef"
          · cases hv : e.Value.asString with
            | none => simp [h1, h2, h3, hv]
            | some s =>
              by_cases hs : s = "S" <;> cases r <;> simp [h1, h2, h3, hv, hs, display, JsonState.gps]
          · by_cases h4 : e.TagName = "GPSLongitudeRef"
            · cases hv : e.Value.asString with
              | none => simp [h1, h2, h3, h4, hv]
              | some s =>
                by_cases hs : s = "W" <;> cases r <;>
                  simp [h1, h2, h3, h4, hv, hs, display, JsonState.gps]
            · cases r <;> simp [h1, h2, h3, h4, display, JsonState.gps]

theorem mainStep_eq (w : Bool) (st : TextState) (e : ExifTag) :
    mainStep w st e = (formatValue e.Value).bind (fun r =>
      (gpsStep w st.gps e).map (fun g =>
        { out := st.out ++ (match r with
            | .error _ => [e.TagName ++ ": " ++ sprintV e.Value,
                           "Failed to format, type: " ++ typeName e.Value]
            | .ok val => [e.TagName ++ ": " ++ val]),
          hasGPSData := g.hasGPSData, gpsLatitude := g.gpsLatitude,
          gpsLongitude := g.gpsLongitude })) := by
  unfold mainStep gpsStep
  cases hf : formatValue e.Value with
  | none => rfl
  | some r =>
    cases w
    · cases r <;> simp [TextState.gps]
    · by_cases h1 : e.TagName = "GPSLatitude"
      · cases hv : e.Value.asRationals with
        | none => simp [h1, hv]
        | some rs =>
          cases hp : parseGPS rs <;> cases r <;> simp [h1, hv, hp, TextState.gps]
      · by_cases h2 : e.TagName = "GPSLongitude"
        · cases hv : e.Value.asRationals with
          | none => simp [h1, h2, hv]
          | some rs =>
            cases hp : parseGPS rs <;> cases r <;> simp [h1, h2, hv, hp, TextState.gps]
        · by_cases h3 : e.TagName = "GPSLatitudeRef"
          · cases hv : e.Value.asString with
            | none => simp [h1, h2, h3, hv]
            | some s =>
              by_cases hs : s = "S" <;> cases r <;> simp [h1, h2, h3, hv, hs, TextState.gps]
          · by_cases h4 : e.TagName = "GPSLongitudeRef"
            · cases hv : e.Value.asString with
              | none => simp [h1, h2, h3, h4, hv]
              | some s =>
                by_cases hs : s = "W" <;> cases r <;>
                  simp [h1, h2, h3, h4, hv, hs, TextState.gps]
            · cases r <;> simp [h1, h2, h3, h4, TextState.gps]

theorem handleJsonStep_gps {w : Bool} {st st1 : JsonState} {e : ExifTag}
    (h : handleJsonStep w st e = some st1) : gpsStep w st.gps e = some st1.gps := by
  rw [handleJsonStep_eq] at h
  cases hf : formatValue e.Value with
  | none => simp [hf] at h
  | some r =>
    cases hg : gpsStep w st.gps e with
    | none => simp [hf, hg] at h
    | some g =>
      simp [hf, hg] at h
      subst h
      rfl

theorem mainStep_gps {w : Bool} {st st1 : TextState} {e : ExifTag}
    (h : mainStep w st e = some st1) : gpsStep w st.gps e = some st1.gps := by
  rw [mainStep_eq] at h
  cases hf : formatValue e.Value with
  | none => simp [hf] at h
  | some r =>
    cases hg : gpsStep w st.gps e with
    | none => simp [hf, hg] at h
    | some g =>
      simp [hf, hg] at h
      subst h
      rfl

theorem handleJsonLoop_gps {w : Bool} (es : List ExifTag) {st st1 : JsonState}
    (h : handleJsonLoop w st es = some st1) : gpsLoop w st.gps es = some st1.gps := by
  induction es generalizing st with
  | nil =>
    simp [handleJsonLoop] at h
    subst h
    rfl
  | cons e rest ih =>
    cases hs : handleJsonStep w st e with
    | none => simp [handleJsonLoop, hs] at h
    | some st2 =>
      simp [handleJsonLoop, hs] at h
      simp [gpsLoop, handleJsonStep_gps hs, ih h]

theorem mainLoop_gps {w : Bool} (es : List ExifTag) {st st1 : TextState}
    (h : mainLoop w st es = some st1) : gpsLoop w st.gps es = some st1.gps := by
  induction es generalizing st with
  | nil =>
    simp [mainLoop] at h
    subst h
    rfl
  | cons e rest ih =>
    cases hs : mainStep w st e with
    | none => simp [mainLoop, hs] at h
    | some st2 =>
      simp [mainLoop, hs] at h
      simp [gpsLoop, mainStep_gps hs, ih h]

/-- One iteration raises the flag exactly on a coordinate entry with the map link enabled,
and never lowers it. -/
theorem gpsStep_flag {w : Bool} {g g1 : Gps} {e : ExifTag} (h : gpsStep w g e = some g1) :
    g1.hasGPSData = (g.hasGPSData || (w && isCoordinateTag e)) := by
  unfold gpsStep at h
  cases w
  · simp at h
    subst h
    simp
  · by_cases h1 : e.TagName = "GPSLatitude"
    · cases hp : e.Value.asRationals.bind parseGPS with
      | none => simp [h1, hp] at h
      | some x =>
        simp [h1, hp] at h
        subst h
        simp [isCoordinateTag, h1]
    · by_cases h2 : e.TagName = "GPSLongitude"
      · cases hp : e.Value.asRationals.bind parseGPS with
        | none => simp [h2, hp] at h
        | some x =>
          simp [h2, hp] at h
          subst h
          simp [isCoordinateTag, h2]
      · by_cases h3 : e.TagName = "GPSLatitudeRef"
        · cases hv : e.Value.asString with
          | none => simp [h3, hv] at h
          | some s =>
            simp [h3, hv] at h
            subst h
            by_cases hs : s = "S" <;> simp [isCoordinateTag, h3, hs]
        · by_cases h4 : e.TagName = "GPSLongitudeRef"
          · cases hv : e.Value.asString with
            | none => simp [h4, hv] at h
            | some s =>
              simp [h4, hv] at h
              subst h
              by_cases hs : s = "W" <;> simp [isCoordinateTag, h4, hs]
          · simp [h1, h2, h3, h4] at h
            subst h
            simp [isCoordinateTag, h1, h2]

theorem gpsLoop_flag {w : Bool} (es : List ExifTag) {g g1 : Gps}
    (h : gpsLoop w g es = some g1) :
    g1.hasGPSData = (g.hasGPSData || (w && es.any isCoordinateTag)) := by
  induction es generalizing g with
  | nil =>
    simp [gpsLoop] at h
    subst h
    simp
  | cons e rest ih =>
    cases hs : gpsStep w g e with
    | none => simp [gpsLoop, hs] at h
    | some g2 =>
      simp [gpsLoop, hs] at h
      rw [ih h, gpsStep_flag hs]
      cases g.hasGPSData <;> cases w <;> simp

/-! ### Coordinate derivation -/

/-- C1: on every rational sequence of at least three elements `parseGPS` returns
`degrees + minutes/60 + seconds/3600`, each of the three being numerator/denominator of the
first, second and third rational and the whole computed in `float64` (this holds whatever
the denominators are); on `(40,1),(26,1),(46,1)` the result is the `float64`
`5692284091518302 * 2^-47`, which lies within `2^-47` of `40 + 26/60 + 46/3600` and
between `40.446111` and `40.446112`. -/
theorem parseGPS_eq_dmsToDecimal :
    (∀ (v : List Rational) (h : 3 ≤ v.length),
      parseGPS v = some (dmsToDecimal (v.get ⟨0, by omega⟩) (v.get ⟨1, by omega⟩)
        (v.get ⟨2, by omega⟩))) ∧
    parseGPS latitudeExample = some (F64.fin false 5692284091518302 (-47)) ∧
    |(F64.fin false 5692284091518302 (-47)).toRat - (40 + 26 / 60 + 46 / 3600)|
      ≤ (2 : ℚ) ^ (-47 : Int) ∧
    (40446111 / 1000000 : ℚ) ≤ (F64.fin false 5692284091518302 (-47)).toRat ∧
    (F64.fin false 5692284091518302 (-47)).toRat < 40446112 / 1000000 := by
  refine ⟨?_, by decide, ?_, ?_, ?_⟩
  · intro v h
    match v, h with
    | r0 :: r1 :: r2 :: rest, _ => simp [parseGPS, dmsToDecimal]
  · rw [abs_le]
    constructor <;> norm_num [F64.toRat]
  · norm_num [F64.toRat]
  · norm_num [F64.toRat]

/-- Witness of C1 on a sequence of four rationals, one of them with a zero denominator. -/
theorem parseGPS_eq_dmsToDecimal_witness :
    3 ≤ ([⟨1, 2⟩, ⟨3, 4⟩, ⟨5, 0⟩, ⟨7, 8⟩] : List Rational).length ∧
    parseGPS [⟨1, 2⟩, ⟨3, 4⟩, ⟨5, 0⟩, ⟨7, 8⟩] = some (dmsToDecimal ⟨1, 2⟩ ⟨3, 4⟩ ⟨5, 0⟩) :=
  ⟨by decide, parseGPS_eq_dmsToDecimal.1 [⟨1, 2⟩, ⟨3, 4⟩, ⟨5, 0⟩, ⟨7, 8⟩] (by decide)⟩

/-! ### The end-to-end scenario -/

/-- C2: on the scenario `GPSLatitude = 40° 26' 46''`, `GPSLatitudeRef = "S"`,
`GPSLongitude = 79° 58' 56''`, `GPSLongitudeRef = "W"` with the map link enabled, both loops
end with the negated coordinates, the map of `handleJson` ends with the field
`GoogleMapsLink = "https://www.google.com/maps?q=-40.446111,-79.982222"` and the last line
printed by `main` is `Google Maps Link: ` followed by the same URL. -/
theorem gpsScenario_link :
    handleJson gpsScenario true = some
      [("GPSLatitude", "40.44611111111111"), ("GPSLatitudeRef", "S"),
       ("GPSLongitude", "79.98222222222222"), ("GPSLongitudeRef", "W"),
       ("GoogleMapsLink", "https://www.google.com/maps?q=-40.446111,-79.982222")] ∧
    mainText gpsScenario true = some
      ["GPSLatitude: 40.44611111111111", "GPSLatitudeRef: S",
       "GPSLongitude: 79.98222222222222", "GPSLongitudeRef: W",
       "Google Maps Link: https://www.google.com/maps?q=-40.446111,-79.982222"] ∧
    (handleJsonLoop true JsonState.init gpsScenario).map
        (fun st => (st.hasGPSData, st.gpsLatitude, st.gpsLongitude)) =
      (parseGPS latitudeExample).bind (fun lat => (parseGPS longitudeExample).map
        (fun lon => (true, F64.neg lat, F64.neg lon))) ∧
    (mainLoop true TextState.init gpsScenario).map
        (fun st => (st.hasGPSData, st.gpsLatitude, st.gpsLongitude)) =
      (parseGPS latitudeExample).bind (fun lat => (parseGPS longitudeExample).map
        (fun lon => (true, F64.neg lat, F64.neg lon))) := by
  refine ⟨by decide, by decide, by decide, by decide⟩

/-! ### Hemisphere references -/

/-- C3: with the map link enabled, in both loops and from every state, a `GPSLatitudeRef`
entry carrying the string `s` replaces the stored latitude `x` by `-x` when `s = "S"` and
leaves it unchanged for every other string, never touching the longitude; a
`GPSLongitudeRef` entry replaces the stored longitude `x` by `-x` when `s = "W"` and leaves
it unchanged otherwise, never touching the latitude; `-x` flips the sign bit of `x` whatever
it was (NaN stays NaN). -/
theorem hemisphere_step (st : JsonState) (ts : TextState) (s : String) :
    (∃ st1, handleJsonStep true st ⟨"GPSLatitudeRef", .str s⟩ = some st1 ∧
      st1.gpsLatitude = (if s = "S" then F64.neg st.gpsLatitude else st.gpsLatitude) ∧
      st1.gpsLongitude = st.gpsLongitude ∧ st1.hasGPSData = st.hasGPSData) ∧
    (∃ st1, handleJsonStep true st ⟨"GPSLongitudeRef", .str s⟩ = some st1 ∧
      st1.gpsLongitude = (if s = "W" then F64.neg st.gpsLongitude else st.gpsLongitude) ∧
      st1.gpsLatitude = st.gpsLatitude ∧ st1.hasGPSData = st.hasGPSData) ∧
    (∃ ts1, mainStep true ts ⟨"GPSLatitudeRef", .str s⟩ = some ts1 ∧
      ts1.gpsLatitude = (if s = "S" then F64.neg ts.gpsLatitude else ts.gpsLatitude) ∧
      ts1.gpsLongitude = ts.gpsLongitude ∧ ts1.hasGPSData = ts.hasGPSData) ∧
    (∃ ts1, mainStep true ts ⟨"GPSLongitudeRef", .str s⟩ = some ts1 ∧
      ts1.gpsLongitude = (if s = "W" then F64.neg ts.gpsLongitude else ts.gpsLongitude) ∧
      ts1.gpsLatitude = ts.gpsLatitude ∧ ts1.hasGPSData = ts.hasGPSData) ∧
    (∀ (b : Bool) (m : Nat) (e : Int), F64.neg (F64.fin b m e) = F64.fin (!b) m e) ∧
    (∀ b : Bool, F64.neg (F64.inf b) = F64.inf (!b)) ∧
    (∀ x : F64, F64.neg (F64.neg x) = x) := by
  refine ⟨?_, ?_, ?_, ?_, fun _ _ _ => rfl, fun _ => rfl, ?_⟩
  · by_cases h : s = "S" <;>
      simp [handleJsonStep, formatValue, sprintV, Value.asString, h]
  · by_cases h : s = "W" <;>
      simp [handleJsonStep, formatValue, sprintV, Value.asString, h]
  · by_cases h : s = "S" <;>
      simp [mainStep, formatValue, sprintV, Value.asString, h]
  · by_cases h : s = "W" <;>
      simp [mainStep, formatValue, sprintV, Value.asString, h]
  · intro x
    cases x <;> simp [F64.neg]

/-! ### When the map link is synthesized -/

/-- C4 as stated fails: with only a `GPSLatitude` entry and no `GPSLongitude` entry at all,
both loops still synthesize the link, with the longitude left at its initial `+0`. -/
theorem link_with_latitude_only :
    latitudeOnly.all (fun e => decide (e.TagName ≠ "GPSLongitude")) = true ∧
    handleJson latitudeOnly true = some
      [("GPSLatitude", "40.44611111111111"),
       ("GoogleMapsLink", "https://www.google.com/maps?q=40.446111,0.000000")] ∧
    mainText latitudeOnly true = some
      ["GPSLatitude: 40.44611111111111",
       "Google Maps Link: https://www.google.com/maps?q=40.446111,0.000000"] := by
  refine ⟨by decide, by decide, by decide⟩

/-- C4, amended: both loops keep a single flag `hasGPSData`, which starts false, is never
reset by an iteration, and is set by a `GPSLatitude` entry as well as by a `GPSLongitude`
entry. So for every entry sequence processed with the map link enabled, the flag is set at
the end exactly when at least one `GPSLatitude` or `GPSLongitude` entry occurred, and the
link is synthesized from the two stored coordinates exactly when the flag is set. -/
theorem link_iff_some_coordinate (entries : List ExifTag) (st : JsonState) (ts : TextState)
    (hj : handleJsonLoop true JsonState.init entries = some st)
    (ht : mainLoop true TextState.init entries = some ts) :
    JsonState.init.hasGPSData = false ∧ TextState.init.hasGPSData = false ∧
    (∀ (w : Bool) (s s1 : JsonState) (e : ExifTag), handleJsonStep w s e = some s1 →
      s.hasGPSData = true → s1.hasGPSData = true) ∧
    (∀ (w : Bool) (s s1 : TextState) (e : ExifTag), mainStep w s e = some s1 →
      s.hasGPSData = true → s1.hasGPSData = true) ∧
    (st.hasGPSData = true ↔
      ∃ e ∈ entries, e.TagName = "GPSLatitude" ∨ e.TagName = "GPSLongitude") ∧
    (ts.hasGPSData = true ↔
      ∃ e ∈ entries, e.TagName = "GPSLatitude" ∨ e.TagName = "GPSLongitude") ∧
    handleJson entries true = some (if st.hasGPSData = true then
      mapSet st.exifMap "GoogleMapsLink" (googleMapsLink st.gpsLatitude st.gpsLongitude)
      else st.exifMap) ∧
    mainText entries true = some (if ts.hasGPSData = true then
      ts.out ++ ["Google Maps Link: " ++ googleMapsLink ts.gpsLatitude ts.gpsLongitude]
      else ts.out) := by
  have hany : entries.any isCoordinateTag = true ↔
      ∃ e ∈ entries, e.TagName = "GPSLatitude" ∨ e.TagName = "GPSLongitude" := by
    simp [List.any_eq_true, isCoordinateTag]
  refine ⟨rfl, rfl, ?_, ?_, ?_, ?_, ?_, ?_⟩
  · intro w s s1 e h hs
    have := gpsStep_flag (handleJsonStep_gps h)
    simp [JsonState.gps, hs] at this
    exact this
  · intro w s s1 e h hs
    have := gpsStep_flag (mainStep_gps h)
    simp [TextState.gps, hs] at this
    exact this
  · have := gpsLoop_flag entries (handleJsonLoop_gps entries hj)
    simp [JsonState.gps, JsonState.init] at this
    rw [← hany, ← this]
  · have := gpsLoop_flag entries (mainLoop_gps entries ht)
    simp [TextState.gps, TextState.init] at this
    rw [← hany, ← this]
  · cases hb : st.hasGPSData <;> simp [handleJson, hj, hb]
  · cases hb : ts.hasGPSData <;> simp [mainText, ht, hb]

/-- Witness of C4 (amended) on the lone latitude entry. -/
theorem link_iff_some_coordinate_witness :
    (handleJsonLoop true JsonState.init latitudeOnly).isSome = true ∧
    (mainLoop true TextState.init latitudeOnly).isSome = true ∧
    handleJson latitudeOnly true = some
      [("GPSLatitude", "40.44611111111111"),
       ("GoogleMapsLink", "https://www.google.com/maps?q=40.446111,0.000000")] := by
  refine ⟨by decide, by decide, ?_⟩
  have h := (link_iff_some_coordinate latitudeOnly
    ⟨[("GPSLatitude", "40.44611111111111")], true, F64.fin false 5692284091518302 (-47),
      F64.zero false⟩
    ⟨["GPSLatitude: 40.44611111111111"], true, F64.fin false 5692284091518302 (-47),
      F64.zero false⟩ (by decide) (by decide)).2.2.2.2.2.2.1
  rw [h]
  decide

/-! ### Signs -/

theorem bitLenAux_le (fuel : Nat) : ∀ (n k : Nat), n < 2 ^ k → F64.bitLenAux fuel n ≤ k := by
  induction fuel with
  | zero => intro n k _; simp [F64.bitLenAux]
  | succ f ih =>
    intro n k h
    unfold F64.bitLenAux
    by_cases h0 : n = 0
    · simp [h0]
    · simp only [h0, if_false]
      cases k with
      | zero => simp at h; exact absurd h h0
      | succ k =>
        have : n / 2 < 2 ^ k := by
          rw [Nat.div_lt_iff_lt_mul (by decide)]
          rw [pow_succ] at h
          exact h
        have := ih (n / 2) k this
        omega

/-- Rounding never gives NaN and keeps the requested sign. -/
theorem round_signBit (s : Bool) (num den : Nat) :
    F64.round s num den ≠ F64.nan ∧ (F64.round s num den).signBit = s := by
  unfold F64.round F64.zero
  dsimp only
  split_ifs <;> simp [F64.signBit]

/-- A 32-bit magnitude converts exactly: the result is finite, and zero only for zero. -/
theorem round_small (s : Bool) (num : Nat) (h : num < 2 ^ 32) :
    ∃ m e, F64.round s num 1 = F64.fin s m e ∧ (m = 0 ↔ num = 0) := by
  by_cases h0 : num = 0
  · exact ⟨0, F64.eMin, by simp [F64.round, F64.zero, h0], by simp [h0]⟩
  · have hb : F64.bitLen num ≤ 32 := bitLenAux_le num num 32 h
    have hb1 : F64.bitLen 1 = 1 := by decide
    have he : F64.ulpExp num 1 ≤ -21 := by
      unfold F64.ulpExp
      simp only [hb1, F64.eMin]
      split_ifs <;> omega
    have hs : F64.scale num 1 (F64.ulpExp num 1) = (num * 2 ^ (-(F64.ulpExp num 1)).toNat, 1) := by
      unfold F64.scale
      rw [if_neg (by omega)]
    have hr : ∀ N : Nat, F64.rne N 1 = N := by
      intro N
      simp [F64.rne, Nat.mod_one]
    have hpos : num * 2 ^ (-(F64.ulpExp num 1)).toNat ≠ 0 :=
      Nat.mul_ne_zero h0 (by positivity)
    unfold F64.round
    simp only [h0, if_false, hs, hr, F64.eMax]
    split_ifs with h1 h2 h3
    · omega
    · exact ⟨_, _, rfl, by simp [h0]⟩
    · omega
    · exact ⟨_, _, rfl, by simp [h0, hpos]⟩

theorem digitChar_ne_minus (d : Nat) (h : d < 10) : Nat.digitChar d ≠ '-' := by
  interval_cases d <;> decide

theorem toDigitsCore_startsUnsigned (fuel : Nat) : ∀ (n : Nat) (acc : List Char),
    StartsUnsigned acc → StartsUnsigned (Nat.toDigitsCore 10 fuel n acc) := by
  induction fuel with
  | zero => intro n acc h; simpa [Nat.toDigitsCore] using h
  | succ f ih =>
    intro n acc _
    unfold Nat.toDigitsCore
    have hd := digitChar_ne_minus (n % 10) (Nat.mod_lt _ (by decide))
    by_cases h0 : n / 10 = 0
    · simp only [h0, if_true]
      exact ⟨_, _, rfl, hd⟩
    · simp only [h0, if_false]
      exact ih _ _ ⟨_, _, rfl, hd⟩

theorem formatUint_startsUnsigned (n : Nat) : StartsUnsigned (formatUint n).data := by
  unfold formatUint Nat.toDigits
  show StartsUnsigned (Nat.toDigitsCore 10 (n + 1) n [])
  unfold Nat.toDigitsCore
  have hd := digitChar_ne_minus (n % 10) (Nat.mod_lt _ (by decide))
  by_cases h0 : n / 10 = 0
  · simp only [h0, if_true]
    exact ⟨_, _, rfl, hd⟩
  · simp only [h0, if_false]
    exact toDigitsCore_startsUnsigned _ _ _ ⟨_, _, rfl, hd⟩

theorem startsUnsigned_append {l : List Char} (h : StartsUnsigned l) (r : List Char) :
    StartsUnsigned (l ++ r) := by
  obtain ⟨c, rest, rfl, hc⟩ := h
  exact ⟨c, rest ++ r, rfl, hc⟩

theorem renderDecimal_startsUnsigned (k : Nat) (p : Int) :
    StartsUnsigned (renderDecimal k p).data := by
  unfold renderDecimal
  split_ifs
  · exact formatUint_startsUnsigned _
  · simp only [String.data_append, List.append_assoc]
    exact startsUnsigned_append (formatUint_startsUnsigned _) _

/-- The rendering of a `float64` starts with a minus sign exactly when its sign bit is set. -/
theorem formatFloat_minus_iff (x : F64) :
    (formatFloat x).data.head? = some '-' ↔ x.signBit = true := by
  cases x with
  | nan => simp [formatFloat, F64.signBit]
  | inf s => cases s <;> simp [formatFloat, F64.signBit]
  | fin s m e =>
    cases s
    · simp only [formatFloat, F64.signBit]
      have : StartsUnsigned ((if m = 0 then "0" else
          renderDecimal (shortestDecimal m e).1 (shortestDecimal m e).2)).data := by
        split_ifs
        · exact ⟨'0', [], rfl, by decide⟩
        · exact renderDecimal_startsUnsigned _ _
      obtain ⟨c, rest, hc, hne⟩ := this
      simp [hc, hne]
    · simp [formatFloat, F64.signBit]

/-- The quotient of two 32-bit signed integers is NaN only for `0/0`, and its sign bit is
set exactly when one of the two is negative and the other is not. -/
theorem div_ofInt_sign (n d : Int) (hn : intInRange 32 n = true)
    (hd : intInRange 32 d = true) :
    (F64.div (F64.ofInt n) (F64.ofInt d) = F64.nan ↔ n = 0 ∧ d = 0) ∧
    (F64.div (F64.ofInt n) (F64.ofInt d)).signBit = xor (decide (n < 0)) (decide (d < 0)) := by
  have hn1 : n.natAbs < 2 ^ 32 := by
    simp [intInRange] at hn
    omega
  have hd1 : d.natAbs < 2 ^ 32 := by
    simp [intInRange] at hd
    omega
  obtain ⟨m, e, hm, hm0⟩ := round_small (decide (n < 0)) n.natAbs hn1
  obtain ⟨k, f, hk, hk0⟩ := round_small (decide (d < 0)) d.natAbs hd1
  rw [Int.natAbs_eq_zero] at hm0 hk0
  unfold F64.ofInt
  rw [hm, hk]
  simp only [F64.div]
  by_cases hkz : k = 0
  · have hdz : d = 0 := hk0.1 hkz
    by_cases hmz : m = 0
    · have hnz : n = 0 := hm0.1 hmz
      simp [hkz, hmz, hnz, hdz, F64.signBit]
    · have hnz : n ≠ 0 := fun h => hmz (hm0.2 h)
      simp [hkz, hmz, hnz, F64.signBit]
  · have hdz : d ≠ 0 := fun h => hkz (hk0.2 h)
    simp only [hkz, if_false]
    split_ifs
    · exact ⟨by simp [hdz, (round_signBit _ _ _).1], (round_signBit _ _ _).2⟩
    · exact ⟨by simp [hdz, (round_signBit _ _ _).1], (round_signBit _ _ _).2⟩

/-! ### The value formatter -/

/-- C5: on a `RationalSeq` value `formatValue` succeeds exactly when the length is 1 or 3;
for length 3 the string is the shortest (no trailing zero) decimal rendering of
`parseGPS v`, for length 1 the rendering of numerator/denominator of the single element,
and for every other length, 0 and 2 included, the result is the error
`Failed to convert`. -/
theorem formatValue_rationals (v : List Rational) :
    ((∃ s, formatValue (.rationals v) = some (.ok s)) ↔ (v.length = 1 ∨ v.length = 3)) ∧
    (v.length = 3 → ∃ x, parseGPS v = some x ∧
      formatValue (.rationals v) = some (.ok (formatFloat x))) ∧
    (v.length = 1 → ∃ r, v = [r] ∧ formatValue (.rationals v) =
      some (.ok (formatFloat (F64.div (F64.ofNat r.Numerator) (F64.ofNat r.Denominator))))) ∧
    (v.length ≠ 1 → v.length ≠ 3 →
      formatValue (.rationals v) = some (.error "Failed to convert")) ∧
    formatValue (.rationals []) = some (.error "Failed to convert") ∧
    (∀ a b : Rational, formatValue (.rationals [a, b]) = some (.error "Failed to convert")) := by
  have h3 : v.length = 3 → ∃ x, parseGPS v = some x ∧
      formatValue (.rationals v) = some (.ok (formatFloat x)) := by
    intro h
    match v, h with
    | [r0, r1, r2], _ => exact ⟨dmsToDecimal r0 r1 r2, by simp [parseGPS, dmsToDecimal],
        by simp [formatValue, parseGPS, dmsToDecimal]⟩
  have h1 : v.length = 1 → ∃ r, v = [r] ∧ formatValue (.rationals v) =
      some (.ok (formatFloat (F64.div (F64.ofNat r.Numerator) (F64.ofNat r.Denominator)))) := by
    intro h
    match v, h with
    | [r], _ => exact ⟨r, rfl, by simp [formatValue]⟩
  have he : v.length ≠ 1 → v.length ≠ 3 →
      formatValue (.rationals v) = some (.error "Failed to convert") := by
    intro n1 n3
    simp [formatValue, n1, n3]
  refine ⟨⟨?_, ?_⟩, h3, h1, he, by simp [formatValue], fun a b => by simp [formatValue]⟩
  · rintro ⟨s, hs⟩
    by_contra hn
    push_neg at hn
    rw [he hn.1 hn.2] at hs
    simp at hs
  · rintro (h | h)
    · obtain ⟨r, -, hr⟩ := h1 h
      exact ⟨_, hr⟩
    · obtain ⟨x, -, hx⟩ := h3 h
      exact ⟨_, hx⟩

/-- Witness of C5: a degrees/minutes/seconds triple, a single rational and a pair. -/
theorem formatValue_rationals_witness :
    formatValue (.rationals latitudeExample) = some (.ok "40.44611111111111") ∧
    formatValue (.rationals [⟨1, 2⟩]) = some (.ok "0.5") ∧
    formatValue (.rationals [⟨1, 2⟩, ⟨3, 4⟩]) = some (.error "Failed to convert") := by
  refine ⟨?_, ?_, (formatValue_rationals [⟨1, 2⟩, ⟨3, 4⟩]).2.2.2.1 (by decide) (by decide)⟩
  · obtain ⟨x, hx, h⟩ := (formatValue_rationals latitudeExample).2.1 (by decide)
    rw [h]
    have hx2 : parseGPS latitudeExample = some (F64.fin false 5692284091518302 (-47)) := by
      decide
    rw [hx2] at hx
    cases hx
    decide
  · obtain ⟨r, hr, h⟩ := (formatValue_rationals [⟨1, 2⟩]).2.2.1 (by decide)
    rw [h]
    cases hr
    decide

/-- C6: on a `SignedRationalSeq` value `formatValue` succeeds exactly when the length is 1,
returning the decimal rendering of numerator/denominator of that element; the rendering
starts with a minus sign exactly when one of numerator and denominator is negative and the
other is not; for every other length, 3 included, the result is the error
`Failed to convert`. -/
theorem formatValue_signedRationals (v : List SignedRational) :
    ((∃ s, formatValue (.signedRationals v) = some (.ok s)) ↔ v.length = 1) ∧
    (∀ r : SignedRational, formatValue (.signedRationals [r]) =
      some (.ok (formatFloat (F64.div (F64.ofInt r.Numerator) (F64.ofInt r.Denominator))))) ∧
    (v.length ≠ 1 → formatValue (.signedRationals v) = some (.error "Failed to convert")) ∧
    (∀ a b c : SignedRational,
      formatValue (.signedRationals [a, b, c]) = some (.error "Failed to convert")) ∧
    (∀ r : SignedRational, intInRange 32 r.Numerator = true →
      intInRange 32 r.Denominator = true →
      ((formatFloat (F64.div (F64.ofInt r.Numerator) (F64.ofInt r.Denominator))).data.head?
          = some '-' ↔
        (r.Numerator < 0 ∧ ¬ r.Denominator < 0) ∨ (¬ r.Numerator < 0 ∧ r.Denominator < 0))) := by
  have he : v.length ≠ 1 →
      formatValue (.signedRationals v) = some (.error "Failed to convert") := by
    intro n1
    simp [formatValue, n1]
  refine ⟨⟨?_, ?_⟩, fun r => by simp [formatValue], he, fun a b c => by simp [formatValue], ?_⟩
  · rintro ⟨s, hs⟩
    by_contra hn
    rw [he hn] at hs
    simp at hs
  · intro h
    match v, h with
    | [r], _ => exact ⟨_, by simp [formatValue]; rfl⟩
  · intro r hn hd
    rw [formatFloat_minus_iff, (div_ofInt_sign _ _ hn hd).2]
    by_cases h1 : r.Numerator < 0 <;> by_cases h2 : r.Denominator < 0 <;> simp [h1, h2]

/-- Witness of C6: minus one half, zero over minus one, and a sequence of three signed
rationals. -/
theorem formatValue_signedRationals_witness :
    formatValue (.signedRationals [⟨-1, 2⟩]) = some (.ok "-0.5") ∧
    formatValue (.signedRationals [⟨0, -1⟩]) = some (.ok "-0") ∧
    formatValue (.signedRationals [⟨1, 2⟩, ⟨3, 4⟩, ⟨5, 6⟩]) =
      some (.error "Failed to convert") ∧
    ((formatFloat (F64.div (F64.ofInt (-1)) (F64.ofInt 2))).data.head? = some '-' ↔
      ((-1 : Int) < 0 ∧ ¬ (2 : Int) < 0) ∨ (¬ (-1 : Int) < 0 ∧ (2 : Int) < 0)) := by
  refine ⟨?_, ?_, (formatValue_signedRationals [⟨1, 2⟩, ⟨3, 4⟩, ⟨5, 6⟩]).2.2.1 (by decide),
    (formatValue_signedRationals []).2.2.2.2 ⟨-1, 2⟩ (by decide) (by decide)⟩
  · rw [(formatValue_signedRationals []).2.1 ⟨-1, 2⟩]
    decide
  · rw [(formatValue_signedRationals []).2.1 ⟨0, -1⟩]
    decide

/-- C7: on a `[]int` value `formatValue` succeeds exactly when the length is 1, returning
the base-10 string of that signed integer; for every other length the result is the error
`Failed to convert`. -/
theorem formatValue_ints (v : List Int) :
    ((∃ s, formatValue (.ints v) = some (.ok s)) ↔ v.length = 1) ∧
    (∀ i : Int, formatValue (.ints [i]) = some (.ok (itoa i))) ∧
    (v.length ≠ 1 → formatValue (.ints v) = some (.error "Failed to convert")) ∧
    itoa 0 = "0" ∧ itoa 2024 = "2024" ∧ itoa (-17) = "-17" := by
  have he : v.length ≠ 1 → formatValue (.ints v) = some (.error "Failed to convert") := by
    intro n1
    simp [formatValue, n1]
  refine ⟨⟨?_, ?_⟩, fun i => by simp [formatValue], he, by decide, by decide, by decide⟩
  · rintro ⟨s, hs⟩
    by_contra hn
    rw [he hn] at hs
    simp at hs
  · intro h
    match v, h with
    | [i], _ => exact ⟨itoa i, by simp [formatValue]⟩

/-- Witness of C7: a single negative integer, and a sequence of two integers. -/
theorem formatValue_ints_witness :
    formatValue (.ints [-17]) = some (.ok "-17") ∧
    formatValue (.ints [1, 2]) = some (.error "Failed to convert") :=
  ⟨by rw [(formatValue_ints []).2.1 (-17)]; decide,
    (formatValue_ints [1, 2]).2.2.1 (by decide)⟩

/-- C8: on an unsigned-integer sequence of length 1, of any of the four widths,
`formatValue` succeeds with the base-10 digits of the element itself, without any
conversion to `float64`; a `[]uint16` holding 100 gives `100` and a `[]uint64` holding
`2^64 - 1` gives all its twenty digits. -/
theorem formatValue_uint_single (a : Nat) :
    formatValue (.uint8s [a]) = some (.ok (formatUint a)) ∧
    formatValue (.uint16s [a]) = some (.ok (formatUint a)) ∧
    formatValue (.uint32s [a]) = some (.ok (formatUint a)) ∧
    formatValue (.uint64s [a]) = some (.ok (formatUint a)) ∧
    formatUint a = String.mk (Nat.toDigits 10 a) ∧
    formatValue (.uint16s [100]) = some (.ok "100") ∧
    formatValue (.uint64s [2 ^ 64 - 1]) = some (.ok "18446744073709551615") := by
  refine ⟨?_, ?_, ?_, ?_, rfl, by decide, by decide⟩ <;>
    simp [formatValue, formatUintSlice]

/-- C9: on an unsigned-integer sequence, of any of the four widths, whose length is neither
1 nor 2 (the empty sequence included) `formatValue` succeeds with the `%v` rendering of the
whole sequence, and `formatUintSlice` returns a string, never an error and never a panic,
on every input. -/
theorem formatValue_uint_fallback (v : List Nat) :
    (v.length ≠ 1 → v.length ≠ 2 →
      formatValue (.uint8s v) = some (.ok (sprintV (.uint8s v))) ∧
      formatValue (.uint16s v) = some (.ok (sprintV (.uint16s v))) ∧
      formatValue (.uint32s v) = some (.ok (sprintV (.uint32s v))) ∧
      formatValue (.uint64s v) = some (.ok (sprintV (.uint64s v)))) ∧
    (∃ s, formatUintSlice v = some (.ok s)) ∧
    formatValue (.uint8s []) = some (.ok "[]") ∧
    formatValue (.uint32s [7, 8, 9]) = some (.ok "[7 8 9]") := by
  refine ⟨?_, ?_, by decide, by decide⟩
  · intro n1 n2
    simp [formatValue, formatUintSlice, sprintV, n1, n2]
  · match v with
    | [] => exact ⟨sprintSlice formatUint [], by simp [formatUintSlice]⟩
    | [a] => exact ⟨formatUint a, by simp [formatUintSlice]⟩
    | [a, b] =>
      exact ⟨formatFloat (F64.div (F64.ofNat a) (F64.ofNat b)), by simp [formatUintSlice]⟩
    | a :: b :: c :: rest =>
      exact ⟨sprintSlice formatUint (a :: b :: c :: rest), by simp [formatUintSlice]⟩

/-- Witness of C9 on a `[]uint16` of length three. -/
theorem formatValue_uint_fallback_witness :
    formatValue (.uint16s [1, 2, 3]) = some (.ok "[1 2 3]") := by
  rw [((formatValue_uint_fallback [1, 2, 3]).1 (by decide) (by decide)).2.1]
  decide

/-- C10 as stated fails for the unsigned-integer sequences: a `[]uint8` of length three is
not of a supported length, yet `formatValue` succeeds on it. -/
theorem uint_unsupported_length_succeeds :
    ([7, 8, 9] : List Nat).length ≠ 1 ∧ ([7, 8, 9] : List Nat).length ≠ 2 ∧
    formatValue (.uint8s [7, 8, 9]) = some (.ok "[7 8 9]") ∧
    formatValue (.uint8s [7, 8, 9]) ≠ some (.error "Failed to convert") := by
  refine ⟨by decide, by decide, by decide, by decide⟩

/-- C10, amended: `formatValue` yields the failure `Failed to convert` on every
`RationalSeq` of length other than 1 or 3 and on every `SignedRationalSeq` of length other
than 1; on a `UintSeqN` of length other than 1 or 2 it does not fail but returns the `%v`
rendering of the sequence. -/
theorem unsupported_lengths :
    (∀ v : List Rational, v.length ≠ 1 → v.length ≠ 3 →
      formatValue (.rationals v) = some (.error "Failed to convert")) ∧
    (∀ v : List SignedRational, v.length ≠ 1 →
      formatValue (.signedRationals v) = some (.error "Failed to convert")) ∧
    (∀ v : List Nat, v.length ≠ 1 → v.length ≠ 2 →
      formatValue (.uint8s v) = some (.ok (sprintSlice formatUint v)) ∧
      formatValue (.uint16s v) = some (.ok (sprintSlice formatUint v)) ∧
      formatValue (.uint32s v) = some (.ok (sprintSlice formatUint v)) ∧
      formatValue (.uint64s v) = some (.ok (sprintSlice formatUint v))) := by
  refine ⟨?_, ?_, ?_⟩
  · intro v n1 n3
    simp [formatValue, n1, n3]
  · intro v n1
    simp [formatValue, n1]
  · intro v n1 n2
    simp [formatValue, formatUintSlice, n1, n2]

/-- Witness of C10 (amended): a pair of rationals, an empty signed sequence, and four
`uint64` elements. -/
theorem unsupported_lengths_witness :
    formatValue (.rationals [⟨1, 2⟩, ⟨3, 4⟩]) = some (.error "Failed to convert") ∧
    formatValue (.signedRationals []) = some (.error "Failed to convert") ∧
    formatValue (.uint64s [1, 2, 3, 4]) = some (.ok (sprintSlice formatUint [1, 2, 3, 4])) :=
  ⟨unsupported_lengths.1 [⟨1, 2⟩, ⟨3, 4⟩] (by decide) (by decide),
    unsupported_lengths.2.1 [] (by decide),
    (unsupported_lengths.2.2 [1, 2, 3, 4] (by decide) (by decide)).2.2.2⟩

/-! ### Totality of the formatter -/

theorem parseGPS_isSome_of_length {v : List Rational} (h : 3 ≤ v.length) :
    ∃ x, parseGPS v = some x := by
  match v, h with
  | r0 :: r1 :: r2 :: rest, _ => exact ⟨dmsToDecimal r0 r1 r2, by simp [parseGPS, dmsToDecimal]⟩

theorem parseGPS_eq_none_of_length {v : List Rational} (h : v.length < 3) :
    parseGPS v = none := by
  match v, h with
  | [], _ => simp [parseGPS]
  | [a], _ => simp [parseGPS]
  | [a, b], _ => simp [parseGPS]

theorem formatUintSlice_ok (v : List Nat) : ∃ s, formatUintSlice v = some (.ok s) := by
  match v with
  | [] => exact ⟨sprintSlice formatUint [], by simp [formatUintSlice]⟩
  | [a] => exact ⟨formatUint a, by simp [formatUintSlice]⟩
  | [a, b] =>
    exact ⟨formatFloat (F64.div (F64.ofNat a) (F64.ofNat b)), by simp [formatUintSlice]⟩
  | a :: b :: c :: rest =>
    exact ⟨sprintSlice formatUint (a :: b :: c :: rest), by simp [formatUintSlice]⟩

/-- The outcome of `formatValue` as a function of variant and length alone: a string
unless the value is a `RationalSeq` of length other than 1 and 3, or a `SignedRationalSeq`
or `SmallIntSeq` of length other than 1. -/
theorem formatValue_shape (v : Value) :
    ∃ r, formatValue v = some r ∧ isOk r =
      (match v.variant with
       | .rationals => decide (v.len = 1 ∨ v.len = 3)
       | .signedRationals => decide (v.len = 1)
       | .ints => decide (v.len = 1)
       | _ => true) := by
  cases v with
  | rationals l =>
    match l with
    | [] => exact ⟨.error "Failed to convert", by simp [formatValue],
        by simp [isOk, Value.variant, Value.len]⟩
    | [a] => exact ⟨.ok _, by simp [formatValue]; rfl, by simp [isOk, Value.variant, Value.len]⟩
    | [a, b] => exact ⟨.error "Failed to convert", by simp [formatValue],
        by simp [isOk, Value.variant, Value.len]⟩
    | [a, b, c] =>
      exact ⟨.ok (formatFloat (dmsToDecimal a b c)), by simp [formatValue, parseGPS, dmsToDecimal],
        by simp [isOk, Value.variant, Value.len]⟩
    | a :: b :: c :: d :: rest =>
      exact ⟨.error "Failed to convert", by simp [formatValue],
        by simp [isOk, Value.variant, Value.len]⟩
  | signedRationals l =>
    match l with
    | [] => exact ⟨.error "Failed to convert", by simp [formatValue],
        by simp [isOk, Value.variant, Value.len]⟩
    | [a] => exact ⟨.ok _, by simp [formatValue]; rfl, by simp [isOk, Value.variant, Value.len]⟩
    | a :: b :: rest =>
      exact ⟨.error "Failed to convert", by simp [formatValue],
        by simp [isOk, Value.variant, Value.len]⟩
  | uint8s l =>
    obtain ⟨s, hs⟩ := formatUintSlice_ok l
    exact ⟨.ok s, by simp [formatValue, hs], by simp [isOk, Value.variant]⟩
  | uint16s l =>
    obtain ⟨s, hs⟩ := formatUintSlice_ok l
    exact ⟨.ok s, by simp [formatValue, hs], by simp [isOk, Value.variant]⟩
  | uint32s l =>
    obtain ⟨s, hs⟩ := formatUintSlice_ok l
    exact ⟨.ok s, by simp [formatValue, hs], by simp [isOk, Value.variant]⟩
  | uint64s l =>
    obtain ⟨s, hs⟩ := formatUintSlice_ok l
    exact ⟨.ok s, by simp [formatValue, hs], by simp [isOk, Value.variant]⟩
  | ints l =>
    match l with
    | [] => exact ⟨.error "Failed to convert", by simp [formatValue],
        by simp [isOk, Value.variant, Value.len]⟩
    | [a] => exact ⟨.ok _, by simp [formatValue]; rfl, by simp [isOk, Value.variant, Value.len]⟩
    | a :: b :: rest =>
      exact ⟨.error "Failed to convert", by simp [formatValue],
        by simp [isOk, Value.variant, Value.len]⟩
  | str s => exact ⟨.ok s, by simp [formatValue, sprintV], by simp [isOk, Value.variant]⟩
  | other t s => exact ⟨.ok s, by simp [formatValue, sprintV], by simp [isOk, Value.variant]⟩

theorem formatValue_total (v : Value) : ∃ r, formatValue v = some r := by
  obtain ⟨r, hr, -⟩ := formatValue_shape v
  exact ⟨r, hr⟩


/-! ### The loops as folds -/

theorem display_eq_displayOf {v : Value} {r : Except String String}
    (h : formatValue v = some r) : display v r = displayOf v := by
  simp [displayOf, h]

theorem linesOf_eq {e : ExifTag} {r : Except String String}
    (h : formatValue e.Value = some r) :
    (match r with
      | .error _ => [e.TagName ++ ": " ++ sprintV e.Value,
                     "Failed to format, type: " ++ typeName e.Value]
      | .ok val => [e.TagName ++ ": " ++ val]) = linesOf e := by
  cases r <;> simp [linesOf, h]

/-- The first line printed for an entry is its tag name followed by its display string. -/
theorem linesOf_head (e : ExifTag) :
    (linesOf e).head? = some (e.TagName ++ ": " ++ displayOf e.Value) := by
  obtain ⟨r, hr⟩ := formatValue_total e.Value
  cases r <;> simp [linesOf, displayOf, display, hr]

theorem handleJsonStep_fold (w : Bool) (st : JsonState) (e : ExifTag) :
    handleJsonStep w st e = (gpsStep w st.gps e).map (fun g =>
      { exifMap := mapSet st.exifMap e.TagName (displayOf e.Value),
        hasGPSData := g.hasGPSData, gpsLatitude := g.gpsLatitude,
        gpsLongitude := g.gpsLongitude }) := by
  obtain ⟨r, hr⟩ := formatValue_total e.Value
  rw [handleJsonStep_eq, hr]
  simp [display_eq_displayOf hr]

theorem mainStep_fold (w : Bool) (st : TextState) (e : ExifTag) :
    mainStep w st e = (gpsStep w st.gps e).map (fun g =>
      { out := st.out ++ linesOf e,
        hasGPSData := g.hasGPSData, gpsLatitude := g.gpsLatitude,
        gpsLongitude := g.gpsLongitude }) := by
  obtain ⟨r, hr⟩ := formatValue_total e.Value
  rw [mainStep_eq, hr]
  have hl := linesOf_eq hr
  cases r <;> simp_all

theorem handleJsonLoop_fold (w : Bool) (es : List ExifTag) (st : JsonState) :
    handleJsonLoop w st es = (gpsLoop w st.gps es).map (fun g =>
      { exifMap := storeAll st.exifMap es,
        hasGPSData := g.hasGPSData, gpsLatitude := g.gpsLatitude,
        gpsLongitude := g.gpsLongitude }) := by
  induction es generalizing st with
  | nil => simp [handleJsonLoop, gpsLoop, storeAll, JsonState.gps]
  | cons e rest ih =>
    simp only [handleJsonLoop, gpsLoop, handleJsonStep_fold]
    cases hg : gpsStep w st.gps e with
    | none => simp
    | some g =>
      simp [ih, JsonState.gps, storeAll]

theorem mainLoop_fold (w : Bool) (es : List ExifTag) (st : TextState) :
    mainLoop w st es = (gpsLoop w st.gps es).map (fun g =>
      { out := st.out ++ es.flatMap linesOf,
        hasGPSData := g.hasGPSData, gpsLatitude := g.gpsLatitude,
        gpsLongitude := g.gpsLongitude }) := by
  induction es generalizing st with
  | nil => simp [mainLoop, gpsLoop, TextState.gps]
  | cons e rest ih =>
    simp only [mainLoop, gpsLoop, mainStep_fold]
    cases hg : gpsStep w st.gps e with
    | none => simp
    | some g =>
      simp [ih, TextState.gps, List.flatMap]

/-- With the map link disabled the accumulator is never touched. -/
theorem gpsLoop_off (g : Gps) (es : List ExifTag) : gpsLoop false g es = some g := by
  induction es with
  | nil => rfl
  | cons e rest ih => simp [gpsLoop, gpsStep, ih]

/-- With the map link enabled an iteration completes exactly on a well-typed entry. -/
theorem gpsStep_isSome_iff (g : Gps) (e : ExifTag) :
    (gpsStep true g e).isSome = wellTypedGps e := by
  unfold gpsStep wellTypedGps
  by_cases h1 : e.TagName = "GPSLatitude"
  · cases hv : e.Value with
    | rationals v =>
      by_cases hl : 3 ≤ v.length
      · obtain ⟨x, hx⟩ := parseGPS_isSome_of_length hl
        simp [h1, Value.asRationals, hx, hl]
      · simp [h1, Value.asRationals, parseGPS_eq_none_of_length (not_le.mp hl), hl]
    | _ => simp [h1, Value.asRationals]
  · by_cases h2 : e.TagName = "GPSLongitude"
    · cases hv : e.Value with
      | rationals v =>
        by_cases hl : 3 ≤ v.length
        · obtain ⟨x, hx⟩ := parseGPS_isSome_of_length hl
          simp [h2, Value.asRationals, hx, hl]
        · simp [h2, Value.asRationals, parseGPS_eq_none_of_length (not_le.mp hl), hl]
      | _ => simp [h2, Value.asRationals]
    · by_cases h3 : e.TagName = "GPSLatitudeRef"
      · cases hv : e.Value <;> simp [h3, Value.asString]
      · by_cases h4 : e.TagName = "GPSLongitudeRef"
        · cases hv : e.Value <;> simp [h4, Value.asString]
        · simp [h1, h2, h3, h4]

theorem gpsLoop_isSome_iff (es : List ExifTag) (g : Gps) :
    (gpsLoop true g es).isSome = es.all wellTypedGps := by
  induction es generalizing g with
  | nil => rfl
  | cons e rest ih =>
    have hs := gpsStep_isSome_iff g e
    cases hg : gpsStep true g e with
    | none =>
      rw [hg] at hs
      simp [gpsLoop, hg, ← hs]
    | some g1 =>
      rw [hg] at hs
      simp [gpsLoop, hg, ← hs, ih]

theorem gpsLoop_append (w : Bool) (a b : List ExifTag) (g : Gps) :
    gpsLoop w g (a ++ b) = (gpsLoop w g a).bind (fun g1 => gpsLoop w g1 b) := by
  induction a generalizing g with
  | nil => simp [gpsLoop]
  | cons e rest ih =>
    simp only [List.cons_append, gpsLoop]
    cases gpsStep w g e with
    | none => simp
    | some g1 => simp [ih]


/-! ### Maps -/

theorem mapGet_mapSet_self (m : GoMap) (k v : String) : mapGet (mapSet m k v) k = some v := by
  induction m with
  | nil => simp [mapSet, mapGet]
  | cons p t ih =>
    obtain ⟨k1, v1⟩ := p
    by_cases h : k1 = k <;> simp [mapSet, mapGet, h, ih]

theorem mapGet_mapSet_ne (m : GoMap) {k k1 : String} (v : String) (h : k1 ≠ k) :
    mapGet (mapSet m k v) k1 = mapGet m k1 := by
  induction m with
  | nil => simp [mapSet, mapGet, Ne.symm h]
  | cons p t ih =>
    obtain ⟨k2, v2⟩ := p
    by_cases h2 : k2 = k
    · subst h2
      simp [mapSet, mapGet, Ne.symm h]
    · by_cases h3 : k2 = k1
      · subst h3
        simp [mapSet, mapGet, h2]
      · simp [mapSet, mapGet, h2, h3, ih]

theorem mem_mapKeys_mapSet (m : GoMap) (k v k1 : String) :
    k1 ∈ mapKeys (mapSet m k v) ↔ k1 = k ∨ k1 ∈ mapKeys m := by
  induction m with
  | nil => simp [mapSet, mapKeys]
  | cons p t ih =>
    obtain ⟨k2, v2⟩ := p
    by_cases h2 : k2 = k
    · subst h2
      simp [mapSet, mapKeys]
    · simp only [mapKeys] at ih
      simp only [mapSet, h2, if_false, mapKeys, List.map_cons, List.mem_cons, ih]
      tauto

theorem nodup_mapKeys_mapSet (m : GoMap) (k v : String) (h : (mapKeys m).Nodup) :
    (mapKeys (mapSet m k v)).Nodup := by
  induction m with
  | nil => simp [mapSet, mapKeys]
  | cons p t ih =>
    obtain ⟨k2, v2⟩ := p
    simp only [mapKeys, List.map_cons, List.nodup_cons] at h
    by_cases h2 : k2 = k
    · subst h2
      simpa [mapSet, mapKeys] using h
    · have hm := mem_mapKeys_mapSet t k v k2
      simp only [mapSet, h2, if_false, mapKeys, List.map_cons, List.nodup_cons]
      refine ⟨?_, ih h.2⟩
      intro hc
      rcases hm.1 hc with h3 | h3
      · exact h2 h3
      · exact h.1 h3

theorem mapGet_isSome_iff (m : GoMap) (k : String) :
    (mapGet m k).isSome = true ↔ k ∈ mapKeys m := by
  induction m with
  | nil => simp [mapGet, mapKeys]
  | cons p t ih =>
    obtain ⟨k2, v2⟩ := p
    simp only [mapKeys] at ih
    by_cases h2 : k2 = k
    · simp [mapGet, mapKeys, h2]
    · simp [mapGet, mapKeys, h2, ih, Ne.symm h2]

theorem storeAll_append (m : GoMap) (a b : List ExifTag) :
    storeAll m (a ++ b) = storeAll (storeAll m a) b := by
  simp [storeAll, List.foldl_append]

theorem storeAll_cons (m : GoMap) (e : ExifTag) (es : List ExifTag) :
    storeAll m (e :: es) = storeAll (mapSet m e.TagName (displayOf e.Value)) es := rfl

theorem mem_mapKeys_storeAll (es : List ExifTag) (m : GoMap) (k : String) :
    k ∈ mapKeys (storeAll m es) ↔ k ∈ mapKeys m ∨ ∃ e ∈ es, e.TagName = k := by
  induction es generalizing m with
  | nil => simp [storeAll]
  | cons e rest ih =>
    rw [storeAll_cons, ih, mem_mapKeys_mapSet]
    simp only [List.mem_cons, exists_eq_or_imp]
    constructor
    · rintro ((h | h) | h)
      · exact Or.inr (Or.inl h.symm)
      · exact Or.inl h
      · exact Or.inr (Or.inr h)
    · rintro (h | h | h)
      · exact Or.inl (Or.inr h)
      · exact Or.inl (Or.inl h.symm)
      · exact Or.inr h

theorem nodup_mapKeys_storeAll (es : List ExifTag) (m : GoMap) (h : (mapKeys m).Nodup) :
    (mapKeys (storeAll m es)).Nodup := by
  induction es generalizing m with
  | nil => simpa [storeAll] using h
  | cons e rest ih =>
    rw [storeAll_cons]
    exact ih _ (nodup_mapKeys_mapSet m _ _ h)

/-- Later entries of other names do not change what is stored under a key. -/
theorem mapGet_storeAll_of_not_mem (es : List ExifTag) (m : GoMap) (k : String)
    (h : ∀ e ∈ es, e.TagName ≠ k) : mapGet (storeAll m es) k = mapGet m k := by
  induction es generalizing m with
  | nil => simp [storeAll]
  | cons e rest ih =>
    rw [storeAll_cons, ih _ (fun e1 h1 => h e1 (List.mem_cons_of_mem _ h1))]
    exact mapGet_mapSet_ne m _ (Ne.symm (h e (List.mem_cons_self _ _)))

/-- The string stored under a tag name is the display string of its last occurrence. -/
theorem mapGet_storeAll_last (pre post : List ExifTag) (e : ExifTag) (m : GoMap)
    (h : ∀ e1 ∈ post, e1.TagName ≠ e.TagName) :
    mapGet (storeAll m (pre ++ e :: post)) e.TagName = some (displayOf e.Value) := by
  rw [storeAll_append, storeAll_cons, mapGet_storeAll_of_not_mem post _ _ h,
    mapGet_mapSet_self]


/-! ### Order of the hemisphere references -/

theorem gpsStep_latitude {g g1 : Gps} {e : ExifTag} (h : gpsStep true g e = some g1)
    (hn : e.TagName ≠ "GPSLatitude") :
    g1.gpsLatitude =
      if isRef "GPSLatitudeRef" "S" e then F64.neg g.gpsLatitude else g.gpsLatitude := by
  unfold gpsStep at h
  simp only [if_true, hn, if_false] at h
  by_cases h2 : e.TagName = "GPSLongitude"
  · cases hp : e.Value.asRationals.bind parseGPS with
    | none => simp [h2, hp] at h
    | some x =>
      simp [h2, hp] at h
      subst h
      simp [isRef, h2]
  · by_cases h3 : e.TagName = "GPSLatitudeRef"
    · cases hv : e.Value with
      | str s =>
        simp [h3, hv, Value.asString] at h
        subst h
        by_cases hs : s = "S" <;> simp [isRef, h3, hs, hv]
      | _ => simp [h3, hv, Value.asString] at h
    · by_cases h4 : e.TagName = "GPSLongitudeRef"
      · cases hv : e.Value.asString with
        | none => simp [h4, hv] at h
        | some s =>
          simp [h4, hv] at h
          subst h
          by_cases hs : s = "W" <;> simp [isRef, h4, hs]
      · simp [h2, h3, h4] at h
        subst h
        simp [isRef, h3]

theorem gpsStep_longitude {g g1 : Gps} {e : ExifTag} (h : gpsStep true g e = some g1)
    (hn : e.TagName ≠ "GPSLongitude") :
    g1.gpsLongitude =
      if isRef "GPSLongitudeRef" "W" e then F64.neg g.gpsLongitude else g.gpsLongitude := by
  unfold gpsStep at h
  simp only [if_true] at h
  by_cases h1 : e.TagName = "GPSLatitude"
  · cases hp : e.Value.asRationals.bind parseGPS with
    | none => simp [h1, hp] at h
    | some x =>
      simp [h1, hp] at h
      subst h
      simp [isRef, h1]
  · by_cases h3 : e.TagName = "GPSLatitudeRef"
    · cases hv : e.Value.asString with
      | none => simp [h3, hv] at h
      | some s =>
        simp [h3, hv] at h
        subst h
        by_cases hs : s = "S" <;> simp [isRef, h3, hs]
    · by_cases h4 : e.TagName = "GPSLongitudeRef"
      · cases hv : e.Value with
        | str s =>
          simp [h4, hv, Value.asString] at h
          subst h
          by_cases hs : s = "W" <;> simp [isRef, h4, hs, hv]
        | _ => simp [h4, hv, Value.asString] at h
      · simp [h1, hn, h3, h4] at h
        subst h
        simp [isRef, h4]

theorem negTimes_succ (n : Nat) (x : F64) : negTimes (n + 1) x = negTimes n (F64.neg x) := by
  simp [negTimes, Function.iterate_succ]

theorem countRef_cons (name ref : String) (e : ExifTag) (es : List ExifTag) :
    countRef name ref (e :: es) =
      (if isRef name ref e then 1 else 0) + countRef name ref es := by
  unfold countRef
  by_cases h : isRef name ref e = true
  · simp [List.filter, h]
    omega
  · simp [List.filter, h]

theorem gpsLoop_latitude (es : List ExifTag) {g g1 : Gps} (h : gpsLoop true g es = some g1)
    (hn : ∀ e ∈ es, e.TagName ≠ "GPSLatitude") :
    g1.gpsLatitude = negTimes (countRef "GPSLatitudeRef" "S" es) g.gpsLatitude := by
  induction es generalizing g with
  | nil =>
    simp [gpsLoop] at h
    subst h
    simp [countRef, negTimes]
  | cons e rest ih =>
    cases hs : gpsStep true g e with
    | none => simp [gpsLoop, hs] at h
    | some g2 =>
      simp [gpsLoop, hs] at h
      rw [ih h (fun e1 h1 => hn e1 (List.mem_cons_of_mem _ h1)),
        gpsStep_latitude hs (hn e (List.mem_cons_self _ _)), countRef_cons]
      by_cases hr : isRef "GPSLatitudeRef" "S" e = true
      · simp [hr, Nat.add_comm 1, negTimes_succ]
      · simp [hr]

theorem gpsLoop_longitude (es : List ExifTag) {g g1 : Gps} (h : gpsLoop true g es = some g1)
    (hn : ∀ e ∈ es, e.TagName ≠ "GPSLongitude") :
    g1.gpsLongitude = negTimes (countRef "GPSLongitudeRef" "W" es) g.gpsLongitude := by
  induction es generalizing g with
  | nil =>
    simp [gpsLoop] at h
    subst h
    simp [countRef, negTimes]
  | cons e rest ih =>
    cases hs : gpsStep true g e with
    | none => simp [gpsLoop, hs] at h
    | some g2 =>
      simp [gpsLoop, hs] at h
      rw [ih h (fun e1 h1 => hn e1 (List.mem_cons_of_mem _ h1)),
        gpsStep_longitude hs (hn e (List.mem_cons_self _ _)), countRef_cons]
      by_cases hr : isRef "GPSLongitudeRef" "W" e = true
      · simp [hr, Nat.add_comm 1, negTimes_succ]
      · simp [hr]

/-- After a last latitude entry the stored latitude is its `parseGPS` value negated once
for every later `GPSLatitudeRef` entry carrying `S`, whatever came before. -/
theorem gpsLoop_last_latitude (pre post : List ExifTag) (v : Value) {g g1 : Gps}
    (h : gpsLoop true g (pre ++ ⟨"GPSLatitude", v⟩ :: post) = some g1)
    (hn : ∀ e ∈ post, e.TagName ≠ "GPSLatitude") :
    ∃ l x, v = .rationals l ∧ parseGPS l = some x ∧
      g1.gpsLatitude = negTimes (countRef "GPSLatitudeRef" "S" post) x := by
  rw [gpsLoop_append] at h
  cases hp : gpsLoop true g pre with
  | none => simp [hp] at h
  | some g2 =>
    simp only [hp, Option.some_bind, gpsLoop] at h
    cases hs : gpsStep true g2 ⟨"GPSLatitude", v⟩ with
    | none => simp [hs] at h
    | some g3 =>
      simp only [hs, Option.some_bind] at h
      have h3 := gpsLoop_latitude post h hn
      unfold gpsStep at hs
      cases v with
      | rationals l =>
        cases hx : parseGPS l with
        | none => simp [Value.asRationals, hx] at hs
        | some x =>
          simp [Value.asRationals, hx] at hs
          subst hs
          exact ⟨l, x, rfl, hx, h3⟩
      | _ => simp [Value.asRationals] at hs

theorem gpsLoop_last_longitude (pre post : List ExifTag) (v : Value) {g g1 : Gps}
    (h : gpsLoop true g (pre ++ ⟨"GPSLongitude", v⟩ :: post) = some g1)
    (hn : ∀ e ∈ post, e.TagName ≠ "GPSLongitude") :
    ∃ l x, v = .rationals l ∧ parseGPS l = some x ∧
      g1.gpsLongitude = negTimes (countRef "GPSLongitudeRef" "W" post) x := by
  rw [gpsLoop_append] at h
  cases hp : gpsLoop true g pre with
  | none => simp [hp] at h
  | some g2 =>
    simp only [hp, Option.some_bind, gpsLoop] at h
    cases hs : gpsStep true g2 ⟨"GPSLongitude", v⟩ with
    | none => simp [hs] at h
    | some g3 =>
      simp only [hs, Option.some_bind] at h
      have h3 := gpsLoop_longitude post h hn
      unfold gpsStep at hs
      cases v with
      | rationals l =>
        cases hx : parseGPS l with
        | none => simp [Value.asRationals, hx] at hs
        | some x =>
          simp [Value.asRationals, hx] at hs
          subst hs
          exact ⟨l, x, rfl, hx, h3⟩
      | _ => simp [Value.asRationals] at hs


/-! ### The two reports -/

theorem handleJson_eq (es : List ExifTag) (w : Bool) :
    handleJson es w = (gpsLoop w Gps.init es).map (reportMap es) := by
  unfold handleJson
  rw [handleJsonLoop_fold]
  have : JsonState.init.gps = Gps.init := rfl
  rw [this]
  cases hg : gpsLoop w Gps.init es with
  | none => rfl
  | some g =>
    cases hb : g.hasGPSData <;> simp [reportMap, hb, JsonState.init]

theorem mainText_eq (es : List ExifTag) (w : Bool) :
    mainText es w = (gpsLoop w Gps.init es).map (reportLines es) := by
  unfold mainText
  rw [mainLoop_fold]
  have : TextState.init.gps = Gps.init := rfl
  rw [this]
  cases hg : gpsLoop w Gps.init es with
  | none => rfl
  | some g =>
    cases hb : g.hasGPSData <;> simp [reportLines, hb, TextState.init]

theorem displayOf_ok {v : Value} {s : String} (h : formatValue v = some (.ok s)) :
    displayOf v = s := by
  simp [displayOf, display, h]

theorem displayOf_error {v : Value} {msg : String} (h : formatValue v = some (.error msg)) :
    displayOf v = sprintV v := by
  simp [displayOf, display, h]

/-- The loops complete when the map link is disabled or every entry is well typed. -/
theorem gpsLoop_total (es : List ExifTag) (w : Bool) (g : Gps)
    (h : w = false ∨ es.all wellTypedGps = true) : ∃ g1, gpsLoop w g es = some g1 := by
  cases w with
  | false => exact ⟨g, gpsLoop_off g es⟩
  | true =>
    have h1 : es.all wellTypedGps = true := by
      rcases h with h | h
      · cases h
      · exact h
    have := gpsLoop_isSome_iff es g
    rw [h1] at this
    exact Option.isSome_iff_exists.mp this


/-! ### Values of other types, totality, and what the report keeps -/

/-- C12: on every value that is none of the seven sequence variants `formatValue` never
fails and returns the `%v` rendering of the value; a raw string is returned unchanged, so
`Canon` formats to `Canon`. -/
theorem formatValue_generic (v : Value) (s t shown : String) :
    (v.variant = .str ∨ v.variant = .other → formatValue v = some (.ok (sprintV v))) ∧
    formatValue (.str s) = some (.ok s) ∧
    formatValue (.other t shown) = some (.ok shown) ∧
    formatValue (.str "Canon") = some (.ok "Canon") := by
  refine ⟨?_, by simp [formatValue, sprintV], by simp [formatValue, sprintV], by decide⟩
  intro h
  cases v <;> simp [Value.variant] at h <;> simp [formatValue]

/-- Witness of C12 on the string `Canon` and on a value of another dynamic type. -/
theorem formatValue_generic_witness :
    formatValue (.str "Canon") = some (.ok (sprintV (.str "Canon"))) ∧
    formatValue (.other "[]int32" "[1 2]") = some (.ok (sprintV (.other "[]int32" "[1 2]"))) :=
  ⟨(formatValue_generic (.str "Canon") "" "" "").1 (Or.inl rfl),
    (formatValue_generic (.other "[]int32" "[1 2]") "" "" "").1 (Or.inr rfl)⟩

/-- C18: `formatValue` returns a string or the error on every value of every variant and
length, never panicking on an index (`none` is the panic); `parseGPS` succeeds on every
sequence of length exactly 3, the only length `formatValue` calls it on, and would panic on
a shorter one; whether
`formatValue` succeeds depends on the variant and the length only, never on the elements:
a zero denominator gives `+Inf`, `-Inf` or `NaN`, not the error. -/
theorem formatValue_never_panics (v : Value) :
    (∃ r, formatValue v = some r) ∧
    (∀ l : List Nat, ∃ s, formatUintSlice l = some (.ok s)) ∧
    (∀ l : List Rational, l.length = 3 → ∃ x, parseGPS l = some x) ∧
    (∀ l : List Rational, l.length < 3 → parseGPS l = none) ∧
    (∀ u : Value, u.variant = v.variant → u.len = v.len →
      (formatValue u).map isOk = (formatValue v).map isOk) ∧
    formatValue (.rationals []) = some (.error "Failed to convert") ∧
    formatValue (.ints []) = some (.error "Failed to convert") ∧
    formatValue (.uint64s []) = some (.ok "[]") ∧
    formatValue (.rationals [⟨1, 0⟩]) = some (.ok "+Inf") ∧
    formatValue (.rationals [⟨0, 0⟩]) = some (.ok "NaN") ∧
    formatValue (.rationals [⟨1, 0⟩, ⟨2, 1⟩, ⟨3, 1⟩]) = some (.ok "+Inf") ∧
    formatValue (.signedRationals [⟨-1, 0⟩]) = some (.ok "-Inf") ∧
    formatValue (.uint8s [1, 0]) = some (.ok "+Inf") := by
  refine ⟨formatValue_total v, formatUintSlice_ok,
    fun l h => parseGPS_isSome_of_length (le_of_eq h.symm),
    fun l h => parseGPS_eq_none_of_length h, ?_,
    by decide, by decide, by decide, by decide, by decide, by decide, by decide, by decide⟩
  intro u hv hl
  obtain ⟨r, hr, hok⟩ := formatValue_shape v
  obtain ⟨r1, hr1, hok1⟩ := formatValue_shape u
  rw [hr, hr1]
  simp only [Option.map_some']
  rw [hok, hok1, hv, hl]

/-- Witness of C18: two single rationals, one with a zero denominator, succeed alike. -/
theorem formatValue_never_panics_witness :
    (formatValue (.rationals [⟨5, 0⟩])).map isOk =
      (formatValue (.rationals [⟨1, 2⟩])).map isOk ∧
    (∃ x, parseGPS [⟨0, 0⟩, ⟨0, 0⟩, ⟨0, 0⟩] = some x) :=
  ⟨(formatValue_never_panics (.rationals [⟨1, 2⟩])).2.2.2.2.1 (.rationals [⟨5, 0⟩]) rfl rfl,
    (formatValue_never_panics (.str "")).2.2.1 [⟨0, 0⟩, ⟨0, 0⟩, ⟨0, 0⟩] rfl⟩

/-- C19: with the map link enabled both loops complete, from every state, exactly when
every entry named `GPSLatitude` or `GPSLongitude` carries a `RationalSeq` of at least three
elements and every entry named `GPSLatitudeRef` or `GPSLongitudeRef` carries a string. So
they are total under that precondition and not without it: a `GPSLatitude` entry carrying
one rational, or carrying a string, makes both loops panic although `formatValue` formats
the same value, and with the map link disabled the same entries are processed. -/
theorem loops_total_iff_well_typed (es : List ExifTag) (st : JsonState) (ts : TextState) :
    (es.all wellTypedGps = true →
      (∃ st1, handleJsonLoop true st es = some st1) ∧ (∃ ts1, mainLoop true ts es = some ts1)) ∧
    ((handleJsonLoop true st es).isSome = es.all wellTypedGps) ∧
    ((mainLoop true ts es).isSome = es.all wellTypedGps) ∧
    handleJsonLoop true JsonState.init [⟨"GPSLatitude", .rationals [⟨1, 2⟩]⟩] = none ∧
    mainLoop true TextState.init [⟨"GPSLatitude", .rationals [⟨1, 2⟩]⟩] = none ∧
    formatValue (.rationals [⟨1, 2⟩]) = some (.ok "0.5") ∧
    handleJsonLoop true JsonState.init [⟨"GPSLatitude", .str "north"⟩] = none ∧
    mainLoop true TextState.init [⟨"GPSLatitude", .str "north"⟩] = none ∧
    formatValue (.str "north") = some (.ok "north") ∧
    handleJsonLoop true JsonState.init [⟨"GPSLatitudeRef", .uint8s [83]⟩] = none ∧
    handleJson [⟨"GPSLatitude", .rationals [⟨1, 2⟩]⟩] false = some [("GPSLatitude", "0.5")] ∧
    mainText [⟨"GPSLatitude", .str "north"⟩] false = some ["GPSLatitude: north"] := by
  have hj : (handleJsonLoop true st es).isSome = es.all wellTypedGps := by
    rw [handleJsonLoop_fold, Option.isSome_map', gpsLoop_isSome_iff]
  have ht : (mainLoop true ts es).isSome = es.all wellTypedGps := by
    rw [mainLoop_fold, Option.isSome_map', gpsLoop_isSome_iff]
  refine ⟨?_, hj, ht, by decide, by decide, by decide, by decide, by decide, by decide,
    by decide, by decide, by decide⟩
  intro h
  rw [h] at hj ht
  exact ⟨Option.isSome_iff_exists.mp hj, Option.isSome_iff_exists.mp ht⟩

/-- Witness of C19 on the end-to-end scenario, whose four entries are well typed. -/
theorem loops_total_iff_well_typed_witness :
    gpsScenario.all wellTypedGps = true ∧
    (∃ st1, handleJsonLoop true JsonState.init gpsScenario = some st1) ∧
    (∃ ts1, mainLoop true TextState.init gpsScenario = some ts1) :=
  ⟨by decide,
    (loops_total_iff_well_typed gpsScenario JsonState.init TextState.init).1 (by decide)⟩

/-- C13: when the map link is disabled, or enabled with well-typed GPS entries,
`handleJson` builds its map for every entry sequence, and the map has the tag name of every
entry as a key. Each iteration stores under the tag name of its entry the string returned
by `formatValue` when formatting succeeds and the `%v` rendering of the raw value when it
fails, and goes on; the map still holds that string at the end for the last entry of each
tag name (other than the name `GoogleMapsLink`). -/
theorem report_keeps_every_entry (es : List ExifTag) (w : Bool)
    (h : w = false ∨ es.all wellTypedGps = true) :
    (∃ m, handleJson es w = some m ∧
      (∀ e ∈ es, ∃ s, mapGet m e.TagName = some s) ∧
      (∀ (pre post : List ExifTag) (e : ExifTag), es = pre ++ e :: post →
        (∀ e1 ∈ post, e1.TagName ≠ e.TagName) → e.TagName ≠ "GoogleMapsLink" →
        mapGet m e.TagName = some (displayOf e.Value))) ∧
    (∀ (st st1 : JsonState) (e : ExifTag), handleJsonStep w st e = some st1 →
      mapGet st1.exifMap e.TagName = some (displayOf e.Value)) ∧
    (∀ (v : Value) (s : String), formatValue v = some (.ok s) → displayOf v = s) ∧
    (∀ (v : Value) (msg : String), formatValue v = some (.error msg) →
      displayOf v = sprintV v) := by
  refine ⟨?_, ?_, fun v s hv => displayOf_ok hv, fun v msg hv => displayOf_error hv⟩
  · obtain ⟨g, hg⟩ := gpsLoop_total es w Gps.init h
    refine ⟨reportMap es g, by rw [handleJson_eq, hg]; rfl, ?_, ?_⟩
    · intro e he
      have hk : e.TagName ∈ mapKeys (storeAll [] es) :=
        (mem_mapKeys_storeAll es [] e.TagName).2 (Or.inr ⟨e, he, rfl⟩)
      have hk2 : e.TagName ∈ mapKeys (reportMap es g) := by
        unfold reportMap
        split_ifs
        · exact (mem_mapKeys_mapSet _ _ _ _).2 (Or.inr hk)
        · exact hk
      exact Option.isSome_iff_exists.mp ((mapGet_isSome_iff _ _).2 hk2)
    · intro pre post e hes hpost hname
      have hs : mapGet (storeAll [] es) e.TagName = some (displayOf e.Value) := by
        rw [hes]
        exact mapGet_storeAll_last pre post e [] hpost
      unfold reportMap
      split_ifs
      · rw [mapGet_mapSet_ne _ _ hname, hs]
      · exact hs
  · intro st st1 e hst
    rw [handleJsonStep_fold] at hst
    cases hg : gpsStep w st.gps e with
    | none => simp [hg] at hst
    | some g =>
      simp [hg] at hst
      subst hst
      exact mapGet_mapSet_self _ _ _

/-- Witness of C13: an unsupported pair of rationals between two ordinary entries, with the
map link disabled. -/
theorem report_keeps_every_entry_witness :
    ∃ m, handleJson [⟨"Make", .str "Canon"⟩, ⟨"XResolution", .rationals [⟨72, 1⟩, ⟨1, 1⟩]⟩,
        ⟨"Orientation", .uint16s [1]⟩] false = some m ∧
      mapGet m "XResolution" = some (displayOf (.rationals [⟨72, 1⟩, ⟨1, 1⟩])) := by
  obtain ⟨m, hm, -, hlast⟩ := (report_keeps_every_entry
    [⟨"Make", .str "Canon"⟩, ⟨"XResolution", .rationals [⟨72, 1⟩, ⟨1, 1⟩]⟩,
      ⟨"Orientation", .uint16s [1]⟩] false (Or.inl rfl)).1
  exact ⟨m, hm, hlast [⟨"Make", .str "Canon"⟩] [⟨"Orientation", .uint16s [1]⟩]
    ⟨"XResolution", .rationals [⟨72, 1⟩, ⟨1, 1⟩]⟩ rfl (by decide) (by decide)⟩


/-! ### Keys of the structured report -/

/-- C14 as stated fails on the tag name `GoogleMapsLink`: two entries of that name followed
by a latitude entry give a map whose `GoogleMapsLink` value is the synthesized link, not the
value `b` of the last entry of that name. -/
theorem link_overwrites_same_name :
    handleJson linkNameClash true = some
      [("GoogleMapsLink", "https://www.google.com/maps?q=40.446111,0.000000"),
       ("GPSLatitude", "40.44611111111111")] ∧
    displayOf (.str "b") = "b" ∧
    (handleJson linkNameClash true).bind (fun m => mapGet m "GoogleMapsLink") ≠ some "b" := by
  refine ⟨by decide, by decide, by decide⟩

/-- C14, amended: the keys of the map built by `handleJson` are pairwise distinct and are
exactly the input tag names, plus the key `GoogleMapsLink` when coordinates were derived
(the map link is enabled and a `GPSLatitude` or `GPSLongitude` entry occurred). A tag name
occurring several times yields a single key; its value is that of its last occurrence,
unless the name is `GoogleMapsLink` and coordinates were derived: that key then holds the
synthesized link. -/
theorem report_keys (es : List ExifTag) (w : Bool) (m : GoMap)
    (h : handleJson es w = some m) :
    (mapKeys m).Nodup ∧
    (∀ k, k ∈ mapKeys m ↔
      (∃ e ∈ es, e.TagName = k) ∨
        (k = "GoogleMapsLink" ∧ w = true ∧ es.any isCoordinateTag = true)) ∧
    (∀ (pre post : List ExifTag) (e : ExifTag), es = pre ++ e :: post →
      (∀ e1 ∈ post, e1.TagName ≠ e.TagName) →
      (e.TagName ≠ "GoogleMapsLink" ∨ ¬ (w = true ∧ es.any isCoordinateTag = true)) →
      mapGet m e.TagName = some (displayOf e.Value)) ∧
    ((w = true ∧ es.any isCoordinateTag = true) →
      ∃ st, handleJsonLoop w JsonState.init es = some st ∧
        mapGet m "GoogleMapsLink" = some (googleMapsLink st.gpsLatitude st.gpsLongitude)) := by
  rw [handleJson_eq] at h
  cases hg : gpsLoop w Gps.init es with
  | none => simp [hg] at h
  | some g =>
    simp only [hg, Option.map_some', Option.some.injEq] at h
    have hflag : g.hasGPSData = (w && es.any isCoordinateTag) := by
      have := gpsLoop_flag es hg
      simpa [Gps.init] using this
    have hiff : g.hasGPSData = true ↔ (w = true ∧ es.any isCoordinateTag = true) := by
      rw [hflag, Bool.and_eq_true]
    subst h
    refine ⟨?_, ?_, ?_, ?_⟩
    · unfold reportMap
      have hn : (mapKeys (storeAll [] es)).Nodup :=
        nodup_mapKeys_storeAll es [] (by simp [mapKeys])
      split_ifs
      · exact nodup_mapKeys_mapSet _ _ _ hn
      · exact hn
    · intro k
      unfold reportMap
      by_cases hb : g.hasGPSData = true
      · rw [if_pos hb, mem_mapKeys_mapSet, mem_mapKeys_storeAll]
        have := hiff.1 hb
        simp only [mapKeys, List.map_nil, List.not_mem_nil, false_or]
        constructor
        · rintro (h1 | h1)
          · exact Or.inr ⟨h1, this⟩
          · exact Or.inl h1
        · rintro (h1 | h1)
          · exact Or.inr h1
          · exact Or.inl h1.1
      · rw [if_neg hb, mem_mapKeys_storeAll]
        simp only [mapKeys, List.map_nil, List.not_mem_nil, false_or]
        constructor
        · intro h1
          exact Or.inl h1
        · rintro (h1 | h1)
          · exact h1
          · exact absurd (hiff.2 h1.2) hb
    · intro pre post e hes hpost hname
      have hs : mapGet (storeAll [] es) e.TagName = some (displayOf e.Value) := by
        rw [hes]
        exact mapGet_storeAll_last pre post e [] hpost
      unfold reportMap
      by_cases hb : g.hasGPSData = true
      · rw [if_pos hb]
        rcases hname with h1 | h1
        · rw [mapGet_mapSet_ne _ _ h1, hs]
        · exact absurd (hiff.1 hb) h1
      · rw [if_neg hb]
        exact hs
    · intro hc
      have hb := hiff.2 hc
      refine ⟨⟨storeAll [] es, g.hasGPSData, g.gpsLatitude, g.gpsLongitude⟩, ?_, ?_⟩
      · rw [handleJsonLoop_fold]
        have : JsonState.init.gps = Gps.init := rfl
        rw [this, hg]
        rfl
      · unfold reportMap
        rw [if_pos hb]
        exact mapGet_mapSet_self _ _ _

/-- Witness of C14 (amended): a tag name occurring twice, with the map link disabled. -/
theorem report_keys_witness :
    handleJson [⟨"Make", .str "Canon"⟩, ⟨"Make", .str "Nikon"⟩] false =
        some [("Make", "Nikon")] ∧
    (mapKeys [("Make", "Nikon")]).Nodup ∧
    mapGet [("Make", "Nikon")] "Make" = some (displayOf (.str "Nikon")) := by
  have h : handleJson [⟨"Make", .str "Canon"⟩, ⟨"Make", .str "Nikon"⟩] false =
      some [("Make", "Nikon")] := by decide
  have hk := report_keys [⟨"Make", .str "Canon"⟩, ⟨"Make", .str "Nikon"⟩] false
    [("Make", "Nikon")] h
  exact ⟨h, hk.1, hk.2.2.1 [⟨"Make", .str "Canon"⟩] [] ⟨"Make", .str "Nikon"⟩ rfl
    (by simp) (Or.inl (by decide))⟩


/-! ### The text report -/

/-- On a run that completes, the text report is, in input order, the lines of each entry
(one on success, two on failure) followed by the link line when the flag is set. -/
theorem mainText_lines (es : List ExifTag) (w : Bool) (out : List String)
    (h : mainText es w = some out) :
    ∃ ts, mainLoop w TextState.init es = some ts ∧ ts.out = es.flatMap linesOf ∧
      out = (if ts.hasGPSData = true then
        es.flatMap linesOf ++
          ["Google Maps Link: " ++ googleMapsLink ts.gpsLatitude ts.gpsLongitude]
        else es.flatMap linesOf) := by
  rw [mainText_eq] at h
  cases hg : gpsLoop w Gps.init es with
  | none => simp [hg] at h
  | some g =>
    simp only [hg, Option.map_some', Option.some.injEq] at h
    refine ⟨⟨es.flatMap linesOf, g.hasGPSData, g.gpsLatitude, g.gpsLongitude⟩, ?_, rfl, ?_⟩
    · rw [mainLoop_fold]
      have : TextState.init.gps = Gps.init := rfl
      rw [this, hg]
      simp [TextState.init]
    · rw [← h]
      rfl

/-- C15 fails on the code at a `GPSLatitude` entry of two rationals followed by a `Make`
entry, with the map link enabled: the text loop writes the two lines of the first entry and
then panics in `parseGPS`, so no line is ever written for the second entry; with the map
link disabled the same entries give all three lines. -/
theorem text_run_stops_at_short_latitude :
    mainEmitted true TextState.init shortLatitude =
      (["GPSLatitude: [\x7b40 1\x7d \x7b26 1\x7d]",
        "Failed to format, type: []exifcommon.Rational"], false) ∧
    mainText shortLatitude true = none ∧
    formatValue (.str "Canon") = some (.ok "Canon") ∧
    mainText shortLatitude false = some
      ["GPSLatitude: [\x7b40 1\x7d \x7b26 1\x7d]",
       "Failed to format, type: []exifcommon.Rational", "Make: Canon"] := by
  refine ⟨by decide, by decide, by decide, by decide⟩

/-! ### Order dependence -/

/-- Every list either has no entry of the given name or splits at its last such entry. -/
theorem split_at_last_named (name : String) (es : List ExifTag) :
    (∀ e ∈ es, e.TagName ≠ name) ∨
    ∃ pre v post, es = pre ++ ⟨name, v⟩ :: post ∧ ∀ e ∈ post, e.TagName ≠ name := by
  induction es with
  | nil => exact Or.inl (by simp)
  | cons a rest ih =>
    rcases ih with h | ⟨pre, v, post, hes, hpost⟩
    · by_cases ha : a.TagName = name
      · right
        refine ⟨[], a.Value, rest, ?_, h⟩
        cases a
        simp at ha
        simp [ha]
      · left
        intro e he
        rcases List.mem_cons.1 he with h1 | h1
        · rw [h1]; exact ha
        · exact h e h1
    · right
      exact ⟨a :: pre, v, post, by rw [hes]; rfl, hpost⟩

/-- The final latitude of a completed run of the accumulator loop from the initial
accumulator. -/
theorem gpsLoop_final_latitude (es : List ExifTag) {g : Gps}
    (h : gpsLoop true Gps.init es = some g) :
    FinalCoordinate "GPSLatitude" "GPSLatitudeRef" "S" es g.gpsLatitude := by
  rcases split_at_last_named "GPSLatitude" es with hn | ⟨pre, v, post, hes, hpost⟩
  · right
    exact ⟨hn, gpsLoop_latitude es h hn⟩
  · left
    subst hes
    obtain ⟨l, x, hv, hx, hl⟩ := gpsLoop_last_latitude pre post v h hpost
    subst hv
    exact ⟨pre, post, l, x, rfl, hpost, hx, hl⟩

theorem gpsLoop_final_longitude (es : List ExifTag) {g : Gps}
    (h : gpsLoop true Gps.init es = some g) :
    FinalCoordinate "GPSLongitude" "GPSLongitudeRef" "W" es g.gpsLongitude := by
  rcases split_at_last_named "GPSLongitude" es with hn | ⟨pre, v, post, hes, hpost⟩
  · right
    exact ⟨hn, gpsLoop_longitude es h hn⟩
  · left
    subst hes
    obtain ⟨l, x, hv, hx, hl⟩ := gpsLoop_last_longitude pre post v h hpost
    subst hv
    exact ⟨pre, post, l, x, rfl, hpost, hx, hl⟩

/-- C16 as stated fails on a sequence without `GPSLatitude` entry: after a `GPSLongitude`
entry and a `GPSLatitudeRef` entry carrying `S`, no latitude entry having been observed,
both loops end with the latitude `-0`, the negated initial value, and the link starts with
`-0.000000`; without the reference entry the latitude stays `+0`. -/
theorem reference_without_coordinate :
    referenceOnly.all (fun e => decide (e.TagName ≠ "GPSLatitude")) = true ∧
    (handleJsonLoop true JsonState.init referenceOnly).map (fun st => st.gpsLatitude) =
      some (F64.fin true 0 F64.eMin) ∧
    (mainLoop true TextState.init referenceOnly).map (fun ts => ts.gpsLatitude) =
      some (F64.fin true 0 F64.eMin) ∧
    (handleJsonLoop true JsonState.init [⟨"GPSLongitude", .rationals longitudeExample⟩]).map
      (fun st => st.gpsLatitude) = some (F64.fin false 0 F64.eMin) ∧
    (handleJson referenceOnly true).bind (fun m => mapGet m "GoogleMapsLink") =
      some "https://www.google.com/maps?q=-0.000000,79.982222" ∧
    (mainText referenceOnly true).bind (fun out => out.getLast?) =
      some "Google Maps Link: https://www.google.com/maps?q=-0.000000,79.982222" ∧
    (handleJson [⟨"GPSLongitude", .rationals longitudeExample⟩] true).bind
      (fun m => mapGet m "GoogleMapsLink") =
      some "https://www.google.com/maps?q=0.000000,79.982222" := by
  refine ⟨by decide, by decide, by decide, by decide, by decide, by decide, by decide⟩

/-- C16, amended: hemisphere application depends on the order of the entries. For every
entry sequence on which a loop completes with the map link enabled, the final latitude is
the stored value negated once for each `GPSLatitudeRef` entry carrying `S` that is observed
after the last `GPSLatitude` entry, the stored value being the `parseGPS` value of that
entry; reference entries before it have no effect, since the coordinate entry overwrites
the stored scalar, so a reference that precedes its coordinate entry with none following
leaves the un-negated `parseGPS` value. When the sequence has no `GPSLatitude` entry at all,
every such reference negates the initial `+0`. Likewise for `GPSLongitude`,
`GPSLongitudeRef` and `W`, and for both loops. On the end-to-end scenario with each
reference moved before its coordinate the link carries both coordinates un-negated. -/
theorem final_coordinate_order (es : List ExifTag) :
    (∀ st, handleJsonLoop true JsonState.init es = some st →
      FinalCoordinate "GPSLatitude" "GPSLatitudeRef" "S" es st.gpsLatitude ∧
      FinalCoordinate "GPSLongitude" "GPSLongitudeRef" "W" es st.gpsLongitude) ∧
    (∀ ts, mainLoop true TextState.init es = some ts →
      FinalCoordinate "GPSLatitude" "GPSLatitudeRef" "S" es ts.gpsLatitude ∧
      FinalCoordinate "GPSLongitude" "GPSLongitudeRef" "W" es ts.gpsLongitude) ∧
    (∀ x : F64, negTimes 0 x = x ∧ negTimes 1 x = F64.neg x ∧ negTimes 2 x = x) ∧
    (handleJson refFirstScenario true).bind (fun m => mapGet m "GoogleMapsLink") =
      some "https://www.google.com/maps?q=40.446111,79.982222" ∧
    (mainText refFirstScenario true).bind (fun out => out.getLast?) =
      some "Google Maps Link: https://www.google.com/maps?q=40.446111,79.982222" := by
  refine ⟨?_, ?_, ?_, by decide, by decide⟩
  · intro st h
    have hg := handleJsonLoop_gps es h
    exact ⟨gpsLoop_final_latitude es hg, gpsLoop_final_longitude es hg⟩
  · intro ts h
    have hg := mainLoop_gps es h
    exact ⟨gpsLoop_final_latitude es hg, gpsLoop_final_longitude es hg⟩
  · intro x
    refine ⟨rfl, rfl, ?_⟩
    cases x <;> simp [negTimes, F64.neg]

/-- Witness of C16 (amended) on the scenario with the references first: the run completes
and its final latitude is described by the last `GPSLatitude` entry. -/
theorem final_coordinate_order_witness :
    (handleJsonLoop true JsonState.init refFirstScenario).isSome = true ∧
    FinalCoordinate "GPSLatitude" "GPSLatitudeRef" "S" refFirstScenario
      (F64.fin false 5692284091518302 (-47)) := by
  refine ⟨by decide, ?_⟩
  exact ((final_coordinate_order refFirstScenario).1
    ⟨[("GPSLatitudeRef", "S"), ("GPSLatitude", "40.44611111111111"),
        ("GPSLongitudeRef", "W"), ("GPSLongitude", "79.98222222222222")], true,
      F64.fin false 5692284091518302 (-47), F64.fin false 5628248534316628 (-46)⟩
    (by decide)).1

/-! ### Agreement of the two passes, and the toggle -/

/-- C17: the text loop of `main` and `handleJson` agree, for every entry sequence and both
values of the toggle: one panics exactly when the other does, and otherwise they end with
the same flag and the same stored latitude and longitude, so that the URL printed after
`Google Maps Link: ` is the value stored under `GoogleMapsLink`; and in every iteration the
string printed after the tag name in text mode is the string stored under that tag name in
structured mode. -/
theorem loops_agree (es : List ExifTag) (w : Bool) :
    ((mainLoop w TextState.init es).map TextState.gps =
      (handleJsonLoop w JsonState.init es).map JsonState.gps) ∧
    ((mainText es w).isSome = (handleJson es w).isSome) ∧
    (∀ (st : JsonState) (ts : TextState), handleJsonLoop w JsonState.init es = some st →
      mainLoop w TextState.init es = some ts →
      ts.hasGPSData = st.hasGPSData ∧ ts.gpsLatitude = st.gpsLatitude ∧
      ts.gpsLongitude = st.gpsLongitude ∧
      handleJson es w = some (if st.hasGPSData = true then
        mapSet st.exifMap "GoogleMapsLink" (googleMapsLink st.gpsLatitude st.gpsLongitude)
        else st.exifMap) ∧
      mainText es w = some (if st.hasGPSData = true then
        ts.out ++ ["Google Maps Link: " ++ googleMapsLink st.gpsLatitude st.gpsLongitude]
        else ts.out) ∧
      (st.hasGPSData = true → ∀ m out, handleJson es w = some m → mainText es w = some out →
        mapGet m "GoogleMapsLink" =
          some (googleMapsLink st.gpsLatitude st.gpsLongitude) ∧
        out.getLast? =
          some ("Google Maps Link: " ++ googleMapsLink st.gpsLatitude st.gpsLongitude))) ∧
    (∀ (st : JsonState) (ts : TextState) (e : ExifTag), st.gps = ts.gps →
      (handleJsonStep w st e).map JsonState.gps = (mainStep w ts e).map TextState.gps) ∧
    (∀ (st st1 : JsonState) (ts ts1 : TextState) (e : ExifTag),
      handleJsonStep w st e = some st1 → mainStep w ts e = some ts1 →
      ∃ s rest, mapGet st1.exifMap e.TagName = some s ∧
        ts1.out = ts.out ++ (e.TagName ++ ": " ++ s) :: rest) := by
  have hinit : JsonState.init.gps = TextState.init.gps := rfl
  refine ⟨?_, ?_, ?_, ?_, ?_⟩
  · rw [mainLoop_fold, handleJsonLoop_fold, hinit]
    cases gpsLoop w TextState.init.gps es <;> simp [TextState.gps, JsonState.gps]
  · rw [mainText_eq, handleJson_eq]
    cases gpsLoop w Gps.init es <;> simp
  · intro st ts hj ht
    have h1 := handleJsonLoop_gps es hj
    have h2 := mainLoop_gps es ht
    rw [hinit, h2] at h1
    have hg : ts.gps = st.gps := Option.some.inj h1
    have hf : ts.hasGPSData = st.hasGPSData := congrArg Gps.hasGPSData hg
    have hla : ts.gpsLatitude = st.gpsLatitude := congrArg Gps.gpsLatitude hg
    have hlo : ts.gpsLongitude = st.gpsLongitude := congrArg Gps.gpsLongitude hg
    have hJ : handleJson es w = some (if st.hasGPSData = true then
        mapSet st.exifMap "GoogleMapsLink" (googleMapsLink st.gpsLatitude st.gpsLongitude)
        else st.exifMap) := by
      cases hb : st.hasGPSData <;> simp [handleJson, hj, hb]
    have hT : mainText es w = some (if st.hasGPSData = true then
        ts.out ++ ["Google Maps Link: " ++ googleMapsLink st.gpsLatitude st.gpsLongitude]
        else ts.out) := by
      rw [← hf, ← hla, ← hlo]
      cases hb : ts.hasGPSData <;> simp [mainText, ht, hb]
    refine ⟨hf, hla, hlo, hJ, hT, ?_⟩
    intro hb m out hm hout
    rw [hJ, if_pos hb] at hm
    rw [hT, if_pos hb] at hout
    cases hm
    cases hout
    exact ⟨mapGet_mapSet_self _ _ _, by simp⟩
  · intro st ts e hg
    rw [handleJsonStep_fold, mainStep_fold, hg]
    cases gpsStep w ts.gps e <;> simp [TextState.gps, JsonState.gps]
  · intro st st1 ts ts1 e hj ht
    rw [handleJsonStep_fold] at hj
    rw [mainStep_fold] at ht
    cases hg : gpsStep w st.gps e with
    | none => simp [hg] at hj
    | some g =>
      cases hg2 : gpsStep w ts.gps e with
      | none => simp [hg2] at ht
      | some g2 =>
        simp [hg] at hj
        simp [hg2] at ht
        subst hj
        subst ht
        have hh := linesOf_head e
        cases hl : linesOf e with
        | nil => simp [hl] at hh
        | cons a rest =>
          simp [hl] at hh
          subst hh
          exact ⟨displayOf e.Value, rest, mapGet_mapSet_self _ _ _, rfl⟩

/-- Witness of C17 on one iteration over a `Make` entry, from the initial states. -/
theorem loops_agree_witness :
    ∃ s rest, mapGet [("Make", "Canon")] "Make" = some s ∧
      ["Make: Canon"] = [] ++ ("Make" ++ ": " ++ s) :: rest :=
  (loops_agree [] true).2.2.2.2 JsonState.init
    ⟨[("Make", "Canon")], false, F64.zero false, F64.zero false⟩ TextState.init
    ⟨["Make: Canon"], false, F64.zero false, F64.zero false⟩ ⟨"Make", .str "Canon"⟩
    (by decide) (by decide)

/-- C20: with the toggle off both loops complete on every entry sequence, whatever the
names and value types of its entries, no iteration touches the coordinate accumulator, the
flag stays false and no link is synthesized: the report consists of the per-entry display
strings alone. For every entry sequence accepted with the toggle on, the report is the
report with the toggle off, with at most the `GoogleMapsLink` field (the `Google Maps Link`
line in text mode) set in addition: every other key holds the same string. -/
theorem toggle_frame (es : List ExifTag) :
    (∀ (st : JsonState) (e : ExifTag), ∃ st1, handleJsonStep false st e = some st1 ∧
      st1.hasGPSData = st.hasGPSData ∧ st1.gpsLatitude = st.gpsLatitude ∧
      st1.gpsLongitude = st.gpsLongitude) ∧
    (∀ (ts : TextState) (e : ExifTag), ∃ ts1, mainStep false ts e = some ts1 ∧
      ts1.hasGPSData = ts.hasGPSData ∧ ts1.gpsLatitude = ts.gpsLatitude ∧
      ts1.gpsLongitude = ts.gpsLongitude) ∧
    (∃ st, handleJsonLoop false JsonState.init es = some st ∧ st.hasGPSData = false ∧
      st.gpsLatitude = F64.zero false ∧ st.gpsLongitude = F64.zero false ∧
      st.exifMap = storeAll [] es ∧ handleJson es false = some st.exifMap) ∧
    (∃ ts, mainLoop false TextState.init es = some ts ∧ ts.hasGPSData = false ∧
      ts.gpsLatitude = F64.zero false ∧ ts.gpsLongitude = F64.zero false ∧
      ts.out = es.flatMap linesOf ∧ mainText es false = some ts.out) ∧
    (∀ m, handleJson es true = some m →
      (m = storeAll [] es ∨ ∃ url, m = mapSet (storeAll [] es) "GoogleMapsLink" url) ∧
      (∀ k, k ≠ "GoogleMapsLink" → mapGet m k = mapGet (storeAll [] es) k)) ∧
    (∀ out, mainText es true = some out →
      out = es.flatMap linesOf ∨
        ∃ url, out = es.flatMap linesOf ++ ["Google Maps Link: " ++ url]) := by
  refine ⟨?_, ?_, ?_, ?_, ?_, ?_⟩
  · intro st e
    rw [handleJsonStep_fold]
    simp [gpsStep, JsonState.gps]
  · intro ts e
    rw [mainStep_fold]
    simp [gpsStep, TextState.gps]
  · refine ⟨⟨storeAll [] es, false, F64.zero false, F64.zero false⟩, ?_, rfl, rfl, rfl, rfl, ?_⟩
    · rw [handleJsonLoop_fold, gpsLoop_off]
      rfl
    · rw [handleJson_eq, gpsLoop_off]
      rfl
  · refine ⟨⟨es.flatMap linesOf, false, F64.zero false, F64.zero false⟩, ?_, rfl, rfl, rfl,
      rfl, ?_⟩
    · rw [mainLoop_fold, gpsLoop_off]
      simp [TextState.init, TextState.gps]
    · rw [mainText_eq, gpsLoop_off]
      rfl
  · intro m hm
    rw [handleJson_eq] at hm
    cases hg : gpsLoop true Gps.init es with
    | none => simp [hg] at hm
    | some g =>
      simp only [hg, Option.map_some', Option.some.injEq] at hm
      subst hm
      unfold reportMap
      by_cases hb : g.hasGPSData = true
      · rw [if_pos hb]
        exact ⟨Or.inr ⟨_, rfl⟩, fun k hk => mapGet_mapSet_ne _ _ hk⟩
      · rw [if_neg hb]
        exact ⟨Or.inl rfl, fun k _ => rfl⟩
  · intro out hout
    rw [mainText_eq] at hout
    cases hg : gpsLoop true Gps.init es with
    | none => simp [hg] at hout
    | some g =>
      simp only [hg, Option.map_some', Option.some.injEq] at hout
      subst hout
      unfold reportLines
      by_cases hb : g.hasGPSData = true
      · rw [if_pos hb]
        exact Or.inr ⟨_, rfl⟩
      · rw [if_neg hb]
        exact Or.inl rfl

/-- Witness of C20 on the end-to-end scenario: every key other than `GoogleMapsLink` holds
the same string with the toggle on and off. -/
theorem toggle_frame_witness :
    mapGet [("GPSLatitude", "40.44611111111111"), ("GPSLatitudeRef", "S"),
        ("GPSLongitude", "79.98222222222222"), ("GPSLongitudeRef", "W"),
        ("GoogleMapsLink", "https://www.google.com/maps?q=-40.446111,-79.982222")]
        "GPSLatitudeRef" = mapGet (storeAll [] gpsScenario) "GPSLatitudeRef" :=
  ((toggle_frame gpsScenario).2.2.2.2.1 _ (by decide)).2 "GPSLatitudeRef" (by decide)


/-! ### Rounding to nearest -/

theorem bitLenAux_spec (fuel : Nat) : ∀ n : Nat, 0 < n → n ≤ fuel →
    2 ^ (F64.bitLenAux fuel n - 1) ≤ n ∧ n < 2 ^ F64.bitLenAux fuel n ∧
      1 ≤ F64.bitLenAux fuel n := by
  induction fuel with
  | zero => intro n h0 h1; omega
  | succ f ih =>
    intro n h0 h1
    unfold F64.bitLenAux
    rw [if_neg (by omega)]
    by_cases h2 : n / 2 = 0
    · have hn : n = 1 := by omega
      subst hn
      cases f <;> simp [F64.bitLenAux]
    · obtain ⟨ha, hb, hc⟩ := ih (n / 2) (by omega) (by omega)
      refine ⟨?_, ?_, by omega⟩
      · have : F64.bitLenAux f (n / 2) + 1 - 1 = (F64.bitLenAux f (n / 2) - 1) + 1 := by omega
        rw [this, pow_succ]
        omega
      · rw [pow_succ]
        omega

theorem bitLen_spec (n : Nat) (h : 0 < n) :
    2 ^ (F64.bitLen n - 1) ≤ n ∧ n < 2 ^ F64.bitLen n ∧ 1 ≤ F64.bitLen n :=
  bitLenAux_spec n n h le_rfl

/-- The quotient rounded by `rne` is the integer nearest to `N / D`, the even one of the
two on a tie. -/
theorem rne_eq_of_near (N D m : Nat) (hD : 0 < D) (h1 : 2 * m * D ≤ 2 * N + D)
    (h2 : 2 * N ≤ 2 * m * D + D)
    (h3 : m % 2 = 1 → 2 * m * D < 2 * N + D ∧ 2 * N < 2 * m * D + D) :
    F64.rne N D = m := by
  have hN : D * (N / D) + N % D = N := Nat.div_add_mod N D
  have hr : N % D < D := Nat.mod_lt N hD
  have hm : m = N / D ∨ m = N / D + 1 := by
    by_contra hc
    push_neg at hc
    rcases Nat.lt_or_ge m (N / D) with h | h
    · have : (m + 1) * D ≤ (N / D) * D := Nat.mul_le_mul_right D h
      have a1 : (m + 1) * D = m * D + D := by ring
      have a2 : 2 * m * D = 2 * (m * D) := by ring
      have a3 : N / D * D = D * (N / D) := by ring
      omega
    · have : (N / D + 2) * D ≤ m * D := Nat.mul_le_mul_right D (by omega)
      have a1 : (N / D + 2) * D = D * (N / D) + 2 * D := by ring
      have a2 : 2 * m * D = 2 * (m * D) := by ring
      omega
  unfold F64.rne
  simp only []
  rcases hm with hm | hm
  · have e1 : 2 * m * D = 2 * (D * (N / D)) := by rw [hm]; ring
    rw [if_neg, hm]
    rintro (h | ⟨h, hq⟩)
    · omega
    · have := h3 (by omega)
      omega
  · have e1 : 2 * m * D = 2 * (D * (N / D)) + 2 * D := by rw [hm]; ring
    rw [if_pos, hm]
    by_cases h : D < 2 * (N % D)
    · exact Or.inl h
    · refine Or.inr ⟨by omega, ?_⟩
      by_contra hq
      have := h3 (by omega)
      omega

theorem rne_near (N D : Nat) (hD : 0 < D) :
    2 * F64.rne N D * D ≤ 2 * N + D ∧ 2 * N ≤ 2 * F64.rne N D * D + D := by
  have hN : D * (N / D) + N % D = N := Nat.div_add_mod N D
  have hr : N % D < D := Nat.mod_lt N hD
  unfold F64.rne
  simp only []
  split_ifs with h
  · have e1 : 2 * (N / D + 1) * D = 2 * (D * (N / D)) + 2 * D := by ring
    rcases h with h | ⟨h, -⟩ <;> omega
  · have e1 : 2 * (N / D) * D = 2 * (D * (N / D)) := by ring
    have : ¬ D < 2 * (N % D) := fun hc => h (Or.inl hc)
    omega

theorem rne_mono_bound (N D B : Nat) (hD : 0 < D) (h : N < B * D) : F64.rne N D ≤ B := by
  have hN : D * (N / D) + N % D = N := Nat.div_add_mod N D
  have hq : N / D < B := (Nat.div_lt_iff_lt_mul hD).2 h
  unfold F64.rne
  simp only []
  split_ifs <;> omega

theorem rne_ge (N D B : Nat) (hD : 0 < D) (h : B * D ≤ N) : B ≤ F64.rne N D := by
  have hq : B ≤ N / D := (Nat.le_div_iff_mul_le hD).2 h
  unfold F64.rne
  simp only []
  split_ifs <;> omega


theorem pow2_pos (e : Int) : 0 < pow2 e := zpow_pos (by norm_num) e

theorem pow2_add (a b : Int) : pow2 (a + b) = pow2 a * pow2 b :=
  zpow_add₀ (by norm_num) a b

theorem pow2_mono {a b : Int} (h : a ≤ b) : pow2 a ≤ pow2 b :=
  zpow_le_zpow_right₀ (by norm_num) h

theorem pow2_natCast (n : Nat) : pow2 (n : Int) = ((2 ^ n : Nat) : ℚ) := by
  simp [pow2, zpow_natCast]

theorem pow2_succ (a : Int) : pow2 (a + 1) = 2 * pow2 a := by
  rw [pow2_add, mul_comm]
  simp [pow2]

theorem pow2_toNat {e : Int} (h : 0 ≤ e) : ((2 ^ e.toNat : Nat) : ℚ) = pow2 e := by
  rw [← pow2_natCast, Int.toNat_of_nonneg h]

theorem pow2_neg_toNat {e : Int} (h : e ≤ 0) : ((2 ^ (-e).toNat : Nat) : ℚ) * pow2 e = 1 := by
  rw [← pow2_natCast, Int.toNat_of_nonneg (by omega), ← pow2_add]
  simp [pow2]

/-- The pair computed by `scale` has the quotient `num / den / 2^e`. -/
theorem scale_spec (num den : Nat) (e : Int) (hden : 0 < den) :
    0 < (F64.scale num den e).2 ∧
    ((F64.scale num den e).1 : ℚ) =
      ratOf num den / pow2 e * ((F64.scale num den e).2 : ℚ) := by
  have hd : (den : ℚ) ≠ 0 := by exact_mod_cast hden.ne'
  have hp := (pow2_pos e).ne'
  unfold F64.scale ratOf
  split_ifs with h
  · refine ⟨Nat.mul_pos hden (by positivity), ?_⟩
    simp only [Nat.cast_mul]
    rw [pow2_toNat h]
    field_simp
  · have h1 := pow2_neg_toNat (e := e) (by omega)
    refine ⟨hden, ?_⟩
    simp only [Nat.cast_mul]
    field_simp
    have h1q : (2 : ℚ) ^ (-e).toNat * pow2 e = 1 := by exact_mod_cast h1
    linear_combination ((num : ℚ) * (den : ℚ)) * h1q

theorem scale_le_iff (num den : Nat) (e : Int) (hden : 0 < den) (B : Nat) :
    B * (F64.scale num den e).2 ≤ (F64.scale num den e).1 ↔
      (B : ℚ) * pow2 e ≤ ratOf num den := by
  obtain ⟨h1, h2⟩ := scale_spec num den e hden
  have hD : (0 : ℚ) < (F64.scale num den e).2 := by exact_mod_cast h1
  have hp := pow2_pos e
  rw [← Nat.cast_le (α := ℚ), Nat.cast_mul, h2, mul_le_mul_right hD, le_div_iff₀ hp]

theorem scale_lt_iff (num den : Nat) (e : Int) (hden : 0 < den) (B : Nat) :
    (F64.scale num den e).1 < B * (F64.scale num den e).2 ↔
      ratOf num den < (B : ℚ) * pow2 e := by
  rw [← not_le, ← not_le, scale_le_iff num den e hden B]

/-- The exponent chosen by `ulpExp` for a positive rational: the value is below
`2^53 * 2^e`, and at least `2^52 * 2^e` unless `e` is the smallest exponent. -/
theorem ulpExp_spec (num den : Nat) (hnum : 0 < num) (hden : 0 < den) :
    F64.eMin ≤ F64.ulpExp num den ∧
    ratOf num den < 2 ^ 53 * pow2 (F64.ulpExp num den) ∧
    (F64.ulpExp num den = F64.eMin ∨ 2 ^ 52 * pow2 (F64.ulpExp num den) ≤ ratOf num den) := by
  obtain ⟨n1, n2, n3⟩ := bitLen_spec num hnum
  obtain ⟨d1, d2, d3⟩ := bitLen_spec den hden
  have hd : (0 : ℚ) < den := by exact_mod_cast hden
  set bn := F64.bitLen num with hbn
  set bd := F64.bitLen den with hbd
  set t : Int := (bn : Int) - (bd : Int) - 53 with ht
  -- 2^52 * 2^t < r < 2^54 * 2^t
  have hlow : 2 ^ 52 * pow2 t ≤ ratOf num den := by
    unfold ratOf
    rw [le_div_iff₀ hd]
    have e1 : pow2 t * pow2 53 * pow2 (bd : Int) = pow2 (bn : Int) := by
      rw [← pow2_add, ← pow2_add]; congr 1; omega
    have e2 : pow2 ((bn - 1 : Nat) : Int) * 2 = pow2 (bn : Int) := by
      rw [mul_comm, ← pow2_succ]; congr 1; omega
    have c1 : ((2 ^ (bn - 1) : Nat) : ℚ) ≤ num := by exact_mod_cast n1
    have c2 : (den : ℚ) ≤ ((2 ^ bd : Nat) : ℚ) := by exact_mod_cast d2.le
    rw [← pow2_natCast] at c1 c2
    have e3 : pow2 53 = 2 ^ 53 := zpow_natCast 2 53
    have hpt := pow2_pos t
    calc 2 ^ 52 * pow2 t * (den : ℚ) ≤ 2 ^ 52 * pow2 t * pow2 (bd : Int) := by
            apply mul_le_mul_of_nonneg_left c2; positivity
      _ = pow2 ((bn - 1 : Nat) : Int) := by
            have : 2 ^ 52 * pow2 t * pow2 (bd : Int) * 2 = pow2 ((bn - 1 : Nat) : Int) * 2 := by
              rw [e2, ← e1, e3]; ring
            linarith
      _ ≤ num := c1
  have hhigh : ratOf num den < 2 ^ 54 * pow2 t := by
    unfold ratOf
    rw [div_lt_iff₀ hd]
    have e1 : pow2 t * pow2 53 * pow2 (bd : Int) = pow2 (bn : Int) := by
      rw [← pow2_add, ← pow2_add]; congr 1; omega
    have e2 : pow2 ((bd - 1 : Nat) : Int) * 2 = pow2 (bd : Int) := by
      rw [mul_comm, ← pow2_succ]; congr 1; omega
    have c1 : (num : ℚ) < ((2 ^ bn : Nat) : ℚ) := by exact_mod_cast n2
    have c2 : ((2 ^ (bd - 1) : Nat) : ℚ) ≤ den := by exact_mod_cast d1
    rw [← pow2_natCast] at c1 c2
    have e3 : pow2 53 = 2 ^ 53 := zpow_natCast 2 53
    have hpt := pow2_pos t
    calc (num : ℚ) < pow2 (bn : Int) := c1
      _ = 2 ^ 54 * pow2 t * pow2 ((bd - 1 : Nat) : Int) := by
            rw [← e1, ← e2, e3]; ring
      _ ≤ 2 ^ 54 * pow2 t * (den : ℚ) := by
            apply mul_le_mul_of_nonneg_left c2; positivity
  unfold F64.ulpExp
  simp only []
  rw [← hbn, ← hbd, ← ht]
  have hmax : F64.eMin ≤ max t F64.eMin := le_max_right _ _
  have htm : t ≤ max t F64.eMin := le_max_left _ _
  have hc := scale_le_iff num den (max t F64.eMin) hden (2 ^ 53)
  have hdiv : 2 ^ 53 ≤ (F64.scale num den (max t F64.eMin)).1 /
      (F64.scale num den (max t F64.eMin)).2 ↔
      ((2 ^ 53 : Nat) : ℚ) * pow2 (max t F64.eMin) ≤ ratOf num den := by
    rw [Nat.le_div_iff_mul_le (scale_spec num den _ hden).1, hc]
  have hcast : ((2 ^ 53 : Nat) : ℚ) = 2 ^ 53 := by norm_num
  rw [hcast] at hdiv
  split_ifs with hq
  · have h1 := hdiv.1 hq
    refine ⟨by omega, ?_, Or.inr ?_⟩
    · rw [pow2_succ]
      have := pow2_mono htm
      have hpt := pow2_pos t
      nlinarith
    · rw [pow2_succ]
      linarith
  · have h1 : ratOf num den < 2 ^ 53 * pow2 (max t F64.eMin) := by
      rw [← not_le]
      exact fun hc2 => hq (hdiv.2 hc2)
    refine ⟨hmax, h1, ?_⟩
    by_cases hcase : t ≤ F64.eMin
    · exact Or.inl (max_eq_right hcase)
    · right
      rw [max_eq_left (by omega)]
      exact hlow


theorem pow2_four (e : Int) : pow2 e = 4 * pow2 (e - 2) := by
  have : e = (e - 2) + 1 + 1 := by omega
  conv_lhs => rw [this, pow2_succ, pow2_succ]
  ring

theorem pow2_lt_of_lt {a b : Int} (h : a < b) : 2 * pow2 a ≤ pow2 b := by
  rw [← pow2_succ]
  exact pow2_mono (by omega)

/-- The exponent of the unit in the last place is determined by the value. -/
theorem ulpExp_unique (num den : Nat) (hnum : 0 < num) (hden : 0 < den) (e : Int)
    (h1 : F64.eMin ≤ e) (h2 : ratOf num den < 2 ^ 53 * pow2 e)
    (h3 : e = F64.eMin ∨ 2 ^ 52 * pow2 e ≤ ratOf num den) : F64.ulpExp num den = e := by
  obtain ⟨s1, s2, s3⟩ := ulpExp_spec num den hnum hden
  rcases lt_trichotomy (F64.ulpExp num den) e with h | h | h
  · exfalso
    rcases h3 with h3 | h3
    · omega
    · have := pow2_lt_of_lt h
      have hp := pow2_pos (F64.ulpExp num den)
      nlinarith
  · exact h
  · exfalso
    rcases s3 with s3 | s3
    · omega
    · have := pow2_lt_of_lt h
      have hp := pow2_pos e
      nlinarith

/-- The significand computed by `rne` after scaling is `m` as soon as the value lies
within half a unit of `m * 2^e`, strictly when `m` is odd. -/
theorem rne_scale_eq (num den : Nat) (hden : 0 < den) (e : Int) (m : Nat)
    (h1 : (2 * (m : ℚ) - 1) * pow2 e ≤ 2 * ratOf num den)
    (h2 : 2 * ratOf num den ≤ (2 * (m : ℚ) + 1) * pow2 e)
    (h3 : m % 2 = 1 → (2 * (m : ℚ) - 1) * pow2 e < 2 * ratOf num den ∧
      2 * ratOf num den < (2 * (m : ℚ) + 1) * pow2 e) :
    F64.rne (F64.scale num den e).1 (F64.scale num den e).2 = m := by
  obtain ⟨hD, hN⟩ := scale_spec num den e hden
  have hDq : (0 : ℚ) < (F64.scale num den e).2 := by exact_mod_cast hD
  have hp := pow2_pos e
  set x := ratOf num den / pow2 e with hx
  have hr : ratOf num den = x * pow2 e := by rw [hx]; field_simp
  rw [hr] at h1 h2 h3
  have k1 : 2 * (m : ℚ) - 1 ≤ 2 * x := by
    by_contra hc; push_neg at hc
    nlinarith
  have k2 : 2 * x ≤ 2 * (m : ℚ) + 1 := by
    by_contra hc; push_neg at hc
    nlinarith
  apply rne_eq_of_near _ _ _ hD
  · have : ((2 * m * (F64.scale num den e).2 : Nat) : ℚ) ≤
        ((2 * (F64.scale num den e).1 + (F64.scale num den e).2 : Nat) : ℚ) := by
      push_cast
      rw [hN]
      nlinarith
    exact_mod_cast this
  · have : ((2 * (F64.scale num den e).1 : Nat) : ℚ) ≤
        ((2 * m * (F64.scale num den e).2 + (F64.scale num den e).2 : Nat) : ℚ) := by
      push_cast
      rw [hN]
      nlinarith
    exact_mod_cast this
  · intro hodd
    obtain ⟨a, b⟩ := h3 hodd
    have k3 : 2 * (m : ℚ) - 1 < 2 * x := by
      by_contra hc; push_neg at hc
      nlinarith
    have k4 : 2 * x < 2 * (m : ℚ) + 1 := by
      by_contra hc; push_neg at hc
      nlinarith
    constructor
    · have : ((2 * m * (F64.scale num den e).2 : Nat) : ℚ) <
          ((2 * (F64.scale num den e).1 + (F64.scale num den e).2 : Nat) : ℚ) := by
        push_cast
        rw [hN]
        nlinarith
      exact_mod_cast this
    · have : ((2 * (F64.scale num den e).1 : Nat) : ℚ) <
          ((2 * m * (F64.scale num den e).2 + (F64.scale num den e).2 : Nat) : ℚ) := by
        push_cast
        rw [hN]
        nlinarith
      exact_mod_cast this

/-- The significand computed by `rne` after scaling is within half a unit of the value. -/
theorem rne_scale_near (num den : Nat) (hden : 0 < den) (e : Int) :
    |(F64.rne (F64.scale num den e).1 (F64.scale num den e).2 : ℚ) * pow2 e - ratOf num den|
      ≤ pow2 e / 2 := by
  obtain ⟨hD, hN⟩ := scale_spec num den e hden
  have hDq : (0 : ℚ) < (F64.scale num den e).2 := by exact_mod_cast hD
  have hp := pow2_pos e
  obtain ⟨n1, n2⟩ := rne_near (F64.scale num den e).1 (F64.scale num den e).2 hD
  set q := F64.rne (F64.scale num den e).1 (F64.scale num den e).2 with hq
  set x := ratOf num den / pow2 e with hx
  have hr : ratOf num den = x * pow2 e := by rw [hx]; field_simp
  have c1 : ((2 * q * (F64.scale num den e).2 : Nat) : ℚ) ≤
      ((2 * (F64.scale num den e).1 + (F64.scale num den e).2 : Nat) : ℚ) := by
    exact_mod_cast n1
  have c2 : ((2 * (F64.scale num den e).1 : Nat) : ℚ) ≤
      ((2 * q * (F64.scale num den e).2 + (F64.scale num den e).2 : Nat) : ℚ) := by
    exact_mod_cast n2
  push_cast at c1 c2
  rw [hN] at c1 c2
  have k1 : 2 * (q : ℚ) ≤ 2 * x + 1 := by
    by_contra hc; push_neg at hc
    nlinarith
  have k2 : 2 * x ≤ 2 * (q : ℚ) + 1 := by
    by_contra hc; push_neg at hc
    nlinarith
  rw [hr, abs_le]
  constructor <;> nlinarith


theorem pow2_lt_imp {a b : Int} (h : pow2 a < pow2 b) : a < b := by
  by_contra hc
  exact absurd (pow2_mono (not_lt.mp hc)) (not_le.mpr h)

theorem ratOf_pos {num den : Nat} (hden : 0 < den) : 0 < ratOf num den ↔ 0 < num := by
  unfold ratOf
  have hd : (0 : ℚ) < den := by exact_mod_cast hden
  rw [div_pos_iff_of_pos_right hd]
  exact_mod_cast Iff.rfl

/-- The result of `round` on a positive rational below `2^1023`: a canonical finite value
within half a unit in the last place of the rational. -/
theorem round_spec (s : Bool) (num den : Nat) (hnum : 0 < num) (hden : 0 < den)
    (hbig : ratOf num den < pow2 1023) :
    ∃ m e, F64.round s num den = F64.fin s m e ∧ (F64.fin s m e).Canonical ∧
      |(m : ℚ) * pow2 e - ratOf num den| ≤ pow2 e / 2 := by
  obtain ⟨s1, s2, s3⟩ := ulpExp_spec num den hnum hden
  set e := F64.ulpExp num den with he
  obtain ⟨hD, hN⟩ := scale_spec num den e hden
  have hnear := rne_scale_near num den hden e
  set m0 := F64.rne (F64.scale num den e).1 (F64.scale num den e).2 with hm0
  have hp := pow2_pos e
  have hle : m0 ≤ 2 ^ 53 := by
    apply rne_mono_bound _ _ _ hD
    rw [scale_lt_iff num den e hden]
    have : ((2 ^ 53 : Nat) : ℚ) = 2 ^ 53 := by norm_num
    rw [this]
    exact s2
  have he970 : e ≤ 970 := by
    rcases s3 with s3 | s3
    · rw [s3]; decide
    · have e52 : pow2 52 = 2 ^ 52 := zpow_natCast 2 52
      have : pow2 (52 + e) < pow2 1023 := by
        rw [pow2_add, e52]
        linarith
      have := pow2_lt_imp this
      omega
  have hge : e = F64.eMin ∨ 2 ^ 52 ≤ m0 := by
    rcases s3 with s3 | s3
    · exact Or.inl s3
    · right
      apply rne_ge _ _ _ hD
      rw [scale_le_iff num den e hden]
      have : ((2 ^ 52 : Nat) : ℚ) = 2 ^ 52 := by norm_num
      rw [this]
      exact s3
  unfold F64.round
  rw [if_neg (by omega)]
  simp only []
  rw [← he, ← hm0]
  by_cases h53 : m0 = 2 ^ 53
  · rw [if_pos h53, if_neg (by simp only [F64.eMax]; omega)]
    refine ⟨2 ^ 52, e + 1, rfl, ⟨by norm_num, by omega, by simp only [F64.eMax]; omega,
      Or.inr le_rfl⟩, ?_⟩
    rw [pow2_succ]
    have hm : (m0 : ℚ) = 2 ^ 53 := by rw [h53]; norm_num
    rw [hm] at hnear
    have e1 : ((2 ^ 52 : Nat) : ℚ) * (2 * pow2 e) = 2 ^ 53 * pow2 e := by
      push_cast; ring
    rw [e1]
    exact hnear.trans (by linarith)
  · rw [if_neg h53, if_neg (by simp only [F64.eMax]; omega)]
    exact ⟨m0, e, rfl, ⟨by omega, s1, by simp only [F64.eMax]; omega, hge⟩, hnear⟩

/-- A rational inside the rounding interval of a canonical positive float rounds to that
float: `round` is rounding to nearest, ties to even. -/
theorem round_eq_of_mem_interval (s : Bool) (m : Nat) (e : Int) (num den : Nat)
    (hc : (F64.fin s m e).Canonical) (hm : 0 < m) (hden : 0 < den)
    (hin : F64.InInterval m e (ratOf num den)) :
    F64.round s num den = F64.fin s m e := by
  obtain ⟨c1, c2, c3, c4⟩ := hc
  set r := ratOf num den with hr
  set P := pow2 (e - 2) with hP
  have hP0 : 0 < P := pow2_pos _
  have h4 : pow2 e = 4 * P := pow2_four e
  have hmq : (1 : ℚ) ≤ m := by exact_mod_cast hm
  have hm53 : (m : ℚ) ≤ 2 ^ 53 - 1 := by
    have : m + 1 ≤ 2 ^ 53 := c1
    have : ((m + 1 : Nat) : ℚ) ≤ ((2 ^ 53 : Nat) : ℚ) := by exact_mod_cast this
    push_cast at this
    linarith
  -- the bounds common to every case
  have hlo : (4 * (m : ℚ) - 2) * P ≤ r := by
    unfold F64.InInterval F64.lowerBound at hin
    split_ifs at hin with a b <;> nlinarith [hin.1]
  have hhi : r ≤ (4 * (m : ℚ) + 2) * P := by
    unfold F64.InInterval F64.upperBound at hin
    split_ifs at hin with a <;> linarith [hin.2]
  have hodd : m % 2 = 1 → (4 * (m : ℚ) - 2) * P < r ∧ r < (4 * (m : ℚ) + 2) * P := by
    intro ho
    have hne : ¬ (m = 2 ^ 52 ∧ e ≠ F64.eMin) := by
      rintro ⟨h, -⟩
      rw [h] at ho
      norm_num at ho
    unfold F64.InInterval F64.lowerBound F64.upperBound at hin
    rw [if_neg (by omega), if_neg hne] at hin
    exact hin
  have hrpos : 0 < r := by nlinarith
  have hnum : 0 < num := (ratOf_pos hden).1 hrpos
  have hup : r < 2 ^ 53 * pow2 e := by
    rw [h4]
    nlinarith
  by_cases hA : e = F64.eMin ∨ 2 ^ 52 * pow2 e ≤ r
  · have hu := ulpExp_unique num den hnum hden e c2 hup hA
    have hrne := rne_scale_eq num den hden e m (by rw [h4]; linarith) (by rw [h4]; linarith)
      (fun ho => by
        obtain ⟨a, b⟩ := hodd ho
        rw [h4]
        constructor <;> linarith)
    unfold F64.round
    rw [if_neg (by omega)]
    simp only []
    rw [hu, hrne, if_neg (by omega), if_neg (by omega)]
  · push_neg at hA
    obtain ⟨hA1, hA2⟩ := hA
    rw [h4] at hA2
    have h52 : 2 ^ 52 ≤ m := by
      rcases c4 with c4 | c4
      · exact absurd c4 hA1
      · exact c4
    have hm52 : m = 2 ^ 52 := by
      by_contra hne
      have : 2 ^ 52 + 1 ≤ m := by omega
      have : ((2 ^ 52 + 1 : Nat) : ℚ) ≤ m := by exact_mod_cast this
      push_cast at this
      nlinarith
    have hlo2 : (2 ^ 54 - 1) * P ≤ r := by
      unfold F64.InInterval F64.lowerBound at hin
      rw [if_pos (by rw [hm52]; norm_num), if_pos ⟨hm52, hA1⟩] at hin
      have := hin.1
      rw [hm52] at this
      push_cast at this
      linarith
    have h2 : pow2 (e - 1) = 2 * P := by
      have : e - 1 = (e - 2) + 1 := by omega
      rw [this, pow2_succ]
    have hu := ulpExp_unique num den hnum hden (e - 1) (by omega)
      (by rw [h2]; linarith) (Or.inr (by rw [h2]; linarith))
    have hrne := rne_scale_eq num den hden (e - 1) (2 ^ 53)
      (by rw [h2]; push_cast; linarith) (by rw [h2]; push_cast; linarith)
      (fun ho => by norm_num at ho)
    unfold F64.round
    rw [if_neg (by omega)]
    simp only []
    rw [hu, hrne, if_pos rfl, if_neg (by omega), hm52]
    congr 1
    omega


/-! ### The shortest decimal lies in the rounding interval -/

theorem ten_pow_toNat {p : Int} (h : 0 ≤ p) : ((10 ^ p.toNat : Nat) : ℚ) = (10 : ℚ) ^ p := by
  rw [Nat.cast_pow, ← zpow_natCast, Int.toNat_of_nonneg h]
  norm_num

theorem ten_pow_neg_toNat {p : Int} (h : p ≤ 0) :
    ((10 ^ (-p).toNat : Nat) : ℚ) * (10 : ℚ) ^ p = 1 := by
  rw [Nat.cast_pow, ← zpow_natCast, Int.toNat_of_nonneg (by omega)]
  push_cast
  rw [← zpow_add₀ (by norm_num)]
  simp

/-- Comparison of a candidate `k * 10^p` with a bound `B / D`, as `shortestAux` makes it on
natural numbers. -/
theorem cand_le_iff (B D k : Nat) (p : Int) (hD : 0 < D) :
    (B * (if 0 ≤ p then 1 else 10 ^ (-p).toNat) ≤
      k * (if 0 ≤ p then D * 10 ^ p.toNat else D)) ↔ (B : ℚ) / D ≤ decVal k p := by
  have hDq : (0 : ℚ) < D := by exact_mod_cast hD
  unfold decVal
  rw [div_le_iff₀ hDq]
  split_ifs with h
  · rw [← Nat.cast_le (α := ℚ)]
    push_cast
    rw [mul_one, ← ten_pow_toNat h]
    push_cast
    constructor <;> intro hh <;> linarith
  · have h1 := ten_pow_neg_toNat (p := p) (by omega)
    have hpos : (0 : ℚ) < ((10 ^ (-p).toNat : Nat) : ℚ) := by positivity
    rw [← Nat.cast_le (α := ℚ)]
    push_cast at h1 hpos ⊢
    set T := (10 : ℚ) ^ (-p).toNat with hT
    constructor
    · intro hh
      have := mul_le_mul_of_nonneg_right hh (zpow_pos (by norm_num : (0 : ℚ) < 10) p).le
      have e1 : (B : ℚ) * T * (10 : ℚ) ^ p = B * (T * (10 : ℚ) ^ p) := by ring
      rw [e1, h1] at this
      linarith
    · intro hh
      have := mul_le_mul_of_nonneg_right hh hpos.le
      have e1 : (k : ℚ) * (10 : ℚ) ^ p * D * T = k * D * (T * (10 : ℚ) ^ p) := by ring
      rw [e1, h1] at this
      linarith

theorem cand_lt_iff (B D k : Nat) (p : Int) (hD : 0 < D) :
    (k * (if 0 ≤ p then D * 10 ^ p.toNat else D) <
      B * (if 0 ≤ p then 1 else 10 ^ (-p).toNat)) ↔ decVal k p < (B : ℚ) / D := by
  rw [← not_le, ← not_le, cand_le_iff B D k p hD]

theorem cand_ge_iff (B D k : Nat) (p : Int) (hD : 0 < D) :
    (k * (if 0 ≤ p then D * 10 ^ p.toNat else D) ≤
      B * (if 0 ≤ p then 1 else 10 ^ (-p).toNat)) ↔ decVal k p ≤ (B : ℚ) / D := by
  have hDq : (0 : ℚ) < D := by exact_mod_cast hD
  unfold decVal
  rw [le_div_iff₀ hDq]
  split_ifs with h
  · rw [← Nat.cast_le (α := ℚ)]
    push_cast
    rw [mul_one, ← ten_pow_toNat h]
    push_cast
    constructor <;> intro hh <;> linarith
  · have h1 := ten_pow_neg_toNat (p := p) (by omega)
    have hpos : (0 : ℚ) < ((10 ^ (-p).toNat : Nat) : ℚ) := by positivity
    rw [← Nat.cast_le (α := ℚ)]
    push_cast at h1 hpos ⊢
    set T := (10 : ℚ) ^ (-p).toNat with hT
    constructor
    · intro hh
      have := mul_le_mul_of_nonneg_right hh (zpow_pos (by norm_num : (0 : ℚ) < 10) p).le
      have e1 : (B : ℚ) * T * (10 : ℚ) ^ p = B * (T * (10 : ℚ) ^ p) := by ring
      rw [e1, h1] at this
      linarith
    · intro hh
      have := mul_le_mul_of_nonneg_right hh hpos.le
      have e1 : (k : ℚ) * (10 : ℚ) ^ p * D * T = k * D * (T * (10 : ℚ) ^ p) := by ring
      rw [e1, h1] at this
      linarith

theorem cand_gt_iff (B D k : Nat) (p : Int) (hD : 0 < D) :
    (B * (if 0 ≤ p then 1 else 10 ^ (-p).toNat) <
      k * (if 0 ≤ p then D * 10 ^ p.toNat else D)) ↔ (B : ℚ) / D < decVal k p := by
  rw [← not_le, ← not_le, cand_ge_iff B D k p hD]


/-- The search of `shortestAux` ends on a decimal inside the interval, provided the value
`X / D` itself is a multiple of `10^pmin` and the fuel reaches down to `pmin`. -/
theorem shortestAux_good (X L H D : Nat) (incl : Bool) (hLX : L < X) (hXH : X < H)
    (hD : 0 < D) (pmin : Int)
    (hex : (X * (if 0 ≤ pmin then 1 else 10 ^ (-pmin).toNat)) %
      (if 0 ≤ pmin then D * 10 ^ pmin.toNat else D) = 0) :
    ∀ (fuel : Nat) (p : Int), pmin ≤ p → p - pmin < fuel →
      GoodDec L H D incl (shortestAux X L H D incl fuel p) := by
  intro fuel
  induction fuel with
  | zero => intro p h1 h2; omega
  | succ f ih =>
    intro p h1 h2
    unfold shortestAux
    simp only []
    set c := (if 0 ≤ p then 1 else 10 ^ (-p).toNat) with hc
    set Dp := (if 0 ≤ p then D * 10 ^ p.toNat else D) with hDp
    have hcpos : 0 < c := by
      rw [hc]; split_ifs <;> positivity
    have hDppos : 0 < Dp := by
      rw [hDp]; split_ifs <;> positivity
    have hdm : Dp * (X * c / Dp) + X * c % Dp = X * c := Nat.div_add_mod _ _
    have hmod : X * c % Dp < Dp := Nat.mod_lt _ hDppos
    have hLc : L * c < X * c := Nat.mul_lt_mul_of_pos_right hLX hcpos
    have hHc : X * c < H * c := Nat.mul_lt_mul_of_pos_right hXH hcpos
    set k := X * c / Dp with hk
    have e1 : k * Dp = Dp * k := Nat.mul_comm _ _
    have e2 : (k + 1) * Dp = Dp * k + Dp := by ring
    -- the two candidates, once accepted, are good
    have gdown : (if incl = true then L * c ≤ k * Dp else L * c < k * Dp) →
        GoodDec L H D incl (k, p) := by
      intro hh
      unfold GoodDec
      cases incl
      · simp only [Bool.false_eq_true, if_false] at hh ⊢
        exact ⟨(cand_gt_iff L D k p hD).1 hh,
          (cand_lt_iff H D k p hD).1 (show k * Dp < H * c by omega)⟩
      · simp only [if_true] at hh ⊢
        exact ⟨(cand_le_iff L D k p hD).1 hh,
          (cand_ge_iff H D k p hD).1 (show k * Dp ≤ H * c by omega)⟩
    have gup : (if incl = true then (k + 1) * Dp ≤ H * c else (k + 1) * Dp < H * c) →
        GoodDec L H D incl (k + 1, p) := by
      intro hh
      unfold GoodDec
      cases incl
      · simp only [Bool.false_eq_true, if_false] at hh ⊢
        exact ⟨(cand_gt_iff L D (k + 1) p hD).1 (show L * c < (k + 1) * Dp by omega),
          (cand_lt_iff H D (k + 1) p hD).1 hh⟩
      · simp only [if_true] at hh ⊢
        exact ⟨(cand_le_iff L D (k + 1) p hD).1 (show L * c ≤ (k + 1) * Dp by omega),
          (cand_ge_iff H D (k + 1) p hD).1 hh⟩
    by_cases hdown : (if incl = true then L * c ≤ k * Dp else L * c < k * Dp)
    · by_cases hupc : (if incl = true then (k + 1) * Dp ≤ H * c else (k + 1) * Dp < H * c)
      · have hb : ((if incl = true then decide (L * c ≤ k * Dp) else decide (L * c < k * Dp)) &&
            (if incl = true then decide ((k + 1) * Dp ≤ H * c)
              else decide ((k + 1) * Dp < H * c))) = true := by
          cases incl <;> simp_all
        rw [if_pos hb]
        split_ifs
        · exact gup hupc
        · exact gdown hdown
      · have hb : ¬ ((if incl = true then decide (L * c ≤ k * Dp) else decide (L * c < k * Dp)) &&
            (if incl = true then decide ((k + 1) * Dp ≤ H * c)
              else decide ((k + 1) * Dp < H * c))) = true := by
          cases incl <;> simp_all
        have hb2 : (if incl = true then decide (L * c ≤ k * Dp) else decide (L * c < k * Dp))
            = true := by
          cases incl <;> simp_all
        rw [if_neg hb, if_pos hb2]
        exact gdown hdown
    · have hb : ¬ ((if incl = true then decide (L * c ≤ k * Dp) else decide (L * c < k * Dp)) &&
          (if incl = true then decide ((k + 1) * Dp ≤ H * c)
            else decide ((k + 1) * Dp < H * c))) = true := by
        cases incl <;> simp_all
      have hb2 : ¬ (if incl = true then decide (L * c ≤ k * Dp) else decide (L * c < k * Dp))
          = true := by
        cases incl <;> simp_all
      rw [if_neg hb, if_neg hb2]
      by_cases hupc : (if incl = true then (k + 1) * Dp ≤ H * c else (k + 1) * Dp < H * c)
      · have hb3 : (if incl = true then decide ((k + 1) * Dp ≤ H * c)
            else decide ((k + 1) * Dp < H * c)) = true := by
          cases incl <;> simp_all
        rw [if_pos hb3]
        exact gup hupc
      · have hb3 : ¬ (if incl = true then decide ((k + 1) * Dp ≤ H * c)
            else decide ((k + 1) * Dp < H * c)) = true := by
          cases incl <;> simp_all
        rw [if_neg hb3]
        have hne : p ≠ pmin := by
          intro heq
          apply hdown
          have h0 : X * c % Dp = 0 := by
            rw [hc, hDp, heq]; exact hex
          have : k * Dp = X * c := by omega
          cases incl
          · simp only [Bool.false_eq_true, if_false]; omega
          · simp only [if_true]; omega
        exact ih (p - 1) (by omega) (by omega)


/-- The shortest decimal of a positive float lies in its rounding interval. -/
theorem shortestDecimal_mem_interval (m : Nat) (e : Int) (hm : 0 < m) :
    F64.InInterval m e (decVal (shortestDecimal m e).1 (shortestDecimal m e).2) := by
  unfold shortestDecimal
  simp only []
  set t := e - 2 with ht
  set lo4 := (if m = 2 ^ 52 ∧ e ≠ F64.eMin then 4 * m - 1 else 4 * m - 2) with hlo4
  set c0 := (if 0 ≤ t then 2 ^ t.toNat else 1) with hc0
  set D := (if 0 ≤ t then 1 else 2 ^ (-t).toNat) with hD
  set p0 : Nat := (Nat.toDigits 10 ((4 * m + 2) * c0 / D)).length with hp0
  have hc0pos : 0 < c0 := by rw [hc0]; split_ifs <;> positivity
  have hDpos : 0 < D := by rw [hD]; split_ifs <;> positivity
  have hlo : lo4 < 4 * m := by rw [hlo4]; split_ifs <;> omega
  have hratio : (c0 : ℚ) / D = pow2 t := by
    rw [hc0, hD]
    split_ifs with h
    · rw [pow2_toNat h]; simp
    · have := pow2_neg_toNat (e := t) (by omega)
      have hp := pow2_pos t
      push_cast at this ⊢
      field_simp
      linarith
  have hgood := shortestAux_good (4 * m * c0) (lo4 * c0) ((4 * m + 2) * c0) D
    (decide (m % 2 = 0)) (Nat.mul_lt_mul_of_pos_right hlo hc0pos)
    (Nat.mul_lt_mul_of_pos_right (by omega) hc0pos) hDpos (min t 0)
    (by
      by_cases h : 0 ≤ t
      · have hmin : min t 0 = 0 := min_eq_right h
        rw [hmin]
        simp [hD, h, Nat.mod_one]
      · have hmin : min t 0 = t := min_eq_left (by omega)
        rw [hmin, if_neg h, if_neg h]
        apply Nat.mod_eq_zero_of_dvd
        rw [hD, if_neg h]
        exact Dvd.dvd.mul_left (pow_dvd_pow_of_dvd (by norm_num) _) _)
    (p0 + (min t 0).natAbs + 2) p0 (by omega) (by omega)
  set d := shortestAux (4 * m * c0) (lo4 * c0) ((4 * m + 2) * c0) D (decide (m % 2 = 0))
    (p0 + (min t 0).natAbs + 2) p0 with hd
  have hL : ((lo4 * c0 : Nat) : ℚ) / D = F64.lowerBound m e := by
    have hmq : (1 : ℚ) ≤ m := by exact_mod_cast hm
    rw [Nat.cast_mul, mul_div_assoc, hratio]
    unfold F64.lowerBound
    rw [hlo4]
    split_ifs
    · rw [Nat.cast_sub (by omega)]; push_cast; ring
    · rw [Nat.cast_sub (by omega)]; push_cast; ring
  have hH : (((4 * m + 2) * c0 : Nat) : ℚ) / D = F64.upperBound m e := by
    rw [Nat.cast_mul, mul_div_assoc, hratio]
    unfold F64.upperBound
    push_cast
    ring
  unfold GoodDec at hgood
  rw [hL, hH] at hgood
  unfold F64.InInterval
  by_cases hpar : m % 2 = 0
  · rw [if_pos hpar]
    simpa [hpar] using hgood
  · rw [if_neg hpar]
    simpa [hpar] using hgood


/-! ### Parsing back a rendered decimal -/

theorem digitValue_digitChar (d : Nat) (h : d < 10) :
    digitValue (Nat.digitChar d) = some d ∧ Nat.digitChar d ≠ '.' := by
  interval_cases d <;> exact ⟨by decide, by decide⟩

theorem parseDigits_append (l r : List Char) (acc : Nat) :
    parseDigits (l ++ r) acc = (parseDigits l acc).bind (fun a => parseDigits r a) := by
  induction l generalizing acc with
  | nil => simp [parseDigits]
  | cons c cs ih =>
    simp only [List.cons_append, parseDigits]
    cases digitValue c with
    | none => simp
    | some d => simp [ih]

/-- The digits written by `Nat.toDigitsCore` are a non-empty block without a point that
reads back as the number. -/
theorem toDigitsCore_parse (fuel : Nat) : ∀ (n : Nat) (acc : List Char), n < fuel →
    ∃ l, Nat.toDigitsCore 10 fuel n acc = l ++ acc ∧ l ≠ [] ∧ (∀ c ∈ l, c ≠ '.') ∧
      ∀ a, parseDigits l a = some (a * 10 ^ l.length + n) := by
  induction fuel with
  | zero => intro n acc h; omega
  | succ f ih =>
    intro n acc h
    unfold Nat.toDigitsCore
    obtain ⟨hv, hp⟩ := digitValue_digitChar (n % 10) (Nat.mod_lt _ (by decide))
    by_cases h0 : n / 10 = 0
    · simp only [h0, if_true]
      refine ⟨[Nat.digitChar (n % 10)], rfl, by simp, by simpa using hp, ?_⟩
      intro a
      simp only [parseDigits, hv, Option.some_bind, List.length_singleton, pow_one]
      congr 1
      omega
    · simp only [h0, if_false]
      obtain ⟨l, hl, hne, hdot, hparse⟩ := ih (n / 10) (Nat.digitChar (n % 10) :: acc) (by omega)
      refine ⟨l ++ [Nat.digitChar (n % 10)], by rw [hl]; simp, by simp, ?_, ?_⟩
      · intro c hc
        rcases List.mem_append.1 hc with h1 | h1
        · exact hdot c h1
        · simp at h1; rw [h1]; exact hp
      · intro a
        rw [parseDigits_append, hparse]
        simp only [Option.some_bind, parseDigits, hv, List.length_append,
          List.length_singleton, pow_succ]
        congr 1
        have := Nat.div_add_mod n 10
        ring_nf
        ring_nf at this
        omega

theorem toDigits_parse (n : Nat) :
    Nat.toDigits 10 n ≠ [] ∧ (∀ c ∈ Nat.toDigits 10 n, c ≠ '.') ∧
      ∀ a, parseDigits (Nat.toDigits 10 n) a =
        some (a * 10 ^ (Nat.toDigits 10 n).length + n) := by
  obtain ⟨l, hl, hne, hdot, hparse⟩ := toDigitsCore_parse (n + 1) n [] (by omega)
  have : Nat.toDigits 10 n = l := by
    unfold Nat.toDigits
    rw [hl]
    simp
  rw [this]
  exact ⟨hne, hdot, hparse⟩

theorem parseDigits_zeros (z : Nat) (a : Nat) :
    parseDigits (List.replicate z '0') a = some (a * 10 ^ z) := by
  induction z generalizing a with
  | zero => simp [parseDigits]
  | succ z ih =>
    have h0 : digitValue '0' = some 0 := by decide
    simp only [List.replicate_succ, parseDigits, h0, Option.some_bind, ih, pow_succ]
    congr 1
    ring

theorem takeWhile_point (l r : List Char) (h : ∀ c ∈ l, c ≠ '.') :
    (l ++ '.' :: r).takeWhile (fun c => c != '.') = l ∧
    (l ++ '.' :: r).dropWhile (fun c => c != '.') = '.' :: r := by
  induction l with
  | nil => simp [List.takeWhile, List.dropWhile]
  | cons c cs ih =>
    have hc : c ≠ '.' := h c (List.mem_cons_self _ _)
    obtain ⟨i1, i2⟩ := ih (fun x hx => h x (List.mem_cons_of_mem _ hx))
    have hb : (c != '.') = true := by simpa using hc
    simp [List.takeWhile, List.dropWhile, hb, i1, i2]

theorem takeWhile_no_point (l : List Char) (h : ∀ c ∈ l, c ≠ '.') :
    l.takeWhile (fun c => c != '.') = l ∧ l.dropWhile (fun c => c != '.') = [] := by
  induction l with
  | nil => simp
  | cons c cs ih =>
    have hc : c ≠ '.' := h c (List.mem_cons_self _ _)
    obtain ⟨i1, i2⟩ := ih (fun x hx => h x (List.mem_cons_of_mem _ hx))
    have hb : (c != '.') = true := by simpa using hc
    simp [List.takeWhile, List.dropWhile, hb, i1, i2]

theorem toDigits_length_le (n w : Nat) (hw : 0 < w) (h : n < 10 ^ w) :
    (Nat.toDigits 10 n).length ≤ w :=
  Nat.toDigitsCore_length 10 (by decide) (n + 1) n w h hw


/-- A rendered decimal reads back as a pair with the same value. -/
theorem parseDecimal_renderDecimal (k : Nat) (p : Int) :
    ∃ K n, parseDecimal (renderDecimal k p).data = some (K, n) ∧
      ratOf K (10 ^ n) = decVal k p := by
  unfold renderDecimal
  split_ifs with h
  · obtain ⟨hne, hdot, hparse⟩ := toDigits_parse (k * 10 ^ p.toNat)
    obtain ⟨t1, t2⟩ := takeWhile_no_point _ hdot
    refine ⟨k * 10 ^ p.toNat, 0, ?_, ?_⟩
    · unfold parseDecimal formatUint
      simp only [t1, t2, hne, if_false, hparse]
      simp
    · unfold ratOf decVal
      rw [Nat.cast_mul, ten_pow_toNat h]
      simp
  · set n := (-p).toNat with hn
    have hn1 : 0 < n := by omega
    obtain ⟨ine, idot, iparse⟩ := toDigits_parse (k / 10 ^ n)
    obtain ⟨fne, fdot, fparse⟩ := toDigits_parse (k % 10 ^ n)
    have flen : (Nat.toDigits 10 (k % 10 ^ n)).length ≤ n :=
      toDigits_length_le _ n hn1 (Nat.mod_lt _ (by positivity))
    set ip := Nat.toDigits 10 (k / 10 ^ n) with hip
    set fd := Nat.toDigits 10 (k % 10 ^ n) with hfd
    set fp := List.replicate (n - fd.length) '0' ++ fd with hfp
    have hdata : (formatUint (k / 10 ^ n) ++ "." ++ padDigits n (k % 10 ^ n)).data =
        ip ++ '.' :: fp := by
      simp [formatUint, padDigits, String.data_append, hip, hfp, hfd]
    obtain ⟨t1, t2⟩ := takeWhile_point ip fp idot
    have hfplen : fp.length = n := by
      rw [hfp, List.length_append, List.length_replicate]
      omega
    have hparse : parseDigits (ip ++ fp) 0 = some k := by
      rw [parseDigits_append, iparse, Option.some_bind, hfp, parseDigits_append,
        parseDigits_zeros, Option.some_bind, fparse]
      congr 1
      have e1 : (0 * 10 ^ ip.length + k / 10 ^ n) * 10 ^ (n - fd.length) * 10 ^ fd.length =
          k / 10 ^ n * 10 ^ n := by
        rw [Nat.zero_mul, Nat.zero_add, Nat.mul_assoc, ← pow_add]
        congr 2
        omega
      rw [e1]
      have := Nat.div_add_mod k (10 ^ n)
      rw [Nat.mul_comm] at this
      exact this
    refine ⟨k, n, ?_, ?_⟩
    · rw [hdata]
      unfold parseDecimal
      simp only [t1, t2, hparse, hfplen]
      simp [ine]
    · unfold ratOf decVal
      have h1 := ten_pow_neg_toNat (p := p) (by omega)
      rw [← hn] at h1
      have hpos : (0 : ℚ) < ((10 ^ n : Nat) : ℚ) := by positivity
      rw [div_eq_iff hpos.ne']
      have e2 : (k : ℚ) * (10 : ℚ) ^ p * ((10 ^ n : Nat) : ℚ) =
          k * (((10 ^ n : Nat) : ℚ) * (10 : ℚ) ^ p) := by ring
      rw [e2, h1, mul_one]

/-- A string that reads as a decimal does not start with a sign and is not `NaN`. -/
theorem parseDecimal_head {cs : List Char} {d : Nat × Nat} (h : parseDecimal cs = some d) :
    cs.head? ≠ some '-' ∧ cs.head? ≠ some '+' ∧ cs ≠ ['N', 'a', 'N'] := by
  refine ⟨?_, ?_, ?_⟩
  · intro hc
    cases cs with
    | nil => simp at hc
    | cons c rest =>
      simp at hc
      subst hc
      unfold parseDecimal at h
      have hb : ('-' != '.') = true := by decide
      have hv : digitValue '-' = none := by decide
      simp only [List.takeWhile, List.dropWhile, hb] at h
      cases hd : List.dropWhile (fun c => c != '.') rest with
      | nil => simp [hd, parseDigits, hv] at h
      | cons x fp => simp [hd, parseDigits, hv] at h
  · intro hc
    cases cs with
    | nil => simp at hc
    | cons c rest =>
      simp at hc
      subst hc
      unfold parseDecimal at h
      have hb : ('+' != '.') = true := by decide
      have hv : digitValue '+' = none := by decide
      simp only [List.takeWhile, List.dropWhile, hb] at h
      cases hd : List.dropWhile (fun c => c != '.') rest with
      | nil => simp [hd, parseDigits, hv] at h
      | cons x fp => simp [hd, parseDigits, hv] at h
  · intro hc
    subst hc
    have : parseDecimal ['N', 'a', 'N'] = none := by decide
    rw [this] at h
    cases h


/-! ### Round trip of the shortest rendering -/

/-- The digits of the rendering of a canonical finite value read back as a decimal that
rounds to the value. -/
theorem parseDecimal_body (s : Bool) (m : Nat) (e : Int) (hc : (F64.fin s m e).Canonical) :
    ∃ d, parseDecimal (if m = 0 then "0" else
        renderDecimal (shortestDecimal m e).1 (shortestDecimal m e).2).data = some d ∧
      F64.round s d.1 (10 ^ d.2) = F64.fin s m e := by
  by_cases hm : m = 0
  · subst hm
    obtain ⟨-, -, -, c4⟩ := hc
    have he : e = F64.eMin := by
      rcases c4 with c4 | c4
      · exact c4
      · norm_num at c4
    subst he
    exact ⟨(0, 0), by decide, by simp [F64.round, F64.zero]⟩
  · rw [if_neg hm]
    obtain ⟨K, n, hp, hv⟩ := parseDecimal_renderDecimal (shortestDecimal m e).1
      (shortestDecimal m e).2
    refine ⟨(K, n), hp, ?_⟩
    apply round_eq_of_mem_interval s m e K (10 ^ n) hc (Nat.pos_of_ne_zero hm) (by positivity)
    rw [hv]
    exact shortestDecimal_mem_interval m e (Nat.pos_of_ne_zero hm)

/-- The shortest rendering of a canonical `float64` parses back to the same `float64`. -/
theorem parseFloat_formatFloat (x : F64) (hc : x.Canonical) :
    parseFloat (formatFloat x) = some x := by
  cases x with
  | nan => decide
  | inf s => cases s <;> decide
  | fin s m e =>
    obtain ⟨d, hd, hr⟩ := parseDecimal_body s m e hc
    set body := (if m = 0 then "0" else
        renderDecimal (shortestDecimal m e).1 (shortestDecimal m e).2) with hbody
    obtain ⟨h1, h2, h3⟩ := parseDecimal_head hd
    have hfmt : formatFloat (F64.fin s m e) = (if s = true then "-" else "") ++ body := rfl
    rw [hfmt]
    cases s
    · have hs : (if false = true then "-" else "") ++ body = body := by
        simp
      rw [hs]
      unfold parseFloat
      have hne : body ≠ "NaN" := by
        intro hb
        apply h3
        rw [hb]
      rw [if_neg hne, if_neg h1, if_neg h2]
      unfold parseMagnitude
      rw [hd]
      simp [hr]
    · have hdata : ((if true = true then "-" else "") ++ body).data = '-' :: body.data := by
        simp [String.data_append]
      unfold parseFloat
      have hne : (if true = true then "-" else "") ++ body ≠ "NaN" := by
        intro hb
        have := congrArg String.data hb
        rw [hdata] at this
        simp at this
      rw [if_neg hne, hdata]
      simp only [List.head?_cons, if_true, List.tail_cons]
      unfold parseMagnitude
      rw [hd]
      simp [hr]


/-! ### Quotients of unsigned integers -/

theorem mem_interval_self (m : Nat) (e : Int) (hm : 0 < m) :
    F64.InInterval m e ((m : ℚ) * pow2 e) := by
  have hP := pow2_pos (e - 2)
  have h4 := pow2_four e
  have hmq : (1 : ℚ) ≤ m := by exact_mod_cast hm
  have hlo : F64.lowerBound m e < (m : ℚ) * pow2 e := by
    unfold F64.lowerBound
    rw [h4]
    split_ifs <;> nlinarith
  have hhi : (m : ℚ) * pow2 e < F64.upperBound m e := by
    unfold F64.upperBound
    rw [h4]
    nlinarith
  unfold F64.InInterval
  split_ifs
  · exact ⟨hlo.le, hhi.le⟩
  · exact ⟨hlo, hhi⟩

/-- An unsigned integer below `2^53` converts to `float64` exactly. -/
theorem ofNat_exact (n : Nat) (h : n < 2 ^ 53) :
    ∃ m e, F64.ofNat n = F64.fin false m e ∧ (F64.fin false m e).Canonical ∧
      (m : ℚ) * pow2 e = n ∧ (m = 0 ↔ n = 0) := by
  by_cases h0 : n = 0
  · subst h0
    exact ⟨0, F64.eMin, by simp [F64.ofNat, F64.round, F64.zero],
      ⟨by norm_num, le_rfl, by decide, Or.inl rfl⟩, by simp, by simp⟩
  · have hpos : 0 < n := Nat.pos_of_ne_zero h0
    obtain ⟨b1, b2, b3⟩ := bitLen_spec n hpos
    have hL : F64.bitLen n ≤ 53 := bitLenAux_le n n 53 h
    set L := F64.bitLen n with hLdef
    have hval : ((n * 2 ^ (53 - L) : Nat) : ℚ) * pow2 ((L : Int) - 53) = n := by
      have : ((2 ^ (53 - L) : Nat) : ℚ) * pow2 ((L : Int) - 53) = 1 := by
        rw [← pow2_natCast, ← pow2_add]
        have : ((53 - L : Nat) : Int) + ((L : Int) - 53) = 0 := by omega
        rw [this]
        simp [pow2]
      rw [Nat.cast_mul, mul_assoc, this, mul_one]
    have hm1 : n * 2 ^ (53 - L) < 2 ^ 53 := by
      have : 2 ^ L * 2 ^ (53 - L) = 2 ^ 53 := by
        rw [← pow_add]; congr 1; omega
      calc n * 2 ^ (53 - L) < 2 ^ L * 2 ^ (53 - L) :=
            Nat.mul_lt_mul_of_pos_right b2 (by positivity)
        _ = 2 ^ 53 := this
    have hm2 : 2 ^ 52 ≤ n * 2 ^ (53 - L) := by
      have : 2 ^ (L - 1) * 2 ^ (53 - L) = 2 ^ 52 := by
        rw [← pow_add]; congr 1; omega
      calc 2 ^ 52 = 2 ^ (L - 1) * 2 ^ (53 - L) := this.symm
        _ ≤ n * 2 ^ (53 - L) := Nat.mul_le_mul_right _ b1
    have hcan : (F64.fin false (n * 2 ^ (53 - L)) ((L : Int) - 53)).Canonical :=
      ⟨hm1, by simp only [F64.eMin]; omega, by simp only [F64.eMax]; omega, Or.inr hm2⟩
    have hmpos : 0 < n * 2 ^ (53 - L) := by positivity
    refine ⟨n * 2 ^ (53 - L), (L : Int) - 53, ?_, hcan, hval, by omega⟩
    unfold F64.ofNat
    apply round_eq_of_mem_interval false _ _ n 1 hcan hmpos (by decide)
    have hr : ratOf n 1 = ((n * 2 ^ (53 - L) : Nat) : ℚ) * pow2 ((L : Int) - 53) := by
      rw [hval]
      simp [ratOf]
    rw [hr]
    exact mem_interval_self _ _ hmpos

/-- The quotient of two finite values with a non-zero divisor is the exact quotient,
rounded. -/
theorem div_fin_eq (s t : Bool) (m n : Nat) (e f : Int) (hn : n ≠ 0) :
    ∃ num den, 0 < den ∧
      F64.div (F64.fin s m e) (F64.fin t n f) = F64.round (xor s t) num den ∧
      ratOf num den = ((m : ℚ) * pow2 e) / ((n : ℚ) * pow2 f) ∧ (num = 0 ↔ m = 0) := by
  have hnq : (n : ℚ) ≠ 0 := by exact_mod_cast hn
  have hpe := (pow2_pos e).ne'
  have hpf := (pow2_pos f).ne'
  simp only [F64.div, hn, if_false]
  by_cases hd : 0 ≤ e - f
  · refine ⟨m * 2 ^ (e - f).toNat, n, Nat.pos_of_ne_zero hn, by rw [if_pos hd], ?_, ?_⟩
    · unfold ratOf
      rw [Nat.cast_mul, pow2_toNat hd]
      have : pow2 e = pow2 (e - f) * pow2 f := by rw [← pow2_add]; congr 1; omega
      rw [this]
      field_simp
      ring
    · have : 0 < 2 ^ (e - f).toNat := by positivity
      constructor
      · intro h
        rcases Nat.mul_eq_zero.1 h with h | h
        · exact h
        · omega
      · intro h
        rw [h, Nat.zero_mul]
  · refine ⟨m, n * 2 ^ (-(e - f)).toNat, by positivity, by rw [if_neg hd], ?_, Iff.rfl⟩
    unfold ratOf
    have h1 := pow2_neg_toNat (e := e - f) (by omega)
    have h2 : pow2 e = pow2 (e - f) * pow2 f := by rw [← pow2_add]; congr 1; omega
    have hp := (pow2_pos (e - f)).ne'
    rw [Nat.cast_mul, h2]
    have hT : ((2 ^ (-(e - f)).toNat : Nat) : ℚ) = (pow2 (e - f))⁻¹ :=
      eq_inv_of_mul_eq_one_left h1
    rw [hT]
    field_simp
    ring

/-- The quotient `float64(a) / float64(b)` of two unsigned integers below `2^53` is the
`float64` nearest to `a / b`: it is canonical and within half a unit in the last place. -/
theorem div_ofNat_near (a b : Nat) (ha : a < 2 ^ 53) (hb : b < 2 ^ 53) (hb0 : b ≠ 0) :
    (F64.div (F64.ofNat a) (F64.ofNat b)).Canonical ∧
    |(F64.div (F64.ofNat a) (F64.ofNat b)).toRat - (a : ℚ) / b| ≤
      (F64.div (F64.ofNat a) (F64.ofNat b)).ulp / 2 := by
  obtain ⟨m, e, hA, cA, vA, zA⟩ := ofNat_exact a ha
  obtain ⟨n, f, hB, cB, vB, zB⟩ := ofNat_exact b hb
  have hn : n ≠ 0 := fun h => hb0 (zB.1 h)
  obtain ⟨num, den, hden, hdiv, hrat, hz⟩ := div_fin_eq false false m n e f hn
  rw [hA, hB, hdiv]
  rw [vA, vB] at hrat
  have hbq : (0 : ℚ) < b := by exact_mod_cast Nat.pos_of_ne_zero hb0
  by_cases ha0 : a = 0
  · have hnum : num = 0 := hz.2 (zA.2 ha0)
    subst hnum
    subst ha0
    simp only [F64.round, if_true, F64.zero, Bool.xor_false]
    refine ⟨⟨by norm_num, le_rfl, by decide, Or.inl rfl⟩, ?_⟩
    simp [F64.toRat, F64.ulp]
    exact div_nonneg (pow2_pos _).le (by norm_num)
  · have hnum : 0 < num := by
      rcases Nat.eq_zero_or_pos num with h | h
      · exact absurd (zA.1 (hz.1 h)) ha0
      · exact h
    have hbig : ratOf num den < pow2 1023 := by
      rw [hrat]
      have h1 : (a : ℚ) / b ≤ a := div_le_self (by positivity) (by exact_mod_cast Nat.pos_of_ne_zero hb0)
      have h2 : (a : ℚ) < 2 ^ 53 := by exact_mod_cast ha
      have h3 : (2 : ℚ) ^ 53 = pow2 53 := (zpow_natCast 2 53).symm
      have h4 : pow2 53 ≤ pow2 1023 := pow2_mono (by decide)
      linarith
    obtain ⟨m1, e1, hr, hc, hnear⟩ := round_spec (xor false false) num den hnum hden hbig
    rw [hr]
    refine ⟨hc, ?_⟩
    rw [hrat] at hnear
    simpa [F64.toRat, F64.ulp, pow2] using hnear


/-- C11 as stated fails for 64-bit elements: for `a = 2^63 + 2^10` and `b = 2^53 + 3` the
conversions round `a` down to `2^63` and `b` up to `2^53 + 4`, `formatValue` returns
`1023.9999999999995`, which parses back to `9007199254740988 * 2^-43`, and that float is
more than two units in the last place (`2^-43`, for the float and for the exact quotient
alike, both lying between 512 and 1024) away from `a / b`. -/
theorem uint64_pair_two_ulp :
    formatValue (.uint64s [9223372036854776832, 9007199254740995]) =
      some (.ok "1023.9999999999995") ∧
    parseFloat "1023.9999999999995" = some (F64.fin false 9007199254740988 (-43)) ∧
    F64.ofNat 9223372036854776832 = F64.fin false (2 ^ 52) 11 ∧
    F64.ofNat 9007199254740995 = F64.fin false 4503599627370498 1 ∧
    (F64.fin false 9007199254740988 (-43)).ulp = pow2 (-43) ∧
    (512 : ℚ) ≤ (9223372036854776832 : ℚ) / 9007199254740995 ∧
    (9223372036854776832 : ℚ) / 9007199254740995 < 1024 ∧
    (512 : ℚ) ≤ (F64.fin false 9007199254740988 (-43)).toRat ∧
    (F64.fin false 9007199254740988 (-43)).toRat < 1024 ∧
    2 * pow2 (-43) < |(F64.fin false 9007199254740988 (-43)).toRat -
      (9223372036854776832 : ℚ) / 9007199254740995| := by
  refine ⟨by decide, by decide, by decide, by decide, rfl, by norm_num, by norm_num,
    by norm_num [F64.toRat], by norm_num [F64.toRat], ?_⟩
  rw [abs_sub_comm, lt_abs]
  left
  norm_num [F64.toRat, pow2]

/-- C11, amended: for every unsigned-integer sequence `(a, b)` of length 2 with `b`
non-zero and both elements below `2^53` (every sequence of width 8, 16 or 32 bits, and the
64-bit ones with such elements), `formatValue` succeeds, its output string parses back to
the `float64` quotient `x` of the two conversions, and `x` is within half a unit in the last
place, hence within one, of the exact quotient `a / b`. -/
theorem uint_pair_within_ulp (a b : Nat) (ha : a < 2 ^ 53) (hb : b < 2 ^ 53) (hb0 : b ≠ 0) :
    ∃ x, x = F64.div (F64.ofNat a) (F64.ofNat b) ∧
      formatValue (.uint8s [a, b]) = some (.ok (formatFloat x)) ∧
      formatValue (.uint16s [a, b]) = some (.ok (formatFloat x)) ∧
      formatValue (.uint32s [a, b]) = some (.ok (formatFloat x)) ∧
      formatValue (.uint64s [a, b]) = some (.ok (formatFloat x)) ∧
      parseFloat (formatFloat x) = some x ∧
      |x.toRat - (a : ℚ) / b| ≤ x.ulp / 2 ∧
      |x.toRat - (a : ℚ) / b| ≤ x.ulp := by
  obtain ⟨hc, hnear⟩ := div_ofNat_near a b ha hb hb0
  refine ⟨_, rfl, by simp [formatValue, formatUintSlice], by simp [formatValue, formatUintSlice],
    by simp [formatValue, formatUintSlice], by simp [formatValue, formatUintSlice],
    parseFloat_formatFloat _ hc, hnear, hnear.trans ?_⟩
  have : 0 ≤ (F64.div (F64.ofNat a) (F64.ofNat b)).ulp := by
    cases F64.div (F64.ofNat a) (F64.ofNat b) with
    | nan => simp [F64.ulp]
    | inf s => simp [F64.ulp]
    | fin s m e => exact (pow2_pos e).le
  linarith

/-- Witness of C11 (amended) on the pair `(1, 3)`. -/
theorem uint_pair_within_ulp_witness :
    (1 : Nat) < 2 ^ 53 ∧ (3 : Nat) < 2 ^ 53 ∧ (3 : Nat) ≠ 0 ∧
    formatValue (.uint16s [1, 3]) = some (.ok "0.3333333333333333") ∧
    parseFloat "0.3333333333333333" = some (F64.div (F64.ofNat 1) (F64.ofNat 3)) := by
  obtain ⟨x, hx, -, h16, -, -, hp, -⟩ := uint_pair_within_ulp 1 3 (by decide) (by decide)
    (by decide)
  have hf : formatFloat (F64.div (F64.ofNat 1) (F64.ofNat 3)) = "0.3333333333333333" := by
    decide
  subst hx
  rw [hf] at h16 hp
  exact ⟨by decide, by decide, by decide, h16, hp⟩

end GoExif
